import Mathlib

/-!
The buffer pool of Source/XnDDK/XnBufferPool.cpp

A shallow embedding of the reference-counted buffer pool.  Buffer records live
on a heap and the two lists of the pool hold addresses of records, exactly as
the C++ lists hold `XnBufferInPool*`.  Every member function becomes a function
on pool states.  A function that reads or writes through a record pointer
returns `none` when that pointer does not refer to a live record (the C++
behaviour is undefined there).

The diagnostic dump (`m_dump`) is written but never read by the code and is left
out.  Calls of the destruction hook `DestroyBuffer` are recorded in the field
`destroyed`, and records released with `XN_DELETE` in the field `freed`.
-/

/-- Status codes returned by the pool (the values used in the source file, plus
any other code a collaborator may hand back). -/
inductive XnStatus where
  | XN_STATUS_OK
  | XN_STATUS_ALLOC_FAILED
  | XN_STATUS_ERROR (code : Nat)
  deriving DecidableEq, Repr

/-- Address of a buffer record on the heap. A handle `XnBuffer*` is an
`Option Ptr`, with `none` for `NULL`. -/
abbrev Ptr := Nat

/-- Modelled from the spec: the class declaration of `XnBufferInPool` (header
`XnBufferPool.h`) is not among the sources.  The fields are the ones the code
reads and writes (`m_nID`, `m_nRefCount`, `m_bDestroy`, and the external data
pointer and size set by `SetExternalBuffer`).  Following section 3 of the spec
the id is a natural number and the reference count an integer without a bound;
the count is an `Int` so that `--` on a zero count gives a non-zero value, as
it does for every machine integer type. -/
structure XnBufferInPool where
  m_nID : Nat
  m_nRefCount : Int
  m_bDestroy : Bool
  m_pData : Nat
  m_nSize : Nat
  deriving DecidableEq, Repr

/-- Modelled from the spec: the class declaration of `XnBufferPool` (header
`XnBufferPool.h`) is not among the sources.  The members are the ones the code
uses.  `m_hLock` is `none` for a `NULL` handle and `some n` for a critical
section entered `n` times and not yet left.  `heap` holds every record ever
allocated, in allocation order, and a record's address is its index; `freed`
lists the addresses released with `XN_DELETE`; `destroyed` lists the raw
storage pointers handed to `DestroyBuffer`, in call order. -/
structure XnBufferPool where
  m_nBufferSize : Nat
  m_nNextBufferID : Nat
  m_hLock : Option Nat
  m_AllBuffers : List Ptr
  m_FreeBuffers : List Ptr
  heap : List XnBufferInPool
  freed : List Ptr
  destroyed : List Nat
  deriving DecidableEq, Repr

/-- The allocation hook `AllocateBuffers`, a pure virtual function implemented
outside the sources, taken as a parameter.  One run of the hook registers
buffers through `AddNewBuffer` (each call with the outcome of the record
allocation, the raw storage pointer and the size) and then returns a status of
type `XnStatus`, which `ChangeBufferSize` receives in `nRetVal`. -/
structure AllocRun where
  calls : List (Bool × Nat × Nat)
  status : XnStatus

namespace XnBufferPool

/-- The constructor `XnBufferPool::XnBufferPool()`: size 0, next id 0, no lock,
empty lists. -/
def construct : XnBufferPool :=
  { m_nBufferSize := 0, m_nNextBufferID := 0, m_hLock := none,
    m_AllBuffers := [], m_FreeBuffers := [], heap := [], freed := [],
    destroyed := [] }

/-- The call `xnOSEnterCriticalSection(&m_hLock)`: one more entry on an existing lock,
nothing on a `NULL` handle. -/
def xnOSEnterCriticalSection (s : XnBufferPool) : XnBufferPool :=
  { s with m_hLock := s.m_hLock.map (· + 1) }

/-- The call `xnOSLeaveCriticalSection(&m_hLock)`: one entry less. -/
def xnOSLeaveCriticalSection (s : XnBufferPool) : XnBufferPool :=
  { s with m_hLock := s.m_hLock.map (· - 1) }

/-- Read through a record pointer: the record, or `none` when the address was
never allocated or was released. -/
def deref (s : XnBufferPool) (p : Ptr) : Option XnBufferInPool :=
  if p ∈ s.freed then none else s.heap[p]?

/-- Write a record through a pointer. -/
def store (s : XnBufferPool) (p : Ptr) (b : XnBufferInPool) : XnBufferPool :=
  { s with heap := s.heap.set p b }

/-- The member function `XnBufferPool::Free()`: closes the critical section when there is one and
resets the handle. -/
def Free (s : XnBufferPool) : XnBufferPool :=
  match s.m_hLock with
  | some _ => { s with m_hLock := none }
  | none => s

/-- The destructor `XnBufferPool::~XnBufferPool()`, which calls
`XnBufferPool::Free()`. -/
def destruct (s : XnBufferPool) : XnBufferPool :=
  Free s

/-- The loop of `XnBufferPool::FreeAll` over the nodes of `m_AllBuffers`.
`kept` are the nodes already visited and left in the list, `todo` the nodes
still to visit. -/
def FreeAllLoop (bForce : Bool) :
    List Ptr → List Ptr → XnBufferPool → Option XnBufferPool
  | kept, [], s => some { s with m_AllBuffers := kept }
  | kept, p :: rest, s =>
    match s.deref p with
    | none => none
    | some b =>
      if bForce || b.m_nRefCount == 0 then
        -- DestroyBuffer(pBuffer->GetData()); XN_DELETE(pBuffer); Remove(currIt)
        FreeAllLoop bForce kept rest
          { s with destroyed := s.destroyed ++ [b.m_pData], freed := s.freed ++ [p] }
      else
        -- pBuffer->m_bDestroy = TRUE
        FreeAllLoop bForce (kept ++ [p]) rest (s.store p { b with m_bDestroy := true })

/-- The member function `XnBufferPool::FreeAll(bForceDestroyOfLockedBuffers)`. -/
def FreeAll (s : XnBufferPool) (bForce : Bool) : Option XnBufferPool :=
  (FreeAllLoop bForce [] s.m_AllBuffers s).map fun t => { t with m_FreeBuffers := [] }

/-- The member function `XnBufferPool::AddNewBuffer(pBuffer, nSize)`.  `recOk`
tells whether `XN_VALIDATE_NEW` obtained memory for the record.  The record
constructor is in the header, which is not among the sources; as in the spec a
new record has count 0 and is not marked for destruction. -/
def AddNewBuffer (s : XnBufferPool) (recOk : Bool) (pBuffer nSize : Nat) :
    XnStatus × XnBufferPool :=
  if recOk then
    let s1 := s.xnOSEnterCriticalSection
    let b : XnBufferInPool :=
      { m_nID := s1.m_nNextBufferID, m_nRefCount := 0, m_bDestroy := false,
        m_pData := pBuffer, m_nSize := nSize }
    let p : Ptr := s1.heap.length
    let s2 : XnBufferPool :=
      { s1 with
        m_nNextBufferID := s1.m_nNextBufferID + 1
        heap := s1.heap ++ [b]
        m_AllBuffers := s1.m_AllBuffers ++ [p]
        m_FreeBuffers := s1.m_FreeBuffers ++ [p] }
    (XnStatus.XN_STATUS_OK, s2.xnOSLeaveCriticalSection)
  else
    (XnStatus.XN_STATUS_ALLOC_FAILED, s)

/-- One run of the allocation hook: its calls of `AddNewBuffer`, in order, and
the status it returns. -/
def AllocateBuffers (s : XnBufferPool) (run : AllocRun) : XnStatus × XnBufferPool :=
  (run.status, run.calls.foldl (fun t c => (t.AddNewBuffer c.1 c.2.1 c.2.2).2) s)

/-- The member function `XnBufferPool::ChangeBufferSize(nBufferSize)` with the allocation hook
`hook`. -/
def ChangeBufferSize (s : XnBufferPool) (nBufferSize : Nat) (hook : Nat → AllocRun) :
    Option (XnStatus × XnBufferPool) :=
  let s1 := s.xnOSEnterCriticalSection
  let s2 : XnBufferPool := { s1 with m_nBufferSize := nBufferSize }
  match s2.FreeAll false with
  | none => none
  | some s3 =>
    let r := s3.AllocateBuffers (hook nBufferSize)
    if r.1 ≠ XnStatus.XN_STATUS_OK then
      some (r.1, r.2.xnOSLeaveCriticalSection)
    else
      some (XnStatus.XN_STATUS_OK, r.2.xnOSLeaveCriticalSection)

/-- The member function `XnBufferPool::Init(nBufferSize)`.  `csStatus` is the status of
`xnOSCreateCriticalSection`. -/
def Init (s : XnBufferPool) (csStatus : XnStatus) (nBufferSize : Nat)
    (hook : Nat → AllocRun) : Option (XnStatus × XnBufferPool) :=
  if csStatus ≠ XnStatus.XN_STATUS_OK then
    some (csStatus, s)
  else
    match ({ s with m_hLock := some 0 } : XnBufferPool).ChangeBufferSize nBufferSize hook with
    | none => none
    | some (st, t) =>
      if st ≠ XnStatus.XN_STATUS_OK then some (st, t) else some (XnStatus.XN_STATUS_OK, t)

/-- The member function `XnBufferPool::GetBuffer(ppBuffer)`.  The result is the status, the pointer
written to `*ppBuffer` (`none` when nothing is written) and the new state.
`m_FreeBuffers.Remove(it)` is called with an iterator that is not `End()`, for
which the list reports success. -/
def GetBuffer (s : XnBufferPool) : Option (XnStatus × Option Ptr × XnBufferPool) :=
  let s1 := s.xnOSEnterCriticalSection
  match s1.m_FreeBuffers with
  | [] => some (XnStatus.XN_STATUS_ALLOC_FAILED, none, s1.xnOSLeaveCriticalSection)
  | p :: rest =>
    let s2 : XnBufferPool := { s1 with m_FreeBuffers := rest }
    match s2.deref p with
    | none => none
    | some b =>
      some (XnStatus.XN_STATUS_OK, some p,
        (s2.store p { b with m_nRefCount := 1 }).xnOSLeaveCriticalSection)

/-- The member function `XnBufferPool::AddRef(pBuffer)`.  On `NULL` the assertion is compiled out in
release builds and the function returns. -/
def AddRef (s : XnBufferPool) (pBuffer : Option Ptr) : Option XnBufferPool :=
  match pBuffer with
  | none => some s
  | some p =>
    let s1 := s.xnOSEnterCriticalSection
    match s1.deref p with
    | none => none
    | some b =>
      some (s1.store p { b with m_nRefCount := b.m_nRefCount + 1 }).xnOSLeaveCriticalSection

/-- The member function `XnBufferPool::DecRef(pBuffer)`.  `m_AllBuffers.Remove` of the iterator found
by `Find` takes out the first node holding the pointer. -/
def DecRef (s : XnBufferPool) (pBuffer : Option Ptr) : Option XnBufferPool :=
  match pBuffer with
  | none => some s
  | some p =>
    let s1 := s.xnOSEnterCriticalSection
    match s1.deref p with
    | none => none
    | some b =>
      let b1 : XnBufferInPool := { b with m_nRefCount := b.m_nRefCount - 1 }
      let s2 := s1.store p b1
      if b1.m_nRefCount == 0 then
        if b1.m_bDestroy then
          some ({ s2 with
            m_AllBuffers := s2.m_AllBuffers.erase p
            destroyed := s2.destroyed ++ [b1.m_pData] } : XnBufferPool).xnOSLeaveCriticalSection
        else
          some ({ s2 with
            m_FreeBuffers := s2.m_FreeBuffers ++ [p] } : XnBufferPool).xnOSLeaveCriticalSection
      else
        some s2.xnOSLeaveCriticalSection

/-- The member function `XnBufferPool::CopyRef(ppDstBuffer, ppSrcBuffer)`.  `dst` and `src` are the
values of `*ppDstBuffer` and `*ppSrcBuffer` before the call; the result is the
value of `*ppDstBuffer` after the call and the new state.  On a `NULL` source
the function returns right after entering the critical section. -/
def CopyRef (s : XnBufferPool) (dst src : Option Ptr) : Option (Option Ptr × XnBufferPool) :=
  let s1 := s.xnOSEnterCriticalSection
  match src with
  | none => some (dst, s1)
  | some p =>
    match s1.deref p with
    | none => none
    | some b =>
      some (some p, (s1.store p { b with m_nRefCount := b.m_nRefCount + 1 }).xnOSLeaveCriticalSection)

end XnBufferPool

/-- A call of one of the member functions of the pool, with its arguments
(`FreeAll` is the protected reclamation procedure). -/
inductive Op where
  | init (csStatus : XnStatus) (nBufferSize : Nat) (hook : Nat → AllocRun)
  | free
  | freeAll (bForce : Bool)
  | addNewBuffer (recOk : Bool) (pBuffer nSize : Nat)
  | changeBufferSize (nBufferSize : Nat) (hook : Nat → AllocRun)
  | getBuffer
  | addRef (pBuffer : Option Ptr)
  | decRef (pBuffer : Option Ptr)
  | copyRef (dst src : Option Ptr)

/-- A call that is neither a resize nor a shutdown nor the reclamation
procedure: `AddNewBuffer`, `GetBuffer`, `AddRef`, `DecRef` or `CopyRef`. -/
def Op.stable : Op → Bool
  | Op.addNewBuffer _ _ _ => true
  | Op.getBuffer => true
  | Op.addRef _ => true
  | Op.decRef _ => true
  | Op.copyRef _ _ => true
  | _ => false

/-- The handle that a call of `DecRef` releases (`none` for every other
call). -/
def Op.released : Op → Option Ptr
  | Op.decRef h => h
  | _ => none

/-- The call is an `AddNewBuffer` whose record allocation succeeds, so that it
registers a buffer. -/
def Op.registers : Op → Bool
  | Op.addNewBuffer true _ _ => true
  | _ => false

namespace XnBufferPool

/-! ## Sequences of calls -/

/-- The state after one call. -/
def step (s : XnBufferPool) : Op → Option XnBufferPool
  | Op.init cs n hook => (s.Init cs n hook).map fun r => r.2
  | Op.free => some s.Free
  | Op.freeAll bForce => s.FreeAll bForce
  | Op.addNewBuffer recOk pBuffer nSize => some (s.AddNewBuffer recOk pBuffer nSize).2
  | Op.changeBufferSize n hook => (s.ChangeBufferSize n hook).map fun r => r.2
  | Op.getBuffer => s.GetBuffer.map fun r => r.2.2
  | Op.addRef h => s.AddRef h
  | Op.decRef h => s.DecRef h
  | Op.copyRef dst src => (s.CopyRef dst src).map fun r => r.2

/-- The state after a sequence of calls, in order. -/
def run (s : XnBufferPool) : List Op → Option XnBufferPool
  | [] => some s
  | op :: ops => (s.step op).bind fun t => t.run ops

/-- A call that changes the reference count of one buffer: `AddRef`, `CopyRef`
(with the old value of the destination handle) or `DecRef`. -/
inductive RefCall where
  | addRef
  | copyRef (dst : Option Ptr)
  | decRef
  deriving DecidableEq, Repr

/-- The call on the buffer at address `p`. -/
def RefCall.toOp (p : Ptr) : RefCall → Op
  | RefCall.addRef => Op.addRef (some p)
  | RefCall.copyRef dst => Op.copyRef dst (some p)
  | RefCall.decRef => Op.decRef (some p)

/-- Whether the call is a `DecRef`. -/
def RefCall.isRelease : RefCall → Bool
  | RefCall.decRef => true
  | _ => false

/-- The number of `AddRef` and `CopyRef` calls in a sequence. -/
def acquires (cs : List RefCall) : Nat :=
  cs.countP fun c => !c.isRelease

/-- The number of `DecRef` calls in a sequence. -/
def releases (cs : List RefCall) : Nat :=
  cs.countP RefCall.isRelease

/-- The records that the calls of one run of the allocation hook create, the
first with id `id`: one record for each call whose record allocation
succeeds. -/
def newRecs (id : Nat) : List (Bool × Nat × Nat) → List XnBufferInPool
  | [] => []
  | (true, pBuffer, nSize) :: cs =>
    { m_nID := id, m_nRefCount := 0, m_bDestroy := false, m_pData := pBuffer, m_nSize := nSize }
      :: newRecs (id + 1) cs
  | (false, _, _) :: cs => newRecs id cs

/-- What an arbitrary sequence of calls keeps true of a buffer `p` that was
marked for destruction with raw storage `d`: `p` is an allocated address, is
not on the free list, and its record, while live, is marked and owns `d`;
`m_AllBuffers` has no repetition and holds allocated addresses only. -/
structure Pending (p : Ptr) (d : Nat) (s : XnBufferPool) : Prop where
  all_nodup : s.m_AllBuffers.Nodup
  all_lt : ∀ q ∈ s.m_AllBuffers, q < s.heap.length
  freed_lt : ∀ q ∈ s.freed, q < s.heap.length
  lt : p < s.heap.length
  not_free : p ∉ s.m_FreeBuffers
  marked_rec : ∀ c, s.deref p = some c → c.m_bDestroy = true ∧ c.m_pData = d

/-- The ids of all records ever created are strictly increasing in creation
order and below the id counter. -/
def IdsOk (s : XnBufferPool) : Prop :=
  (s.heap.map fun b => b.m_nID).Pairwise (fun a b => a < b) ∧
    ∀ i ∈ s.heap.map (fun b => b.m_nID), i < s.m_nNextBufferID

/-- Well-formed memory: `m_AllBuffers` holds the addresses of distinct live
records, and every released address was allocated before. -/
def WF (s : XnBufferPool) : Prop :=
  s.m_AllBuffers.Nodup ∧ (∀ p ∈ s.m_AllBuffers, (s.deref p).isSome = true) ∧
    ∀ p ∈ s.freed, p < s.heap.length

instance (s : XnBufferPool) : Decidable s.WF := by
  unfold WF
  infer_instance

/-- The handle refers to a live record whose reference count is positive. -/
def leased (s : XnBufferPool) (h : Option Ptr) : Bool :=
  match h with
  | none => false
  | some p =>
    match s.deref p with
    | none => false
    | some b => decide (0 < b.m_nRefCount)

/-- The test of the loop of `FreeAll` on the record of `p`: the record stays in
`m_AllBuffers` when destruction is not forced and its count is not 0. -/
def keeps (bForce : Bool) (s : XnBufferPool) (p : Ptr) : Bool :=
  match s.deref p with
  | some b => !(bForce || b.m_nRefCount == 0)
  | none => false

/-- The raw storage pointer of the record of `p` (`pBuffer->GetData()`). -/
def rawData (s : XnBufferPool) (p : Ptr) : Nat :=
  match s.deref p with
  | some b => b.m_pData
  | none => 0

/-- The record with `m_bDestroy = TRUE`. -/
def marked (b : XnBufferInPool) : XnBufferInPool :=
  { b with m_bDestroy := true }

/-- States reachable from the freshly constructed pool by `Init`, `AddNewBuffer`,
`ChangeBufferSize`, `GetBuffer`, and by `AddRef`, `CopyRef` and `DecRef` on
handles of buffers whose reference count is positive at the time of the call. -/
inductive Reachable : XnBufferPool → Prop where
  | construct : Reachable construct
  | init (s : XnBufferPool) (cs : XnStatus) (n : Nat) (hook : Nat → AllocRun)
      (r : XnStatus × XnBufferPool) :
      Reachable s → s.Init cs n hook = some r → Reachable r.2
  | addNewBuffer (s : XnBufferPool) (recOk : Bool) (pBuffer nSize : Nat) :
      Reachable s → Reachable (s.AddNewBuffer recOk pBuffer nSize).2
  | changeBufferSize (s : XnBufferPool) (n : Nat) (hook : Nat → AllocRun)
      (r : XnStatus × XnBufferPool) :
      Reachable s → s.ChangeBufferSize n hook = some r → Reachable r.2
  | getBuffer (s : XnBufferPool) (r : XnStatus × Option Ptr × XnBufferPool) :
      Reachable s → s.GetBuffer = some r → Reachable r.2.2
  | addRef (s t : XnBufferPool) (h : Option Ptr) :
      Reachable s → s.leased h = true → s.AddRef h = some t → Reachable t
  | decRef (s t : XnBufferPool) (h : Option Ptr) :
      Reachable s → s.leased h = true → s.DecRef h = some t → Reachable t
  | copyRef (s : XnBufferPool) (dst h : Option Ptr) (r : Option Ptr × XnBufferPool) :
      Reachable s → s.leased h = true → s.CopyRef dst h = some r → Reachable r.2

/-- The bookkeeping invariant of the pool: the two lists hold live records
without repetition, the free list is the part of `m_AllBuffers` with reference
count 0, its members are not marked for destruction, no count is negative, and
a live record outside `m_AllBuffers` has count 0. -/
structure Inv (s : XnBufferPool) : Prop where
  all_live : ∀ p ∈ s.m_AllBuffers, ∃ b, s.deref p = some b
  all_nodup : s.m_AllBuffers.Nodup
  free_nodup : s.m_FreeBuffers.Nodup
  free_sub : ∀ p ∈ s.m_FreeBuffers, p ∈ s.m_AllBuffers
  free_rc : ∀ p ∈ s.m_FreeBuffers, ∀ b, s.deref p = some b →
    b.m_nRefCount = 0 ∧ b.m_bDestroy = false
  zero_free : ∀ p ∈ s.m_AllBuffers, ∀ b, s.deref p = some b →
    b.m_nRefCount = 0 → p ∈ s.m_FreeBuffers
  rc_nonneg : ∀ p b, s.deref p = some b → 0 ≤ b.m_nRefCount
  out_zero : ∀ p b, s.deref p = some b → p ∉ s.m_AllBuffers → b.m_nRefCount = 0
  freed_lt : ∀ p ∈ s.freed, p < s.heap.length

/-- The reference count of the record of `p` (0 when `p` is not live). -/
def refCountOf (s : XnBufferPool) (p : Ptr) : Int :=
  match s.deref p with
  | some b => b.m_nRefCount
  | none => 0

/-- The buffers that the reclamation procedure removes, following section 4.2
of the spec: all of them when forced, else those whose count is 0. -/
def removedBySpec (s : XnBufferPool) (force : Bool) : List Ptr :=
  s.m_AllBuffers.filter fun p => force || s.refCountOf p == 0

/-- The buffers that the reclamation procedure leaves in `m_AllBuffers`,
following section 4.2 of the spec: the leased ones when not forced, in the
original order. -/
def keptBySpec (s : XnBufferPool) (force : Bool) : List Ptr :=
  s.m_AllBuffers.filter fun p => !(force || s.refCountOf p == 0)

/-- Reference definition of the reclamation procedure, written from the words of
section 4.2 of the spec rather than from the loop: every buffer that is forced
or has count 0 is removed from `m_AllBuffers`, its raw storage is handed to the
destruction hook once and its record is discarded; every other buffer stays in
`m_AllBuffers`, in the original order, and gets the destruction mark; the free
list is cleared; nothing else changes. -/
def FreeAllSpec (s : XnBufferPool) (force : Bool) : XnBufferPool :=
  { s with
    m_AllBuffers := s.keptBySpec force
    m_FreeBuffers := []
    heap := s.heap.mapIdx fun i b => if i ∈ s.keptBySpec force then marked b else b
    freed := s.freed ++ s.removedBySpec force
    destroyed := s.destroyed ++ (s.removedBySpec force).map (rawData s) }

/-- The invariants I1, I2, I4 and I5 of section 3 of the spec, read on the
records of the pool: the free list is part of `m_AllBuffers` and its members
have count 0 and no destruction mark (I1); a record with a positive count is
not on the free list (I2); a member of `m_AllBuffers` with count 0 is on the
free list (I4); a marked member of `m_AllBuffers` has a positive count (I5). -/
structure SpecInv (s : XnBufferPool) : Prop where
  i1_sub : ∀ p ∈ s.m_FreeBuffers, p ∈ s.m_AllBuffers
  i1_rc : ∀ p ∈ s.m_FreeBuffers, ∀ b, s.deref p = some b →
    b.m_nRefCount = 0 ∧ b.m_bDestroy = false
  i2 : ∀ p b, s.deref p = some b → 0 < b.m_nRefCount → p ∉ s.m_FreeBuffers
  i4 : ∀ p ∈ s.m_AllBuffers, ∀ b, s.deref p = some b →
    b.m_nRefCount = 0 → p ∈ s.m_FreeBuffers
  i5 : ∀ p ∈ s.m_AllBuffers, ∀ b, s.deref p = some b →
    b.m_bDestroy = true → 0 < b.m_nRefCount

/-- No member of `m_AllBuffers` has a negative count (the count is a
non-negative integer in section 3 of the spec). -/
def CountsNonneg (s : XnBufferPool) : Prop :=
  ∀ p ∈ s.m_AllBuffers, ∀ b, s.deref p = some b → 0 ≤ b.m_nRefCount

/-- The buffer that a call puts on the free list, if any: the new buffer for an
`AddNewBuffer` whose record allocation succeeds, and the released buffer for a
`DecRef` that brings the count of an unmarked record to 0. -/
def entered (s : XnBufferPool) : Op → List Ptr
  | Op.addNewBuffer true _ _ => [s.heap.length]
  | Op.decRef (some p) =>
    match s.deref p with
    | some b => if b.m_nRefCount - 1 == 0 && !b.m_bDestroy then [p] else []
    | none => []
  | _ => []

/-- The buffer that a call hands out, if any: the pointer that a successful
`GetBuffer` writes to its argument. -/
def returned (s : XnBufferPool) : Op → List Ptr
  | Op.getBuffer =>
    match s.GetBuffer with
    | some (_, some p, _) => [p]
    | _ => []
  | _ => []

/-- The buffers put on the free list during a sequence of calls, in order. -/
def enteredAll (s : XnBufferPool) : List Op → List Ptr
  | [] => []
  | op :: ops =>
    s.entered op ++
      match s.step op with
      | some t => t.enteredAll ops
      | none => []

/-- The buffers handed out by `GetBuffer` during a sequence of calls, in
order. -/
def returnedAll (s : XnBufferPool) : List Op → List Ptr
  | [] => []
  | op :: ops =>
    s.returned op ++
      match s.step op with
      | some t => t.returnedAll ops
      | none => []

/-- The handle is `NULL`, or refers to no live record, or refers to a record
that is not marked for destruction. -/
def unmarkedAt (s : XnBufferPool) (h : Option Ptr) : Bool :=
  match h with
  | none => true
  | some p =>
    match s.deref p with
    | none => true
    | some b => !b.m_bDestroy

/-- The destruction marks of the records after a call, compared with the marks
before it: a record that was marked and is still in memory is still marked,
and a record that is marked after the call was in memory before the call and,
if it was not marked then, had a positive count, which the call leaves as it
is. -/
def FlagsKept (s t : XnBufferPool) : Prop :=
  ∀ (p : Ptr) (c : XnBufferInPool), t.deref p = some c →
    (∀ b, s.deref p = some b → b.m_bDestroy = true → c.m_bDestroy = true) ∧
    (c.m_bDestroy = true → ∃ b, s.deref p = some b ∧
      (b.m_bDestroy = false → 0 < b.m_nRefCount ∧ c.m_nRefCount = b.m_nRefCount))

/-! ## Example states -/

/-- A record as `AddNewBuffer` creates it: id `i`, no reference, not marked. -/
def exRec (i : Nat) (rc : Int) (d : Bool) : XnBufferInPool :=
  { m_nID := i, m_nRefCount := rc, m_bDestroy := d, m_pData := 4096 + 1024 * i, m_nSize := 1024 }

/-- A pool of two buffers of 1024 bytes, both free. -/
def exFresh : XnBufferPool :=
  { m_nBufferSize := 1024, m_nNextBufferID := 2, m_hLock := some 0,
    m_AllBuffers := [0, 1], m_FreeBuffers := [0, 1],
    heap := [exRec 0 0 false, exRec 1 0 false], freed := [], destroyed := [] }

/-- An allocation hook that registers two buffers of the requested size. -/
def exHook (n : Nat) : AllocRun :=
  { calls := [(true, 4 * n, n), (true, 5 * n, n)], status := XnStatus.XN_STATUS_OK }

/-- The pool with buffer 0 free and buffer 1 leased once. -/
def exHalf : XnBufferPool :=
  { m_nBufferSize := 1024, m_nNextBufferID := 2, m_hLock := some 0,
    m_AllBuffers := [0, 1], m_FreeBuffers := [0],
    heap := [exRec 0 0 false, exRec 1 1 false], freed := [], destroyed := [] }

/-- The pool with buffer 0 leased once and buffer 1 free. -/
def exOne : XnBufferPool :=
  { m_nBufferSize := 1024, m_nNextBufferID := 2, m_hLock := some 0,
    m_AllBuffers := [0, 1], m_FreeBuffers := [1],
    heap := [exRec 0 1 false, exRec 1 0 false], freed := [], destroyed := [] }

/-- The calls of the scenario of the spec on a leased buffer: one `CopyRef`,
then two `DecRef`s. -/
def exCalls : List RefCall :=
  [RefCall.copyRef none, RefCall.decRef, RefCall.decRef]

/-- A run of the pool: initialise with two buffers, lease one, resize to 2048
bytes, release the leased buffer (which destroys it), register one more. -/
def exOps : List Op :=
  [Op.init XnStatus.XN_STATUS_OK 1024 exHook, Op.getBuffer, Op.changeBufferSize 2048 exHook,
    Op.decRef (some 0), Op.addNewBuffer true 65536 2048]

/-- An allocation hook that registers one buffer and then reports a failure
other than the allocation failure. -/
def exFailHook (n : Nat) : AllocRun :=
  { calls := [(true, 4 * n, n)], status := XnStatus.XN_STATUS_ERROR 1 }

/-- A run without resize: lease both buffers, release the second and then
the first, register a third buffer, lease three times. -/
def exQueueOps : List Op :=
  [Op.getBuffer, Op.getBuffer, Op.decRef (some 1), Op.decRef (some 0),
    Op.addNewBuffer true 65536 1024, Op.getBuffer, Op.getBuffer, Op.getBuffer]

/-- The allocation hook of the scenario of the spec: four buffers of the
requested size. -/
def exHook4 (n : Nat) : AllocRun :=
  { calls := [(true, 4 * n, n), (true, 5 * n, n), (true, 6 * n, n), (true, 7 * n, n)],
    status := XnStatus.XN_STATUS_OK }

/-- The pool `exOne` after `ChangeBufferSize(2048)` with the hook `exHook`:
the leased buffer 0 is kept and marked, the free buffer 1 is destroyed, two
buffers of 2048 bytes are registered. -/
def exMarked : XnBufferPool :=
  { m_nBufferSize := 2048, m_nNextBufferID := 4, m_hLock := some 0,
    m_AllBuffers := [0, 2, 3], m_FreeBuffers := [2, 3],
    heap := [exRec 0 1 true, exRec 1 0 false,
      { m_nID := 2, m_nRefCount := 0, m_bDestroy := false, m_pData := 8192, m_nSize := 2048 },
      { m_nID := 3, m_nRefCount := 0, m_bDestroy := false, m_pData := 10240, m_nSize := 2048 }],
    freed := [1], destroyed := [5120] }

/-- The same pool with both buffers leased once. -/
def exLeased : XnBufferPool :=
  { m_nBufferSize := 1024, m_nNextBufferID := 2, m_hLock := some 0,
    m_AllBuffers := [0, 1], m_FreeBuffers := [],
    heap := [exRec 0 1 false, exRec 1 1 false], freed := [], destroyed := [] }

/-! ## Elementary facts about the lock and the heap -/

@[simp] theorem leave_enter (s : XnBufferPool) :
    s.xnOSEnterCriticalSection.xnOSLeaveCriticalSection = s := by
  cases s with
  | mk a b l c d e f g => cases l <;> simp [xnOSEnterCriticalSection, xnOSLeaveCriticalSection]

theorem deref_store (s : XnBufferPool) (p q : Ptr) (b : XnBufferInPool) :
    (s.store p b).deref q =
      if p = q then (if s.deref p = none then none else some b) else s.deref q := by
  unfold deref store
  simp only [List.getElem?_set]
  by_cases hq : q ∈ s.freed
  · by_cases hpq : p = q
    · subst hpq; simp [hq]
    · simp [hq, hpq]
  · by_cases hpq : p = q
    · subst hpq
      by_cases hl : p < s.heap.length
      · simp [hq, hl]
      · simp [hq, hl, Nat.le_of_not_lt hl]
    · simp [hq, hpq]

/-! ## Closed forms of the operations -/

theorem GetBuffer_nil (s : XnBufferPool) (h : s.m_FreeBuffers = []) :
    s.GetBuffer = some (XnStatus.XN_STATUS_ALLOC_FAILED, none, s) := by
  have h1 : s.xnOSEnterCriticalSection.m_FreeBuffers = [] := h
  unfold GetBuffer
  simp only [h1, leave_enter]

theorem GetBuffer_cons (s : XnBufferPool) (p : Ptr) (rest : List Ptr) (b : XnBufferInPool)
    (hfree : s.m_FreeBuffers = p :: rest) (hp : s.deref p = some b) :
    s.GetBuffer = some (XnStatus.XN_STATUS_OK, some p,
      { s with m_FreeBuffers := rest, heap := s.heap.set p { b with m_nRefCount := 1 } }) := by
  cases s with
  | mk sz nx l all free hp0 fr ds =>
    simp only at hfree
    subst hfree
    have hp1 : (if p ∈ fr then none else hp0[p]?) = some b := hp
    cases l <;>
      simp [GetBuffer, xnOSEnterCriticalSection, xnOSLeaveCriticalSection, deref, store, hp1]

theorem AddRef_some (s : XnBufferPool) (p : Ptr) (b : XnBufferInPool)
    (hp : s.deref p = some b) :
    s.AddRef (some p) =
      some { s with heap := s.heap.set p { b with m_nRefCount := b.m_nRefCount + 1 } } := by
  cases s with
  | mk sz nx l all free hp0 fr ds =>
    have hp1 : (if p ∈ fr then none else hp0[p]?) = some b := hp
    cases l <;>
      simp [AddRef, xnOSEnterCriticalSection, xnOSLeaveCriticalSection, deref, store, hp1]

theorem CopyRef_some (s : XnBufferPool) (dst : Option Ptr) (p : Ptr) (b : XnBufferInPool)
    (hp : s.deref p = some b) :
    s.CopyRef dst (some p) =
      some (some p,
        { s with heap := s.heap.set p { b with m_nRefCount := b.m_nRefCount + 1 } }) := by
  cases s with
  | mk sz nx l all free hp0 fr ds =>
    have hp1 : (if p ∈ fr then none else hp0[p]?) = some b := hp
    cases l <;>
      simp [CopyRef, xnOSEnterCriticalSection, xnOSLeaveCriticalSection, deref, store, hp1]

theorem DecRef_some (s : XnBufferPool) (p : Ptr) (b : XnBufferInPool)
    (hp : s.deref p = some b) :
    s.DecRef (some p) =
      some (if b.m_nRefCount - 1 = 0 then
          if b.m_bDestroy = true then
            { s with
              heap := s.heap.set p { b with m_nRefCount := b.m_nRefCount - 1 }
              m_AllBuffers := s.m_AllBuffers.erase p
              destroyed := s.destroyed ++ [b.m_pData] }
          else
            { s with
              heap := s.heap.set p { b with m_nRefCount := b.m_nRefCount - 1 }
              m_FreeBuffers := s.m_FreeBuffers ++ [p] }
        else
          { s with heap := s.heap.set p { b with m_nRefCount := b.m_nRefCount - 1 } }) := by
  cases s with
  | mk sz nx l all free hp0 fr ds =>
    have hp1 : (if p ∈ fr then none else hp0[p]?) = some b := hp
    by_cases h0 : b.m_nRefCount - 1 = 0 <;> by_cases hd : b.m_bDestroy = true <;>
      cases l <;>
      simp [DecRef, xnOSEnterCriticalSection, xnOSLeaveCriticalSection, deref, store, hp1, h0, hd]

/-- The heap lookup behind `deref`, on the two fields it reads. -/
theorem deref_eq (s : XnBufferPool) (p : Ptr) :
    s.deref p = if p ∈ s.freed then none else s.heap[p]? := rfl

theorem deref_set_self {heap : List XnBufferInPool} {freed : List Ptr} {p : Ptr}
    {b : XnBufferInPool} (c : XnBufferInPool)
    (h : (if p ∈ freed then none else heap[p]?) = some b) :
    (if p ∈ freed then none else (heap.set p c)[p]?) = some c := by
  by_cases hf : p ∈ freed
  · simp [hf] at h
  · simp only [hf, if_false] at h ⊢
    have hl : p < heap.length := by
      rcases Nat.lt_or_ge p heap.length with hl | hl
      · exact hl
      · rw [List.getElem?_eq_none hl] at h; cases h
    simp [List.getElem?_set, hl]

theorem deref_set_other {heap : List XnBufferInPool} {freed : List Ptr} {p q : Ptr}
    (c : XnBufferInPool) (hne : q ≠ p) :
    (if q ∈ freed then none else (heap.set p c)[q]?) =
      (if q ∈ freed then none else heap[q]?) := by
  simp [List.getElem?_set, Ne.symm hne]

theorem deref_lt {s : XnBufferPool} {p : Ptr} {b : XnBufferInPool}
    (h : s.deref p = some b) : p < s.heap.length := by
  unfold deref at h
  by_cases hf : p ∈ s.freed
  · simp [hf] at h
  · simp only [hf, if_false] at h
    rcases Nat.lt_or_ge p s.heap.length with hl | hl
    · exact hl
    · rw [List.getElem?_eq_none hl] at h; cases h

theorem deref_not_freed {s : XnBufferPool} {p : Ptr} {b : XnBufferInPool}
    (h : s.deref p = some b) : p ∉ s.freed := by
  unfold deref at h
  intro hf
  simp [hf] at h

/-! ## Lease and release of a single buffer -/

/-- C1: when the free list is empty, `GetBuffer` returns the allocation-failed
status, writes no handle and leaves the pool state exactly as it was. -/
theorem C1_GetBuffer_exhausted (s : XnBufferPool) (h : s.m_FreeBuffers = []) :
    s.GetBuffer = some (XnStatus.XN_STATUS_ALLOC_FAILED, none, s) :=
  GetBuffer_nil s h

theorem GetBuffer_head_spec (s : XnBufferPool) (p : Ptr) (rest : List Ptr)
    (b : XnBufferInPool) (hfree : s.m_FreeBuffers = p :: rest) (hp : s.deref p = some b) :
    ∃ s1, s.GetBuffer = some (XnStatus.XN_STATUS_OK, some p, s1) ∧
      s1.m_FreeBuffers = rest ∧
      s1.deref p = some { b with m_nRefCount := 1 } ∧
      s1.m_AllBuffers = s.m_AllBuffers ∧
      s1.m_nNextBufferID = s.m_nNextBufferID ∧
      s1.m_nBufferSize = s.m_nBufferSize ∧
      s1.m_hLock = s.m_hLock ∧
      s1.freed = s.freed ∧ s1.destroyed = s.destroyed ∧
      ∀ q, q ≠ p → s1.deref q = s.deref q := by
  refine ⟨_, GetBuffer_cons s p rest b hfree hp, rfl, ?_, rfl, rfl, rfl, rfl, rfl, rfl, ?_⟩
  · exact deref_set_self _ hp
  · intro q hq
    exact deref_set_other _ hq

/-- C2: when the free list is `p :: rest` (and `p` refers to a live record `b`),
`GetBuffer` succeeds and returns `p`; afterwards the free list is `rest`, the
record of `p` is `b` with reference count 1 (id, flag and data as before), and
`m_AllBuffers`, the id counter, the buffer size, the lock and every other
record are unchanged. -/
theorem C2_GetBuffer_head (s : XnBufferPool) (p : Ptr) (rest : List Ptr)
    (b : XnBufferInPool) (hfree : s.m_FreeBuffers = p :: rest) (hp : s.deref p = some b) :
    ∃ s1, s.GetBuffer = some (XnStatus.XN_STATUS_OK, some p, s1) ∧
      s1.m_FreeBuffers = rest ∧
      s1.deref p = some { b with m_nRefCount := 1 } ∧
      s1.m_AllBuffers = s.m_AllBuffers ∧
      s1.m_nNextBufferID = s.m_nNextBufferID ∧
      s1.m_nBufferSize = s.m_nBufferSize ∧
      s1.m_hLock = s.m_hLock ∧
      s1.freed = s.freed ∧ s1.destroyed = s.destroyed ∧
      ∀ q, q ≠ p → s1.deref q = s.deref q :=
  GetBuffer_head_spec s p rest b hfree hp

/-- C3: lease followed by one release.  When the free list is `p :: rest`, `p`
refers to a live record `b` and `b` is not marked for destruction, `GetBuffer`
returns `p` and one `DecRef` on `p` puts `p` back at the tail of the free list
with the same id, reference count 0 and the flag still clear; `m_AllBuffers` is
what it was before the lease; `p` is a live member of the free list again, and
when no other buffer was free the next `GetBuffer` returns `p` itself. -/
theorem C3_lease_release (s : XnBufferPool) (p : Ptr) (rest : List Ptr)
    (b : XnBufferInPool) (hfree : s.m_FreeBuffers = p :: rest) (hp : s.deref p = some b)
    (hd : b.m_bDestroy = false) :
    ∃ s1 s2 b2, s.GetBuffer = some (XnStatus.XN_STATUS_OK, some p, s1) ∧
      s1.DecRef (some p) = some s2 ∧
      s2.m_FreeBuffers = rest ++ [p] ∧
      s2.deref p = some b2 ∧
      b2.m_nID = b.m_nID ∧ b2.m_nRefCount = 0 ∧ b2.m_bDestroy = false ∧
      s2.m_AllBuffers = s.m_AllBuffers ∧
      p ∈ s2.m_FreeBuffers ∧
      (rest = [] → ∃ s3, s2.GetBuffer = some (XnStatus.XN_STATUS_OK, some p, s3) ∧
        s3.m_FreeBuffers = [] ∧
        s3.deref p = some { b2 with m_nRefCount := 1 }) := by
  have hget := GetBuffer_cons s p rest b hfree hp
  have hp1 : ({ s with m_FreeBuffers := rest, heap := s.heap.set p { b with m_nRefCount := 1 } } :
      XnBufferPool).deref p = some { b with m_nRefCount := 1 } := deref_set_self _ hp
  have hp2 : ({ s with m_FreeBuffers := rest ++ [p], heap := s.heap.set p { b with m_nRefCount := 0 } } :
      XnBufferPool).deref p = some { b with m_nRefCount := 0 } := deref_set_self _ hp
  have hdec : ({ s with m_FreeBuffers := rest, heap := s.heap.set p { b with m_nRefCount := 1 } } :
      XnBufferPool).DecRef (some p) =
      some { s with m_FreeBuffers := rest ++ [p], heap := s.heap.set p { b with m_nRefCount := 0 } } := by
    rw [DecRef_some _ p _ hp1]
    simp [hd]
  refine ⟨_, _, { b with m_nRefCount := 0 }, hget, hdec, rfl, hp2, rfl, rfl, hd, rfl, ?_, ?_⟩
  · simp
  · intro hrest
    subst hrest
    refine ⟨_, GetBuffer_cons _ p [] _ rfl hp2, rfl, ?_⟩
    exact deref_set_self _ hp2

theorem C1_GetBuffer_exhausted_witness :
    exLeased.m_FreeBuffers = [] ∧
      exLeased.GetBuffer = some (XnStatus.XN_STATUS_ALLOC_FAILED, none, exLeased) :=
  ⟨rfl, C1_GetBuffer_exhausted exLeased rfl⟩

theorem C2_GetBuffer_head_witness :
    exFresh.m_FreeBuffers = 0 :: [1] ∧ exFresh.deref 0 = some (exRec 0 0 false) ∧
    ∃ s1, exFresh.GetBuffer = some (XnStatus.XN_STATUS_OK, some 0, s1) ∧
      s1.m_FreeBuffers = [1] ∧
      s1.deref 0 = some { exRec 0 0 false with m_nRefCount := 1 } ∧
      s1.m_AllBuffers = exFresh.m_AllBuffers ∧
      s1.m_nNextBufferID = exFresh.m_nNextBufferID ∧
      s1.m_nBufferSize = exFresh.m_nBufferSize ∧
      s1.m_hLock = exFresh.m_hLock ∧
      s1.freed = exFresh.freed ∧ s1.destroyed = exFresh.destroyed ∧
      ∀ q, q ≠ 0 → s1.deref q = exFresh.deref q :=
  ⟨rfl, rfl, C2_GetBuffer_head exFresh 0 [1] (exRec 0 0 false) rfl rfl⟩

theorem C3_lease_release_witness :
    exHalf.m_FreeBuffers = 0 :: [] ∧ exHalf.deref 0 = some (exRec 0 0 false) ∧
    (exRec 0 0 false).m_bDestroy = false ∧
    ∃ s1 s2 b2, exHalf.GetBuffer = some (XnStatus.XN_STATUS_OK, some 0, s1) ∧
      s1.DecRef (some 0) = some s2 ∧
      s2.m_FreeBuffers = [] ++ [0] ∧
      s2.deref 0 = some b2 ∧
      b2.m_nID = (exRec 0 0 false).m_nID ∧ b2.m_nRefCount = 0 ∧ b2.m_bDestroy = false ∧
      s2.m_AllBuffers = exHalf.m_AllBuffers ∧
      0 ∈ s2.m_FreeBuffers ∧
      (([] : List Ptr) = [] → ∃ s3, s2.GetBuffer = some (XnStatus.XN_STATUS_OK, some 0, s3) ∧
        s3.m_FreeBuffers = [] ∧
        s3.deref 0 = some { b2 with m_nRefCount := 1 }) :=
  ⟨rfl, rfl, rfl, C3_lease_release exHalf 0 [] (exRec 0 0 false) rfl rfl rfl⟩

theorem deref_upd {s t : XnBufferPool} {p : Ptr} {b : XnBufferInPool} (c : XnBufferInPool)
    (hh : t.heap = s.heap.set p c) (hf : t.freed = s.freed) (hp : s.deref p = some b)
    (q : Ptr) : t.deref q = if q = p then some c else s.deref q := by
  by_cases hq : q = p
  · subst hq
    simp only [if_true]
    unfold deref
    rw [hh, hf]
    exact deref_set_self c hp
  · simp only [hq, if_false]
    unfold deref
    rw [hh, hf]
    exact deref_set_other c hq

theorem deref_same {s t : XnBufferPool} (hh : t.heap = s.heap) (hf : t.freed = s.freed)
    (q : Ptr) : t.deref q = s.deref q := by
  unfold deref
  rw [hh, hf]

/-- A leased record stays consistent when its count moves between positive values. -/
theorem Inv.inv_update_leased {s t : XnBufferPool} (hs : Inv s) {p : Ptr} {b c : XnBufferInPool}
    (hp : s.deref p = some b) (hb : 0 < b.m_nRefCount) (hc : 0 < c.m_nRefCount)
    (hh : t.heap = s.heap.set p c) (hf : t.freed = s.freed)
    (hall : t.m_AllBuffers = s.m_AllBuffers) (hfree : t.m_FreeBuffers = s.m_FreeBuffers) :
    Inv t := by
  have hd := deref_upd c hh hf hp
  have hpfree : p ∉ s.m_FreeBuffers := fun hm => by
    have := (hs.free_rc p hm b hp).1
    omega
  refine ⟨?_, ?_, ?_, ?_, ?_, ?_, ?_, ?_, ?_⟩
  · intro q hq
    rw [hall] at hq
    rw [hd q]
    by_cases hqp : q = p
    · exact ⟨c, by simp [hqp]⟩
    · simpa [hqp] using hs.all_live q hq
  · rw [hall]; exact hs.all_nodup
  · rw [hfree]; exact hs.free_nodup
  · intro q hq
    rw [hfree] at hq; rw [hall]; exact hs.free_sub q hq
  · intro q hq d hqd
    rw [hfree] at hq
    have hqp : q ≠ p := fun h => hpfree (h ▸ hq)
    rw [hd q] at hqd
    simp only [hqp, if_false] at hqd
    exact hs.free_rc q hq d hqd
  · intro q hq d hqd hz
    rw [hall] at hq
    rw [hfree]
    rw [hd q] at hqd
    by_cases hqp : q = p
    · simp only [hqp, if_true, Option.some.injEq] at hqd
      subst hqd; omega
    · simp only [hqp, if_false] at hqd
      exact hs.zero_free q hq d hqd hz
  · intro q d hqd
    rw [hd q] at hqd
    by_cases hqp : q = p
    · simp only [hqp, if_true, Option.some.injEq] at hqd
      subst hqd; omega
    · simp only [hqp, if_false] at hqd
      exact hs.rc_nonneg q d hqd
  · intro q d hqd hq
    rw [hall] at hq
    rw [hd q] at hqd
    by_cases hqp : q = p
    · subst hqp
      have := hs.out_zero q b hp hq
      omega
    · simp only [hqp, if_false] at hqd
      exact hs.out_zero q d hqd hq
  · intro q hq
    rw [hf] at hq
    rw [hh, List.length_set]
    exact hs.freed_lt q hq

/-- Leasing the head of the free list keeps the invariant. -/
theorem Inv.inv_lease {s t : XnBufferPool} (hs : Inv s) {p : Ptr} {rest : List Ptr}
    {b c : XnBufferInPool}
    (hfr : s.m_FreeBuffers = p :: rest) (hp : s.deref p = some b) (hc : 0 < c.m_nRefCount)
    (hh : t.heap = s.heap.set p c) (hf : t.freed = s.freed)
    (hall : t.m_AllBuffers = s.m_AllBuffers) (hfree : t.m_FreeBuffers = rest) :
    Inv t := by
  have hd := deref_upd c hh hf hp
  have hnd : (p :: rest).Nodup := hfr ▸ hs.free_nodup
  have hprest : p ∉ rest := (List.nodup_cons.mp hnd).1
  have hpall : p ∈ s.m_AllBuffers := hs.free_sub p (by simp [hfr])
  refine ⟨?_, ?_, ?_, ?_, ?_, ?_, ?_, ?_, ?_⟩
  · intro q hq
    rw [hall] at hq
    rw [hd q]
    by_cases hqp : q = p
    · exact ⟨c, by simp [hqp]⟩
    · simpa [hqp] using hs.all_live q hq
  · rw [hall]; exact hs.all_nodup
  · rw [hfree]; exact (List.nodup_cons.mp hnd).2
  · intro q hq
    rw [hfree] at hq; rw [hall]; exact hs.free_sub q (by simp [hfr, hq])
  · intro q hq d hqd
    rw [hfree] at hq
    have hqp : q ≠ p := fun h => hprest (h ▸ hq)
    rw [hd q] at hqd
    simp only [hqp, if_false] at hqd
    exact hs.free_rc q (by simp [hfr, hq]) d hqd
  · intro q hq d hqd hz
    rw [hall] at hq
    rw [hfree]
    rw [hd q] at hqd
    by_cases hqp : q = p
    · simp only [hqp, if_true, Option.some.injEq] at hqd
      subst hqd; omega
    · simp only [hqp, if_false] at hqd
      have := hs.zero_free q hq d hqd hz
      rw [hfr] at this
      rcases List.mem_cons.mp this with h | h
      · exact absurd h hqp
      · exact h
  · intro q d hqd
    rw [hd q] at hqd
    by_cases hqp : q = p
    · simp only [hqp, if_true, Option.some.injEq] at hqd
      subst hqd; omega
    · simp only [hqp, if_false] at hqd
      exact hs.rc_nonneg q d hqd
  · intro q d hqd hq
    rw [hall] at hq
    rw [hd q] at hqd
    by_cases hqp : q = p
    · subst hqp
      exact absurd hpall hq
    · simp only [hqp, if_false] at hqd
      exact hs.out_zero q d hqd hq
  · intro q hq
    rw [hf] at hq
    rw [hh, List.length_set]
    exact hs.freed_lt q hq

/-- The last release of a buffer that is not marked puts it on the free list. -/
theorem Inv.inv_release_to_free {s t : XnBufferPool} (hs : Inv s) {p : Ptr}
    {b c : XnBufferInPool}
    (hp : s.deref p = some b) (hb : 0 < b.m_nRefCount)
    (hc : c.m_nRefCount = 0) (hcd : c.m_bDestroy = false)
    (hh : t.heap = s.heap.set p c) (hf : t.freed = s.freed)
    (hall : t.m_AllBuffers = s.m_AllBuffers)
    (hfree : t.m_FreeBuffers = s.m_FreeBuffers ++ [p]) :
    Inv t := by
  have hd := deref_upd c hh hf hp
  have hpfree : p ∉ s.m_FreeBuffers := fun hm => by
    have := (hs.free_rc p hm b hp).1
    omega
  have hpall : p ∈ s.m_AllBuffers := by
    by_contra hn
    have := hs.out_zero p b hp hn
    omega
  refine ⟨?_, ?_, ?_, ?_, ?_, ?_, ?_, ?_, ?_⟩
  · intro q hq
    rw [hall] at hq
    rw [hd q]
    by_cases hqp : q = p
    · exact ⟨c, by simp [hqp]⟩
    · simpa [hqp] using hs.all_live q hq
  · rw [hall]; exact hs.all_nodup
  · rw [hfree]
    refine List.Nodup.append hs.free_nodup (List.nodup_singleton p) ?_
    intro a ha hap
    simp at hap
    exact hpfree (hap ▸ ha)
  · intro q hq
    rw [hfree] at hq; rw [hall]
    rcases List.mem_append.mp hq with h | h
    · exact hs.free_sub q h
    · simp at h; exact h ▸ hpall
  · intro q hq d hqd
    rw [hfree] at hq
    rw [hd q] at hqd
    by_cases hqp : q = p
    · simp only [hqp, if_true, Option.some.injEq] at hqd
      subst hqd; exact ⟨hc, hcd⟩
    · simp only [hqp, if_false] at hqd
      rcases List.mem_append.mp hq with h | h
      · exact hs.free_rc q h d hqd
      · simp at h; exact absurd h hqp
  · intro q hq d hqd hz
    rw [hall] at hq
    rw [hfree]
    rw [hd q] at hqd
    by_cases hqp : q = p
    · simp [hqp]
    · simp only [hqp, if_false] at hqd
      exact List.mem_append_left _ (hs.zero_free q hq d hqd hz)
  · intro q d hqd
    rw [hd q] at hqd
    by_cases hqp : q = p
    · simp only [hqp, if_true, Option.some.injEq] at hqd
      subst hqd; omega
    · simp only [hqp, if_false] at hqd
      exact hs.rc_nonneg q d hqd
  · intro q d hqd hq
    rw [hall] at hq
    rw [hd q] at hqd
    by_cases hqp : q = p
    · subst hqp
      exact absurd hpall hq
    · simp only [hqp, if_false] at hqd
      exact hs.out_zero q d hqd hq
  · intro q hq
    rw [hf] at hq
    rw [hh, List.length_set]
    exact hs.freed_lt q hq

/-- The last release of a marked buffer takes it out of `m_AllBuffers`. -/
theorem Inv.inv_release_destroy {s t : XnBufferPool} (hs : Inv s) {p : Ptr}
    {b c : XnBufferInPool}
    (hp : s.deref p = some b) (hb : 0 < b.m_nRefCount)
    (hc : c.m_nRefCount = 0)
    (hh : t.heap = s.heap.set p c) (hf : t.freed = s.freed)
    (hall : t.m_AllBuffers = s.m_AllBuffers.erase p)
    (hfree : t.m_FreeBuffers = s.m_FreeBuffers) :
    Inv t := by
  have hd := deref_upd c hh hf hp
  have hpfree : p ∉ s.m_FreeBuffers := fun hm => by
    have := (hs.free_rc p hm b hp).1
    omega
  have hmem : ∀ q, q ∈ s.m_AllBuffers.erase p ↔ q ≠ p ∧ q ∈ s.m_AllBuffers :=
    fun q => hs.all_nodup.mem_erase_iff
  refine ⟨?_, ?_, ?_, ?_, ?_, ?_, ?_, ?_, ?_⟩
  · intro q hq
    rw [hall] at hq
    obtain ⟨hqp, hq⟩ := (hmem q).mp hq
    rw [hd q]
    simpa [hqp] using hs.all_live q hq
  · rw [hall]; exact hs.all_nodup.erase p
  · rw [hfree]; exact hs.free_nodup
  · intro q hq
    rw [hfree] at hq; rw [hall]
    exact (hmem q).mpr ⟨fun h => hpfree (h ▸ hq), hs.free_sub q hq⟩
  · intro q hq d hqd
    rw [hfree] at hq
    have hqp : q ≠ p := fun h => hpfree (h ▸ hq)
    rw [hd q] at hqd
    simp only [hqp, if_false] at hqd
    exact hs.free_rc q hq d hqd
  · intro q hq d hqd hz
    rw [hall] at hq
    obtain ⟨hqp, hq⟩ := (hmem q).mp hq
    rw [hfree]
    rw [hd q] at hqd
    simp only [hqp, if_false] at hqd
    exact hs.zero_free q hq d hqd hz
  · intro q d hqd
    rw [hd q] at hqd
    by_cases hqp : q = p
    · simp only [hqp, if_true, Option.some.injEq] at hqd
      subst hqd; omega
    · simp only [hqp, if_false] at hqd
      exact hs.rc_nonneg q d hqd
  · intro q d hqd hq
    rw [hall] at hq
    rw [hd q] at hqd
    by_cases hqp : q = p
    · simp only [hqp, if_true, Option.some.injEq] at hqd
      subst hqd; exact hc
    · simp only [hqp, if_false] at hqd
      exact hs.out_zero q d hqd (fun h => hq ((hmem q).mpr ⟨hqp, h⟩))
  · intro q hq
    rw [hf] at hq
    rw [hh, List.length_set]
    exact hs.freed_lt q hq

theorem AddNewBuffer_true (s : XnBufferPool) (pBuffer nSize : Nat) :
    s.AddNewBuffer true pBuffer nSize =
      (XnStatus.XN_STATUS_OK,
        { s with
          m_nNextBufferID := s.m_nNextBufferID + 1
          heap := s.heap ++ [{ m_nID := s.m_nNextBufferID, m_nRefCount := 0, m_bDestroy := false,
                               m_pData := pBuffer, m_nSize := nSize }]
          m_AllBuffers := s.m_AllBuffers ++ [s.heap.length]
          m_FreeBuffers := s.m_FreeBuffers ++ [s.heap.length] }) := by
  cases s with
  | mk sz nx l all free hp0 fr ds =>
    cases l <;> simp [AddNewBuffer, xnOSEnterCriticalSection, xnOSLeaveCriticalSection]

theorem AddNewBuffer_false (s : XnBufferPool) (pBuffer nSize : Nat) :
    s.AddNewBuffer false pBuffer nSize = (XnStatus.XN_STATUS_ALLOC_FAILED, s) := by
  simp [AddNewBuffer]

theorem deref_append {s t : XnBufferPool} (c : XnBufferInPool)
    (hfl : ∀ p ∈ s.freed, p < s.heap.length)
    (hh : t.heap = s.heap ++ [c]) (hf : t.freed = s.freed) (q : Ptr) :
    t.deref q = if q = s.heap.length then some c else s.deref q := by
  unfold deref
  rw [hh, hf]
  by_cases hq : q = s.heap.length
  · subst hq
    have : s.heap.length ∉ s.freed := fun h => Nat.lt_irrefl _ (hfl _ h)
    simp [this]
  · simp only [hq, if_false]
    by_cases hqf : q ∈ s.freed
    · simp [hqf]
    · simp only [hqf, if_false]
      rw [List.getElem?_append]
      by_cases hlt : q < s.heap.length
      · simp [hlt]
      · have h1 : s.heap.length ≤ q := Nat.le_of_not_lt hlt
        have h2 : 1 ≤ q - s.heap.length :=
          Nat.sub_pos_of_lt (Nat.lt_of_le_of_ne h1 (Ne.symm hq))
        simp only [hlt, if_false]
        rw [List.getElem?_eq_none h1, List.getElem?_eq_none]
        simpa using h2

/-- Registering a new buffer keeps the invariant. -/
theorem Inv.inv_add_new {s t : XnBufferPool} (hs : Inv s) {c : XnBufferInPool}
    (hc : c.m_nRefCount = 0) (hcd : c.m_bDestroy = false)
    (hh : t.heap = s.heap ++ [c]) (hf : t.freed = s.freed)
    (hall : t.m_AllBuffers = s.m_AllBuffers ++ [s.heap.length])
    (hfree : t.m_FreeBuffers = s.m_FreeBuffers ++ [s.heap.length]) :
    Inv t := by
  have hd := deref_append c hs.freed_lt hh hf
  have hnew : s.deref s.heap.length = none := by
    unfold deref
    simp
  have hnall : s.heap.length ∉ s.m_AllBuffers := fun h => by
    obtain ⟨b, hb⟩ := hs.all_live _ h
    rw [hnew] at hb; cases hb
  have hnfree : s.heap.length ∉ s.m_FreeBuffers := fun h => hnall (hs.free_sub _ h)
  refine ⟨?_, ?_, ?_, ?_, ?_, ?_, ?_, ?_, ?_⟩
  · intro q hq
    rw [hall] at hq
    rw [hd q]
    by_cases hqp : q = s.heap.length
    · exact ⟨c, by simp [hqp]⟩
    · rcases List.mem_append.mp hq with h | h
      · simpa [hqp] using hs.all_live q h
      · simp at h; exact absurd h hqp
  · rw [hall]
    refine List.Nodup.append hs.all_nodup (List.nodup_singleton _) ?_
    intro a ha hap
    simp at hap
    exact hnall (hap ▸ ha)
  · rw [hfree]
    refine List.Nodup.append hs.free_nodup (List.nodup_singleton _) ?_
    intro a ha hap
    simp at hap
    exact hnfree (hap ▸ ha)
  · intro q hq
    rw [hfree] at hq; rw [hall]
    rcases List.mem_append.mp hq with h | h
    · exact List.mem_append_left _ (hs.free_sub q h)
    · exact List.mem_append_right _ h
  · intro q hq d hqd
    rw [hfree] at hq
    rw [hd q] at hqd
    by_cases hqp : q = s.heap.length
    · simp only [hqp, if_true, Option.some.injEq] at hqd
      subst hqd; exact ⟨hc, hcd⟩
    · simp only [hqp, if_false] at hqd
      rcases List.mem_append.mp hq with h | h
      · exact hs.free_rc q h d hqd
      · simp at h; exact absurd h hqp
  · intro q hq d hqd hz
    rw [hall] at hq
    rw [hfree]
    rw [hd q] at hqd
    by_cases hqp : q = s.heap.length
    · simp [hqp]
    · simp only [hqp, if_false] at hqd
      rcases List.mem_append.mp hq with h | h
      · exact List.mem_append_left _ (hs.zero_free q h d hqd hz)
      · simp at h; exact absurd h hqp
  · intro q d hqd
    rw [hd q] at hqd
    by_cases hqp : q = s.heap.length
    · simp only [hqp, if_true, Option.some.injEq] at hqd
      subst hqd; omega
    · simp only [hqp, if_false] at hqd
      exact hs.rc_nonneg q d hqd
  · intro q d hqd hq
    rw [hall] at hq
    rw [hd q] at hqd
    by_cases hqp : q = s.heap.length
    · exact absurd (List.mem_append_right _ (by simp [hqp])) hq
    · simp only [hqp, if_false] at hqd
      exact hs.out_zero q d hqd (fun h => hq (List.mem_append_left _ h))
  · intro q hq
    rw [hf] at hq
    rw [hh, List.length_append, List.length_singleton]
    exact Nat.lt_succ_of_lt (hs.freed_lt q hq)

theorem Inv.inv_addNewBuffer {s : XnBufferPool} (hs : Inv s) (recOk : Bool) (pBuffer nSize : Nat) :
    Inv (s.AddNewBuffer recOk pBuffer nSize).2 := by
  cases recOk
  · rw [AddNewBuffer_false]; exact hs
  · rw [AddNewBuffer_true]
    exact hs.inv_add_new (c := XnBufferInPool.mk s.m_nNextBufferID 0 false pBuffer nSize)
      rfl rfl rfl rfl rfl rfl

theorem keeps_congr {s t : XnBufferPool} {q : Ptr} (f : Bool) (h : t.deref q = s.deref q) :
    keeps f t q = keeps f s q := by
  unfold keeps; rw [h]

theorem rawData_congr {s t : XnBufferPool} {q : Ptr} (h : t.deref q = s.deref q) :
    rawData t q = rawData s q := by
  unfold rawData; rw [h]

theorem FreeAllLoop_cons_remove (f : Bool) (kept rest : List Ptr) (p : Ptr) (s : XnBufferPool)
    (b : XnBufferInPool) (hp : s.deref p = some b) (hk : (f || b.m_nRefCount == 0) = true) :
    FreeAllLoop f kept (p :: rest) s =
      FreeAllLoop f kept rest
        { s with destroyed := s.destroyed ++ [b.m_pData], freed := s.freed ++ [p] } := by
  rw [FreeAllLoop]
  simp only [hp, hk, if_true]

theorem FreeAllLoop_cons_mark (f : Bool) (kept rest : List Ptr) (p : Ptr) (s : XnBufferPool)
    (b : XnBufferInPool) (hp : s.deref p = some b) (hk : (f || b.m_nRefCount == 0) = false) :
    FreeAllLoop f kept (p :: rest) s =
      FreeAllLoop f (kept ++ [p]) rest { s with heap := s.heap.set p (marked b) } := by
  rw [FreeAllLoop]
  simp only [hp, hk]
  rfl

theorem FreeAllLoop_spec (f : Bool) : ∀ (todo kept : List Ptr) (s : XnBufferPool),
    (∀ p ∈ todo, ∃ b, s.deref p = some b) → todo.Nodup →
    ∃ t, FreeAllLoop f kept todo s = some t ∧
      t.m_AllBuffers = kept ++ todo.filter (keeps f s) ∧
      t.m_FreeBuffers = s.m_FreeBuffers ∧
      t.m_nBufferSize = s.m_nBufferSize ∧
      t.m_nNextBufferID = s.m_nNextBufferID ∧
      t.m_hLock = s.m_hLock ∧
      t.freed = s.freed ++ todo.filter (fun p => !keeps f s p) ∧
      t.destroyed = s.destroyed ++ (todo.filter (fun p => !keeps f s p)).map (rawData s) ∧
      t.heap.length = s.heap.length ∧
      (∀ q, t.deref q =
        if q ∈ todo then (if keeps f s q = true then (s.deref q).map marked else none)
        else s.deref q) := by
  intro todo
  induction todo with
  | nil =>
    intro kept s _ _
    exact ⟨_, rfl, by simp, rfl, rfl, rfl, rfl, by simp, by simp, rfl, fun q => by
      simp only [List.not_mem_nil, if_false]; rfl⟩
  | cons p rest ih =>
    intro kept s hlive hnd
    obtain ⟨b, hp⟩ := hlive p (List.mem_cons_self _ _)
    have hprest : p ∉ rest := (List.nodup_cons.mp hnd).1
    have hndr : rest.Nodup := (List.nodup_cons.mp hnd).2
    have hne : ∀ q ∈ rest, q ≠ p := fun q hq h => hprest (h ▸ hq)
    cases hk : (f || b.m_nRefCount == 0)
    · -- the record stays and is marked
      have hkp : keeps f s p = true := by
        unfold keeps; rw [hp]; simp only [hk]; rfl
      have hd := deref_upd (s := s)
        (t := { s with heap := s.heap.set p (marked b) }) (marked b) rfl rfl hp
      have hsame : ∀ q, q ≠ p →
          ({ s with heap := s.heap.set p (marked b) } : XnBufferPool).deref q = s.deref q := by
        intro q hq; rw [hd q]; simp [hq]
      obtain ⟨t, ht, hall, hfree, hsz, hnx, hl, hfr, hds, hlen, hder⟩ :=
        ih (kept ++ [p]) { s with heap := s.heap.set p (marked b) }
          (fun q hq => by
            rw [hsame q (hne q hq)]; exact hlive q (List.mem_cons_of_mem _ hq))
          hndr
      have hfk : rest.filter (keeps f { s with heap := s.heap.set p (marked b) }) =
          rest.filter (keeps f s) :=
        List.filter_congr (fun q hq => keeps_congr f (hsame q (hne q hq)))
      have hfn : rest.filter (fun q => !keeps f { s with heap := s.heap.set p (marked b) } q) =
          rest.filter (fun q => !keeps f s q) :=
        List.filter_congr (fun q hq => by rw [keeps_congr f (hsame q (hne q hq))])
      refine ⟨t, ?_, ?_, hfree, hsz, hnx, hl, ?_, ?_, ?_, ?_⟩
      · rw [FreeAllLoop_cons_mark f kept rest p s b hp hk]; exact ht
      · rw [hall, hfk, List.filter_cons_of_pos hkp]; simp
      · rw [hfr, hfn, List.filter_cons_of_neg (by simp [hkp])]
      · rw [hds, hfn, List.filter_cons_of_neg (by simp [hkp])]
        congr 1
        refine List.map_congr_left (fun q hq => ?_)
        exact rawData_congr (hsame q (hne q (List.mem_filter.mp hq).1))
      · rw [hlen]; simp
      · intro q
        rw [hder q]
        by_cases hqp : q = p
        · subst hqp
          simp only [hprest, if_false, List.mem_cons_self, if_true, hkp, hp, Option.map_some']
          rw [hd q]; simp
        · rw [keeps_congr f (hsame q hqp), hsame q hqp]
          by_cases hqr : q ∈ rest
          · simp [hqr]
          · simp [hqr, hqp]
    · -- the record is destroyed and its node removed
      have hkp : keeps f s p = false := by
        unfold keeps; rw [hp]; simp only [hk]; rfl
      have hsame : ∀ q, q ≠ p →
          ({ s with destroyed := s.destroyed ++ [b.m_pData], freed := s.freed ++ [p] } :
            XnBufferPool).deref q = s.deref q := by
        intro q hq
        unfold deref
        simp [hq]
      have hgone : ({ s with destroyed := s.destroyed ++ [b.m_pData], freed := s.freed ++ [p] } :
            XnBufferPool).deref p = none := by
        unfold deref
        simp
      obtain ⟨t, ht, hall, hfree, hsz, hnx, hl, hfr, hds, hlen, hder⟩ :=
        ih kept { s with destroyed := s.destroyed ++ [b.m_pData], freed := s.freed ++ [p] }
          (fun q hq => by
            rw [hsame q (hne q hq)]; exact hlive q (List.mem_cons_of_mem _ hq))
          hndr
      have hfk : rest.filter (keeps f
          { s with destroyed := s.destroyed ++ [b.m_pData], freed := s.freed ++ [p] }) =
          rest.filter (keeps f s) :=
        List.filter_congr (fun q hq => keeps_congr f (hsame q (hne q hq)))
      have hfn : rest.filter (fun q => !keeps f
          { s with destroyed := s.destroyed ++ [b.m_pData], freed := s.freed ++ [p] } q) =
          rest.filter (fun q => !keeps f s q) :=
        List.filter_congr (fun q hq => by rw [keeps_congr f (hsame q (hne q hq))])
      have hraw : rawData s p = b.m_pData := by unfold rawData; rw [hp]
      refine ⟨t, ?_, ?_, hfree, hsz, hnx, hl, ?_, ?_, hlen, ?_⟩
      · rw [FreeAllLoop_cons_remove f kept rest p s b hp hk]; exact ht
      · rw [hall, hfk, List.filter_cons_of_neg (by simp [hkp])]
      · rw [hfr, hfn, List.filter_cons_of_pos (by simp [hkp])]; simp
      · rw [hds, hfn, List.filter_cons_of_pos (by simp [hkp])]
        simp only [List.map_cons, hraw, List.append_assoc, List.singleton_append]
        congr 2
        refine List.map_congr_left (fun q hq => ?_)
        exact rawData_congr (hsame q (hne q (List.mem_filter.mp hq).1))
      · intro q
        rw [hder q]
        by_cases hqp : q = p
        · subst hqp
          simp [hprest, hkp, hgone]
        · rw [keeps_congr f (hsame q hqp), hsame q hqp]
          by_cases hqr : q ∈ rest
          · simp [hqr]
          · simp [hqr, hqp]

/-- The invariant reads only the two lists, the heap and the released addresses. -/
theorem Inv.inv_of_fields {s t : XnBufferPool} (hs : Inv s)
    (hall : t.m_AllBuffers = s.m_AllBuffers) (hfree : t.m_FreeBuffers = s.m_FreeBuffers)
    (hh : t.heap = s.heap) (hf : t.freed = s.freed) : Inv t := by
  have hd : ∀ q, t.deref q = s.deref q := deref_same hh hf
  refine ⟨?_, ?_, ?_, ?_, ?_, ?_, ?_, ?_, ?_⟩
  · intro q hq; rw [hd q]; exact hs.all_live q (hall ▸ hq)
  · rw [hall]; exact hs.all_nodup
  · rw [hfree]; exact hs.free_nodup
  · intro q hq; rw [hall]; exact hs.free_sub q (hfree ▸ hq)
  · intro q hq d hqd; rw [hd q] at hqd; exact hs.free_rc q (hfree ▸ hq) d hqd
  · intro q hq d hqd hz; rw [hd q] at hqd; rw [hfree]
    exact hs.zero_free q (hall ▸ hq) d hqd hz
  · intro q d hqd; rw [hd q] at hqd; exact hs.rc_nonneg q d hqd
  · intro q d hqd hq; rw [hd q] at hqd; rw [hall] at hq; exact hs.out_zero q d hqd hq
  · intro q hq; rw [hh]; exact hs.freed_lt q (hf ▸ hq)

theorem Inv.inv_enter {s : XnBufferPool} (hs : Inv s) : Inv s.xnOSEnterCriticalSection :=
  hs.inv_of_fields rfl rfl rfl rfl

theorem Inv.inv_leave {s : XnBufferPool} (hs : Inv s) : Inv s.xnOSLeaveCriticalSection :=
  hs.inv_of_fields rfl rfl rfl rfl

theorem FreeAll_spec (f : Bool) (s : XnBufferPool)
    (hlive : ∀ p ∈ s.m_AllBuffers, ∃ b, s.deref p = some b) (hnd : s.m_AllBuffers.Nodup) :
    ∃ t, s.FreeAll f = some t ∧
      t.m_AllBuffers = s.m_AllBuffers.filter (keeps f s) ∧
      t.m_FreeBuffers = [] ∧
      t.m_nBufferSize = s.m_nBufferSize ∧
      t.m_nNextBufferID = s.m_nNextBufferID ∧
      t.m_hLock = s.m_hLock ∧
      t.freed = s.freed ++ s.m_AllBuffers.filter (fun p => !keeps f s p) ∧
      t.destroyed = s.destroyed ++
        (s.m_AllBuffers.filter (fun p => !keeps f s p)).map (rawData s) ∧
      t.heap.length = s.heap.length ∧
      (∀ q, t.deref q =
        if q ∈ s.m_AllBuffers then
          (if keeps f s q = true then (s.deref q).map marked else none)
        else s.deref q) := by
  obtain ⟨t, ht, hall, -, hsz, hnx, hl, hfr, hds, hlen, hder⟩ :=
    FreeAllLoop_spec f s.m_AllBuffers [] s hlive hnd
  refine ⟨{ t with m_FreeBuffers := [] }, ?_, ?_, rfl, hsz, hnx, hl, hfr, hds, hlen, ?_⟩
  · unfold FreeAll; rw [ht]; rfl
  · simpa using hall
  · intro q; rw [← hder q]; rfl

theorem keeps_true_iff {f : Bool} {s : XnBufferPool} {q : Ptr} :
    keeps f s q = true ↔ ∃ b, s.deref q = some b ∧ f = false ∧ b.m_nRefCount ≠ 0 := by
  unfold keeps
  cases h : s.deref q with
  | none => simp
  | some b => cases f <;> simp

/-- The procedure `FreeAll` keeps the invariant. -/
theorem Inv.inv_freeAll {s t : XnBufferPool} (hs : Inv s) (f : Bool) (ht : s.FreeAll f = some t) :
    Inv t := by
  obtain ⟨t', ht', hall, hfree, -, -, -, hfr, -, hlen, hder⟩ :=
    FreeAll_spec f s hs.all_live hs.all_nodup
  rw [ht] at ht'
  cases ht'
  refine ⟨?_, ?_, ?_, ?_, ?_, ?_, ?_, ?_, ?_⟩
  · intro q hq
    rw [hall] at hq
    obtain ⟨hqa, hk⟩ := List.mem_filter.mp hq
    obtain ⟨b, hb, -, -⟩ := keeps_true_iff.mp hk
    rw [hder q]
    exact ⟨marked b, by simp [hqa, hk, hb]⟩
  · rw [hall]; exact hs.all_nodup.filter _
  · rw [hfree]; exact List.nodup_nil
  · intro q hq; rw [hfree] at hq; cases hq
  · intro q hq; rw [hfree] at hq; cases hq
  · intro q hq d hqd hz
    rw [hall] at hq
    obtain ⟨hqa, hk⟩ := List.mem_filter.mp hq
    obtain ⟨b, hb, -, hne⟩ := keeps_true_iff.mp hk
    rw [hder q] at hqd
    simp only [hqa, hk, hb, if_true, Option.map_some', Option.some.injEq] at hqd
    subst hqd
    exact absurd hz hne
  · intro q d hqd
    rw [hder q] at hqd
    by_cases hqa : q ∈ s.m_AllBuffers
    · by_cases hk : keeps f s q = true
      · obtain ⟨b, hb, -, -⟩ := keeps_true_iff.mp hk
        simp only [hqa, hk, hb, if_true, Option.map_some', Option.some.injEq] at hqd
        subst hqd
        exact hs.rc_nonneg q b hb
      · simp [hqa, hk] at hqd
    · simp only [hqa, if_false] at hqd
      exact hs.rc_nonneg q d hqd
  · intro q d hqd hq
    rw [hder q] at hqd
    by_cases hqa : q ∈ s.m_AllBuffers
    · by_cases hk : keeps f s q = true
      · exact absurd (hall ▸ List.mem_filter.mpr ⟨hqa, hk⟩) hq
      · simp [hqa, hk] at hqd
    · simp only [hqa, if_false] at hqd
      exact hs.out_zero q d hqd hqa
  · intro q hq
    rw [hfr] at hq
    rw [hlen]
    rcases List.mem_append.mp hq with h | h
    · exact hs.freed_lt q h
    · obtain ⟨b, hb⟩ := hs.all_live q (List.mem_filter.mp h).1
      exact deref_lt hb

theorem Inv.inv_allocateBuffers {s : XnBufferPool} (hs : Inv s) (r : AllocRun) :
    Inv (s.AllocateBuffers r).2 := by
  unfold AllocateBuffers
  simp only
  generalize r.calls = calls
  induction calls generalizing s with
  | nil => exact hs
  | cons c cs ih => exact ih (hs.inv_addNewBuffer c.1 c.2.1 c.2.2)

theorem Inv.inv_changeBufferSize {s : XnBufferPool} (hs : Inv s) (n : Nat) (hook : Nat → AllocRun)
    (r : XnStatus × XnBufferPool) (hr : s.ChangeBufferSize n hook = some r) : Inv r.2 := by
  unfold ChangeBufferSize at hr
  have h2 : Inv ({ s.xnOSEnterCriticalSection with m_nBufferSize := n } : XnBufferPool) :=
    hs.inv_of_fields rfl rfl rfl rfl
  cases h3 : ({ s.xnOSEnterCriticalSection with m_nBufferSize := n } : XnBufferPool).FreeAll false with
  | none => simp [h3] at hr
  | some s3 =>
    have hi3 : Inv s3 := h2.inv_freeAll false h3
    have hi4 := (hi3.inv_allocateBuffers (hook n)).inv_leave
    simp only [h3] at hr
    split at hr <;> (cases hr; exact hi4)

theorem Inv.inv_init {s : XnBufferPool} (hs : Inv s) (cs : XnStatus) (n : Nat)
    (hook : Nat → AllocRun) (r : XnStatus × XnBufferPool)
    (hr : s.Init cs n hook = some r) : Inv r.2 := by
  unfold Init at hr
  split at hr
  · cases hr; exact hs
  · have h2 : Inv ({ s with m_hLock := some 0 } : XnBufferPool) := hs.inv_of_fields rfl rfl rfl rfl
    cases h3 : ({ s with m_hLock := some 0 } : XnBufferPool).ChangeBufferSize n hook with
    | none => simp [h3] at hr
    | some r3 =>
      have hi := h2.inv_changeBufferSize n hook r3 h3
      obtain ⟨st, t⟩ := r3
      simp only [h3] at hr
      split at hr <;> (cases hr; exact hi)

theorem leased_iff {s : XnBufferPool} {h : Option Ptr} :
    s.leased h = true ↔ ∃ p b, h = some p ∧ s.deref p = some b ∧ 0 < b.m_nRefCount := by
  cases h with
  | none => simp [leased]
  | some p =>
    cases hb : s.deref p with
    | none => simp [leased, hb]
    | some b => simp [leased, hb]

theorem Inv.inv_getBuffer {s : XnBufferPool} (hs : Inv s)
    (r : XnStatus × Option Ptr × XnBufferPool) (hr : s.GetBuffer = some r) : Inv r.2.2 := by
  cases hfr : s.m_FreeBuffers with
  | nil =>
    rw [GetBuffer_nil s hfr] at hr
    cases hr; exact hs
  | cons p rest =>
    obtain ⟨b, hb⟩ := hs.all_live p (hs.free_sub p (by simp [hfr]))
    rw [GetBuffer_cons s p rest b hfr hb] at hr
    cases hr
    exact hs.inv_lease (c := { b with m_nRefCount := 1 }) hfr hb Int.one_pos rfl rfl rfl rfl

theorem Inv.inv_addRef {s t : XnBufferPool} (hs : Inv s) (h : Option Ptr)
    (hl : s.leased h = true) (ht : s.AddRef h = some t) : Inv t := by
  obtain ⟨p, b, rfl, hb, hpos⟩ := leased_iff.mp hl
  rw [AddRef_some s p b hb] at ht
  cases ht
  exact hs.inv_update_leased (c := { b with m_nRefCount := b.m_nRefCount + 1 }) hb hpos
    (by show 0 < b.m_nRefCount + 1; omega) rfl rfl rfl rfl

theorem Inv.inv_copyRef {s : XnBufferPool} (hs : Inv s) (dst h : Option Ptr)
    (r : Option Ptr × XnBufferPool)
    (hl : s.leased h = true) (hr : s.CopyRef dst h = some r) : Inv r.2 := by
  obtain ⟨p, b, rfl, hb, hpos⟩ := leased_iff.mp hl
  rw [CopyRef_some s dst p b hb] at hr
  cases hr
  exact hs.inv_update_leased (c := { b with m_nRefCount := b.m_nRefCount + 1 }) hb hpos
    (by show 0 < b.m_nRefCount + 1; omega) rfl rfl rfl rfl

theorem Inv.inv_decRef {s t : XnBufferPool} (hs : Inv s) (h : Option Ptr)
    (hl : s.leased h = true) (ht : s.DecRef h = some t) : Inv t := by
  obtain ⟨p, b, rfl, hb, hpos⟩ := leased_iff.mp hl
  rw [DecRef_some s p b hb] at ht
  by_cases h0 : b.m_nRefCount - 1 = 0
  · by_cases hd : b.m_bDestroy = true
    · rw [if_pos h0, if_pos hd] at ht
      cases ht
      exact hs.inv_release_destroy (c := { b with m_nRefCount := b.m_nRefCount - 1 }) hb hpos h0
        rfl rfl rfl rfl
    · rw [if_pos h0, if_neg hd] at ht
      cases ht
      exact hs.inv_release_to_free (c := { b with m_nRefCount := b.m_nRefCount - 1 }) hb hpos h0
        (by simpa using hd) rfl rfl rfl rfl
  · rw [if_neg h0] at ht
    cases ht
    exact hs.inv_update_leased (c := { b with m_nRefCount := b.m_nRefCount - 1 }) hb hpos
      (by show 0 < b.m_nRefCount - 1; omega) rfl rfl rfl rfl

theorem Inv.inv_construct : Inv construct := by
  refine ⟨?_, ?_, ?_, ?_, ?_, ?_, ?_, ?_, ?_⟩ <;> simp [XnBufferPool.construct, deref]

/-- Every reachable state satisfies the bookkeeping invariant. -/
theorem Reachable.inv {s : XnBufferPool} (h : Reachable s) : Inv s := by
  induction h with
  | construct => exact Inv.inv_construct
  | init s cs n hook r _ hr ih => exact ih.inv_init cs n hook r hr
  | addNewBuffer s recOk pBuffer nSize _ ih => exact ih.inv_addNewBuffer recOk pBuffer nSize
  | changeBufferSize s n hook r _ hr ih => exact ih.inv_changeBufferSize n hook r hr
  | getBuffer s r _ hr ih => exact ih.inv_getBuffer r hr
  | addRef s t h _ hl ht ih => exact ih.inv_addRef h hl ht
  | decRef s t h _ hl ht ih => exact ih.inv_decRef h hl ht
  | copyRef s dst h r _ hl hr ih => exact ih.inv_copyRef dst h r hl hr

/-! ## Reachability of the example states -/

theorem exFresh_init :
    construct.Init XnStatus.XN_STATUS_OK 1024 exHook = some (XnStatus.XN_STATUS_OK, exFresh) := by
  decide

theorem exFresh_reachable : Reachable exFresh :=
  Reachable.init construct XnStatus.XN_STATUS_OK 1024 exHook (XnStatus.XN_STATUS_OK, exFresh)
    Reachable.construct exFresh_init

theorem exOne_reachable : Reachable exOne :=
  Reachable.getBuffer exFresh (XnStatus.XN_STATUS_OK, some 0, exOne) exFresh_reachable
    (by decide)

theorem exLeased_reachable : Reachable exLeased :=
  Reachable.getBuffer exOne (XnStatus.XN_STATUS_OK, some 1, exLeased) exOne_reachable
    (by decide)

theorem exHalf_reachable : Reachable exHalf :=
  Reachable.decRef exLeased exHalf (some 0) exLeased_reachable (by decide) (by decide)

/-! ## The free list in reachable states -/

/-- C7: in every reachable state each member of the free list is a member of
`m_AllBuffers` and refers to a live record with reference count 0 that is not
marked for destruction; and no record with a positive count is on the free
list. -/
theorem C7_free_list_sound (s : XnBufferPool) (h : Reachable s) :
    (∀ p ∈ s.m_FreeBuffers, p ∈ s.m_AllBuffers ∧
      ∃ b, s.deref p = some b ∧ b.m_nRefCount = 0 ∧ b.m_bDestroy = false) ∧
    (∀ p b, s.deref p = some b → 0 < b.m_nRefCount → p ∉ s.m_FreeBuffers) := by
  have hi := h.inv
  constructor
  · intro p hp
    have hall := hi.free_sub p hp
    obtain ⟨b, hb⟩ := hi.all_live p hall
    exact ⟨hall, b, hb, hi.free_rc p hp b hb⟩
  · intro p b hb hpos hp
    have := (hi.free_rc p hp b hb).1
    omega

theorem C7_free_list_sound_witness :
    Reachable exHalf ∧
    (∀ p ∈ exHalf.m_FreeBuffers, p ∈ exHalf.m_AllBuffers ∧
      ∃ b, exHalf.deref p = some b ∧ b.m_nRefCount = 0 ∧ b.m_bDestroy = false) ∧
    (∀ p b, exHalf.deref p = some b → 0 < b.m_nRefCount → p ∉ exHalf.m_FreeBuffers) :=
  ⟨exHalf_reachable, C7_free_list_sound exHalf exHalf_reachable⟩

/-- C8: in every reachable state each member of `m_AllBuffers` whose reference
count is 0 is on the free list, exactly once; so a live record with count 0
that is not on the free list is not in `m_AllBuffers` either. -/
theorem C8_free_list_complete (s : XnBufferPool) (h : Reachable s) :
    (∀ p ∈ s.m_AllBuffers, ∀ b, s.deref p = some b → b.m_nRefCount = 0 →
      p ∈ s.m_FreeBuffers ∧ s.m_FreeBuffers.count p = 1) ∧
    (∀ p b, s.deref p = some b → b.m_nRefCount = 0 → p ∉ s.m_FreeBuffers →
      p ∉ s.m_AllBuffers) := by
  have hi := h.inv
  constructor
  · intro p hp b hb hz
    have hm := hi.zero_free p hp b hb hz
    exact ⟨hm, List.count_eq_one_of_mem hi.free_nodup hm⟩
  · intro p b hb hz hnf hp
    exact hnf (hi.zero_free p hp b hb hz)

theorem C8_free_list_complete_witness :
    Reachable exHalf ∧
    (∀ p ∈ exHalf.m_AllBuffers, ∀ b, exHalf.deref p = some b → b.m_nRefCount = 0 →
      p ∈ exHalf.m_FreeBuffers ∧ exHalf.m_FreeBuffers.count p = 1) ∧
    (∀ p b, exHalf.deref p = some b → b.m_nRefCount = 0 → p ∉ exHalf.m_FreeBuffers →
      p ∉ exHalf.m_AllBuffers) :=
  ⟨exHalf_reachable, C8_free_list_complete exHalf exHalf_reachable⟩

/-! ## Sequences of reference-count calls on one buffer -/

theorem run_append (s : XnBufferPool) (xs ys : List Op) :
    s.run (xs ++ ys) = (s.run xs).bind fun t => t.run ys := by
  induction xs generalizing s with
  | nil => simp [run]
  | cons x xs ih =>
    simp only [List.cons_append, run]
    cases h : s.step x with
    | none => simp
    | some t => simp [ih]

theorem run_singleton (s : XnBufferPool) (x : Op) : s.run [x] = s.step x := by
  simp only [run]
  cases h : s.step x <;> simp [run]

theorem acquires_snoc (cs : List RefCall) (c : RefCall) :
    acquires (cs ++ [c]) = acquires cs + (if c.isRelease then 0 else 1) := by
  unfold acquires
  rw [List.countP_append]
  cases h : c.isRelease <;> simp [List.countP_cons, h]

theorem releases_snoc (cs : List RefCall) (c : RefCall) :
    releases (cs ++ [c]) = releases cs + (if c.isRelease then 1 else 0) := by
  unfold releases
  rw [List.countP_append]
  cases h : c.isRelease <;> simp [List.countP_cons, h]

theorem step_copyRef (s : XnBufferPool) (dst : Option Ptr) (p : Ptr) (b : XnBufferInPool)
    (hp : s.deref p = some b) :
    s.step (Op.copyRef dst (some p)) = s.AddRef (some p) := by
  simp only [step]
  rw [CopyRef_some s dst p b hp, AddRef_some s p b hp]
  rfl

theorem refcount_run (s1 : XnBufferPool) (p : Ptr) (c1 : XnBufferInPool)
    (hp : s1.deref p = some c1) (hk : 0 < c1.m_nRefCount) :
    ∀ cs : List RefCall,
    (∀ pre, pre <+: cs → pre ≠ cs → (releases pre : Int) < c1.m_nRefCount + acquires pre) →
    ∃ t, s1.run (cs.map (RefCall.toOp p)) = some t ∧
      t.deref p =
        some { c1 with m_nRefCount := c1.m_nRefCount + acquires cs - releases cs } ∧
      (∀ q, q ≠ p → t.deref q = s1.deref q) ∧
      ((releases cs : Int) ≤ c1.m_nRefCount + acquires cs) ∧
      ((releases cs : Int) < c1.m_nRefCount + acquires cs →
        t.m_FreeBuffers = s1.m_FreeBuffers ∧ t.m_AllBuffers = s1.m_AllBuffers ∧
        t.destroyed = s1.destroyed) ∧
      ((releases cs : Int) = c1.m_nRefCount + acquires cs →
        (c1.m_bDestroy = false →
          t.m_FreeBuffers = s1.m_FreeBuffers ++ [p] ∧ t.m_AllBuffers = s1.m_AllBuffers ∧
          t.destroyed = s1.destroyed) ∧
        (c1.m_bDestroy = true →
          t.m_FreeBuffers = s1.m_FreeBuffers ∧ t.m_AllBuffers = s1.m_AllBuffers.erase p ∧
          t.destroyed = s1.destroyed ++ [c1.m_pData])) := by
  intro cs
  induction cs using List.reverseRecOn with
  | nil =>
    intro _
    refine ⟨s1, rfl, ?_, fun _ _ => rfl, ?_, fun _ => ⟨rfl, rfl, rfl⟩, ?_⟩
    · rw [hp]; simp [acquires, releases]
    · simp [acquires, releases]; omega
    · intro h; simp [acquires, releases] at h; omega
  | append_singleton pre x ih =>
    intro hpos
    have hpre_pos : (releases pre : Int) < c1.m_nRefCount + acquires pre :=
      hpos pre (List.prefix_append _ _) (by simp)
    have hpos' : ∀ pre', pre' <+: pre → pre' ≠ pre →
        (releases pre' : Int) < c1.m_nRefCount + acquires pre' := by
      intro pre' h hne
      refine hpos pre' (h.trans (List.prefix_append _ _)) ?_
      intro e
      have := h.length_le
      rw [e] at this
      simp at this
    obtain ⟨t0, hrun, hd, hother, -, hposfacts, -⟩ := ih hpos'
    obtain ⟨hfree, hall, hdes⟩ := hposfacts hpre_pos
    have hrun2 : s1.run ((pre ++ [x]).map (RefCall.toOp p)) = t0.step (x.toOp p) := by
      rw [List.map_append, run_append, hrun]
      simp only [Option.some_bind, List.map_cons, List.map_nil, run_singleton]
    rw [hrun2]
    have hra := acquires_snoc pre x
    have hrr := releases_snoc pre x
    cases x with
    | addRef =>
      simp only [RefCall.isRelease, Bool.false_eq_true, if_false, Nat.add_zero] at hra hrr
      have e : c1.m_nRefCount + ((acquires (pre ++ [RefCall.addRef]) : Nat) : Int)
          - ((releases (pre ++ [RefCall.addRef]) : Nat) : Int)
          = c1.m_nRefCount + acquires pre - releases pre + 1 := by
        rw [hra, hrr]; push_cast; ring
      refine ⟨_, AddRef_some t0 p _ hd, ?_, ?_, ?_, ?_, ?_⟩
      · rw [e]; exact deref_set_self _ hd
      · intro q hq
        rw [← hother q hq]
        exact deref_set_other _ hq
      · rw [hra, hrr]; push_cast; omega
      · intro _; exact ⟨hfree, hall, hdes⟩
      · intro h; rw [hra, hrr] at h; push_cast at h; omega
    | copyRef dst =>
      simp only [RefCall.isRelease, Bool.false_eq_true, if_false, Nat.add_zero] at hra hrr
      have e : c1.m_nRefCount + ((acquires (pre ++ [RefCall.copyRef dst]) : Nat) : Int)
          - ((releases (pre ++ [RefCall.copyRef dst]) : Nat) : Int)
          = c1.m_nRefCount + acquires pre - releases pre + 1 := by
        rw [hra, hrr]; push_cast; ring
      have hstep : t0.step (RefCall.toOp p (RefCall.copyRef dst)) = _ :=
        (step_copyRef t0 dst p _ hd).trans (AddRef_some t0 p _ hd)
      refine ⟨_, hstep, ?_, ?_, ?_, ?_, ?_⟩
      · rw [e]; exact deref_set_self _ hd
      · intro q hq
        rw [← hother q hq]
        exact deref_set_other _ hq
      · rw [hra, hrr]; push_cast; omega
      · intro _; exact ⟨hfree, hall, hdes⟩
      · intro h; rw [hra, hrr] at h; push_cast at h; omega
    | decRef =>
      simp only [RefCall.isRelease, if_true, Nat.add_zero] at hra hrr
      have e : c1.m_nRefCount + ((acquires (pre ++ [RefCall.decRef]) : Nat) : Int)
          - ((releases (pre ++ [RefCall.decRef]) : Nat) : Int)
          = c1.m_nRefCount + acquires pre - releases pre - 1 := by
        rw [hra, hrr]; push_cast; ring
      have hstep := DecRef_some t0 p _ hd
      by_cases h0 : c1.m_nRefCount + (acquires pre : Int) - releases pre - 1 = 0
      · by_cases hdst : c1.m_bDestroy = true
        · rw [if_pos h0, if_pos hdst] at hstep
          refine ⟨_, hstep, ?_, ?_, ?_, ?_, ?_⟩
          · rw [e]; exact deref_set_self _ hd
          · intro q hq
            rw [← hother q hq]
            exact deref_set_other _ hq
          · rw [hra, hrr]; push_cast; omega
          · intro h; rw [hra, hrr] at h; push_cast at h; omega
          · intro _
            refine ⟨fun hf => ?_, fun _ => ⟨hfree, ?_, ?_⟩⟩
            · rw [hdst] at hf; cases hf
            · show t0.m_AllBuffers.erase p = _
              rw [hall]
            · show t0.destroyed ++ [c1.m_pData] = _
              rw [hdes]
        · rw [if_pos h0, if_neg hdst] at hstep
          refine ⟨_, hstep, ?_, ?_, ?_, ?_, ?_⟩
          · rw [e]; exact deref_set_self _ hd
          · intro q hq
            rw [← hother q hq]
            exact deref_set_other _ hq
          · rw [hra, hrr]; push_cast; omega
          · intro h; rw [hra, hrr] at h; push_cast at h; omega
          · intro _
            refine ⟨fun _ => ⟨?_, hall, hdes⟩, fun hf => absurd hf hdst⟩
            show t0.m_FreeBuffers ++ [p] = _
            rw [hfree]
      · rw [if_neg h0] at hstep
        refine ⟨_, hstep, ?_, ?_, ?_, ?_, ?_⟩
        · rw [e]; exact deref_set_self _ hd
        · intro q hq
          rw [← hother q hq]
          exact deref_set_other _ hq
        · rw [hra, hrr]; push_cast; omega
        · intro _; exact ⟨hfree, hall, hdes⟩
        · intro h; rw [hra, hrr] at h; push_cast at h; omega

/-- C4: reference counting of a leased buffer.  Let `GetBuffer` return `p`, and
let `cs` be calls of `AddRef`, `CopyRef` and `DecRef` on `p` such that every
proper prefix has fewer `DecRef`s than one plus its `AddRef`s and `CopyRef`s.
After every prefix that still has fewer `DecRef`s, the count of `p` is one plus
the acquisitions minus the releases, `p` is not on the free list and is in
`m_AllBuffers`.  When the whole of `cs` has as many `DecRef`s as one plus its
acquisitions, its last call appends `p` to the free list if the record is not
marked for destruction, and otherwise removes `p` from `m_AllBuffers` and hands
its storage to the destruction hook. -/
theorem C4_refcount (s : XnBufferPool) (p : Ptr) (rest : List Ptr) (b : XnBufferInPool)
    (hfree : s.m_FreeBuffers = p :: rest) (hp : s.deref p = some b)
    (hrest : p ∉ rest) (hall : p ∈ s.m_AllBuffers) (hnd : s.m_AllBuffers.Nodup)
    (cs : List RefCall)
    (hpos : ∀ pre ∈ cs.inits, pre ≠ cs → releases pre < 1 + acquires pre) :
    ∃ s1, s.GetBuffer = some (XnStatus.XN_STATUS_OK, some p, s1) ∧
      (∀ pre ∈ cs.inits, releases pre < 1 + acquires pre →
        ∃ t c, s1.run (pre.map (RefCall.toOp p)) = some t ∧
          t.deref p = some c ∧
          c.m_nRefCount = 1 + (acquires pre : Int) - releases pre ∧
          c.m_nID = b.m_nID ∧
          p ∉ t.m_FreeBuffers ∧ p ∈ t.m_AllBuffers) ∧
      (releases cs = 1 + acquires cs →
        ∃ t, s1.run (cs.map (RefCall.toOp p)) = some t ∧
          (b.m_bDestroy = false →
            t.m_FreeBuffers = rest ++ [p] ∧ t.m_AllBuffers = s.m_AllBuffers) ∧
          (b.m_bDestroy = true →
            t.m_AllBuffers = s.m_AllBuffers.erase p ∧ p ∉ t.m_AllBuffers ∧
            p ∉ t.m_FreeBuffers ∧ t.destroyed = s.destroyed ++ [b.m_pData])) := by
  obtain ⟨s1, hget, hf1, hp1, hall1, -, -, -, -, hdes1, -⟩ :=
    GetBuffer_head_spec s p rest b hfree hp
  have hpos1 : ∀ pre, pre <+: cs → pre ≠ cs →
      (releases pre : Int) <
        ({ b with m_nRefCount := 1 } : XnBufferInPool).m_nRefCount + acquires pre := by
    intro pre hpre hne
    have := hpos pre ((List.mem_inits _ _).mpr hpre) hne
    show (releases pre : Int) < 1 + acquires pre
    omega
  refine ⟨s1, hget, ?_, ?_⟩
  · intro pre hpre hlt
    have hpre' : pre <+: cs := (List.mem_inits _ _).mp hpre
    have hposp : ∀ pre', pre' <+: pre → pre' ≠ pre →
        (releases pre' : Int) <
          ({ b with m_nRefCount := 1 } : XnBufferInPool).m_nRefCount + acquires pre' := by
      intro pre' h hne
      refine hpos1 pre' (h.trans hpre') ?_
      intro e
      apply hne
      have h2 : cs <+: pre := e ▸ h
      have hlen : pre.length = cs.length := Nat.le_antisymm hpre'.length_le h2.length_le
      rw [e]
      exact (hpre'.eq_of_length hlen).symm
    obtain ⟨t, hrun, hd, -, -, hfacts, -⟩ :=
      refcount_run s1 p _ hp1 Int.one_pos pre hposp
    obtain ⟨hf, ha, -⟩ := hfacts (by show (releases pre : Int) < 1 + acquires pre; omega)
    refine ⟨t, _, hrun, hd, rfl, rfl, ?_, ?_⟩
    · rw [hf, hf1]; exact hrest
    · rw [ha, hall1]; exact hall
  · intro heq
    obtain ⟨t, hrun, -, -, -, -, hfin⟩ :=
      refcount_run s1 p _ hp1 Int.one_pos cs hpos1
    obtain ⟨hfin1, hfin2⟩ := hfin (by show (releases cs : Int) = 1 + acquires cs; omega)
    refine ⟨t, hrun, ?_, ?_⟩
    · intro hd
      obtain ⟨hf, ha, -⟩ := hfin1 hd
      exact ⟨by rw [hf, hf1], by rw [ha, hall1]⟩
    · intro hd
      obtain ⟨hf, ha, hds⟩ := hfin2 hd
      refine ⟨by rw [ha, hall1], ?_, by rw [hf, hf1]; exact hrest, by rw [hds, hdes1]⟩
      rw [ha, hall1]
      exact fun h => ((hnd.mem_erase_iff).mp h).1 rfl

theorem C4_refcount_witness :
    exHalf.m_FreeBuffers = 0 :: [] ∧ exHalf.deref 0 = some (exRec 0 0 false) ∧
    (0 : Ptr) ∉ ([] : List Ptr) ∧ (0 : Ptr) ∈ exHalf.m_AllBuffers ∧
    exHalf.m_AllBuffers.Nodup ∧
    (∀ pre ∈ exCalls.inits, pre ≠ exCalls → releases pre < 1 + acquires pre) ∧
    ∃ s1, exHalf.GetBuffer = some (XnStatus.XN_STATUS_OK, some 0, s1) ∧
      (∀ pre ∈ exCalls.inits, releases pre < 1 + acquires pre →
        ∃ t c, s1.run (pre.map (RefCall.toOp 0)) = some t ∧
          t.deref 0 = some c ∧
          c.m_nRefCount = 1 + (acquires pre : Int) - releases pre ∧
          c.m_nID = (exRec 0 0 false).m_nID ∧
          0 ∉ t.m_FreeBuffers ∧ 0 ∈ t.m_AllBuffers) ∧
      (releases exCalls = 1 + acquires exCalls →
        ∃ t, s1.run (exCalls.map (RefCall.toOp 0)) = some t ∧
          ((exRec 0 0 false).m_bDestroy = false →
            t.m_FreeBuffers = [] ++ [0] ∧ t.m_AllBuffers = exHalf.m_AllBuffers) ∧
          ((exRec 0 0 false).m_bDestroy = true →
            t.m_AllBuffers = exHalf.m_AllBuffers.erase 0 ∧ 0 ∉ t.m_AllBuffers ∧
            0 ∉ t.m_FreeBuffers ∧
            t.destroyed = exHalf.destroyed ++ [(exRec 0 0 false).m_pData])) :=
  ⟨rfl, rfl, by decide, by decide, by decide, by decide,
    C4_refcount exHalf 0 [] (exRec 0 0 false) rfl rfl (by decide) (by decide) (by decide)
      exCalls (by decide)⟩

/-! ## The allocation hook in closed form -/

theorem foldl_AddNewBuffer_spec : ∀ (calls : List (Bool × Nat × Nat)) (s t : XnBufferPool),
    calls.foldl (fun t c => (t.AddNewBuffer c.1 c.2.1 c.2.2).2) s = t →
    t.heap = s.heap ++ newRecs s.m_nNextBufferID calls ∧
    t.m_AllBuffers = s.m_AllBuffers ++
      List.range' s.heap.length (newRecs s.m_nNextBufferID calls).length ∧
    t.m_FreeBuffers = s.m_FreeBuffers ++
      List.range' s.heap.length (newRecs s.m_nNextBufferID calls).length ∧
    t.m_nNextBufferID = s.m_nNextBufferID + (newRecs s.m_nNextBufferID calls).length ∧
    t.freed = s.freed ∧ t.destroyed = s.destroyed ∧ t.m_hLock = s.m_hLock ∧
    t.m_nBufferSize = s.m_nBufferSize := by
  intro calls
  induction calls with
  | nil =>
    intro s t h
    simp only [List.foldl_nil] at h
    subst h
    simp [newRecs]
  | cons c cs ih =>
    intro s t h
    obtain ⟨ok, d, n⟩ := c
    simp only [List.foldl_cons] at h
    cases ok with
    | false =>
      rw [AddNewBuffer_false] at h
      have := ih s t h
      simpa [newRecs] using this
    | true =>
      rw [AddNewBuffer_true] at h
      obtain ⟨h1, h2, h3, h4, h5, h6, h7, h8⟩ := ih _ t h
      simp only [List.length_append, List.length_singleton] at h2 h3
      refine ⟨?_, ?_, ?_, ?_, h5, h6, h7, h8⟩
      · rw [h1]; simp [newRecs]
      · rw [h2]; simp [newRecs, List.range'_succ]
      · rw [h3]; simp [newRecs, List.range'_succ]
      · rw [h4]; simp [newRecs]; omega

theorem AllocateBuffers_spec (s : XnBufferPool) (r : AllocRun) :
    (s.AllocateBuffers r).1 = r.status ∧
    (s.AllocateBuffers r).2.heap = s.heap ++ newRecs s.m_nNextBufferID r.calls ∧
    (s.AllocateBuffers r).2.m_AllBuffers = s.m_AllBuffers ++
      List.range' s.heap.length (newRecs s.m_nNextBufferID r.calls).length ∧
    (s.AllocateBuffers r).2.m_FreeBuffers = s.m_FreeBuffers ++
      List.range' s.heap.length (newRecs s.m_nNextBufferID r.calls).length ∧
    (s.AllocateBuffers r).2.m_nNextBufferID =
      s.m_nNextBufferID + (newRecs s.m_nNextBufferID r.calls).length ∧
    (s.AllocateBuffers r).2.freed = s.freed ∧
    (s.AllocateBuffers r).2.destroyed = s.destroyed ∧
    (s.AllocateBuffers r).2.m_hLock = s.m_hLock ∧
    (s.AllocateBuffers r).2.m_nBufferSize = s.m_nBufferSize :=
  ⟨rfl, foldl_AddNewBuffer_spec r.calls s _ rfl⟩

theorem newRecs_spec : ∀ (calls : List (Bool × Nat × Nat)) (id : Nat) (i : Nat)
    (c : XnBufferInPool), (newRecs id calls)[i]? = some c →
    c.m_nID = id + i ∧ c.m_nRefCount = 0 ∧ c.m_bDestroy = false := by
  intro calls
  induction calls with
  | nil => intro id i c h; simp [newRecs] at h
  | cons x xs ih =>
    intro id i c h
    obtain ⟨ok, d, n⟩ := x
    cases ok with
    | false => exact ih id i c (by simpa [newRecs] using h)
    | true =>
      cases i with
      | zero =>
        simp [newRecs] at h
        subst h
        simp
      | succ j =>
        simp only [newRecs, List.getElem?_cons_succ] at h
        have := ih (id + 1) j c h
        refine ⟨by omega, this.2⟩

theorem WF.live {s : XnBufferPool} (h : s.WF) : ∀ p ∈ s.m_AllBuffers, ∃ b, s.deref p = some b :=
  fun p hp => Option.isSome_iff_exists.mp (h.2.1 p hp)

theorem Inv.inv_wf {s : XnBufferPool} (h : Inv s) : s.WF :=
  ⟨h.all_nodup, fun p hp => Option.isSome_iff_exists.mpr (h.all_live p hp), h.freed_lt⟩

/-- The state after `ChangeBufferSize` on a well-formed state, field by field.  `L` is the number
of records allocated before the call and `recs` are the records the hook
registers. -/
theorem ChangeBufferSize_spec (s : XnBufferPool) (n : Nat) (hook : Nat → AllocRun)
    (hwf : s.WF) :
    ∃ t, s.ChangeBufferSize n hook = some ((hook n).status, t) ∧
      t.m_AllBuffers = s.m_AllBuffers.filter (keeps false s) ++
        List.range' s.heap.length (newRecs s.m_nNextBufferID (hook n).calls).length ∧
      t.m_FreeBuffers =
        List.range' s.heap.length (newRecs s.m_nNextBufferID (hook n).calls).length ∧
      t.m_nBufferSize = n ∧
      t.m_nNextBufferID =
        s.m_nNextBufferID + (newRecs s.m_nNextBufferID (hook n).calls).length ∧
      t.m_hLock = s.m_hLock ∧
      t.freed = s.freed ++ s.m_AllBuffers.filter (fun p => !keeps false s p) ∧
      t.destroyed = s.destroyed ++
        (s.m_AllBuffers.filter (fun p => !keeps false s p)).map (rawData s) ∧
      t.heap.length =
        s.heap.length + (newRecs s.m_nNextBufferID (hook n).calls).length ∧
      (∀ q, q < s.heap.length → t.deref q =
        if q ∈ s.m_AllBuffers then
          (if keeps false s q = true then (s.deref q).map marked else none)
        else s.deref q) ∧
      (∀ i, t.deref (s.heap.length + i) =
        (newRecs s.m_nNextBufferID (hook n).calls)[i]?) := by
  obtain ⟨s3, h3, hall, hfree, hsz, hnx, hl, hfr, hds, hlen, hder⟩ :=
    FreeAll_spec false ({ s.xnOSEnterCriticalSection with m_nBufferSize := n } : XnBufferPool)
      hwf.live hwf.1
  obtain ⟨-, a1, a2, a3, a4, a5, a6, a7, a8⟩ := AllocateBuffers_spec s3 (hook n)
  have hk : ∀ q, keeps false ({ s.xnOSEnterCriticalSection with m_nBufferSize := n } :
      XnBufferPool) q = keeps false s q := fun q => rfl
  have hrw : ∀ q, rawData ({ s.xnOSEnterCriticalSection with m_nBufferSize := n } :
      XnBufferPool) q = rawData s q := fun q => rfl
  have hlen3 : s3.heap.length = s.heap.length := hlen
  have hnx3 : s3.m_nNextBufferID = s.m_nNextBufferID := hnx
  refine ⟨(s3.AllocateBuffers (hook n)).2.xnOSLeaveCriticalSection, ?_, ?_, ?_, ?_, ?_, ?_,
    ?_, ?_, ?_, ?_, ?_⟩
  · unfold ChangeBufferSize
    simp only [h3]
    split <;> simp_all [AllocateBuffers]
  · show (s3.AllocateBuffers (hook n)).2.m_AllBuffers = _
    rw [a2, hall, hlen3, hnx3]; rfl
  · show (s3.AllocateBuffers (hook n)).2.m_FreeBuffers = _
    rw [a3, hfree, hlen3, hnx3]; rfl
  · show (s3.AllocateBuffers (hook n)).2.m_nBufferSize = _
    rw [a8, hsz]
  · show (s3.AllocateBuffers (hook n)).2.m_nNextBufferID = _
    rw [a4, hnx3]
  · show ((s3.AllocateBuffers (hook n)).2.m_hLock).map (· - 1) = _
    rw [a7, hl]
    show (s.m_hLock.map (· + 1)).map (· - 1) = _
    cases s.m_hLock <;> simp
  · show (s3.AllocateBuffers (hook n)).2.freed = _
    rw [a5, hfr]; rfl
  · show (s3.AllocateBuffers (hook n)).2.destroyed = _
    rw [a6, hds]; rfl
  · show (s3.AllocateBuffers (hook n)).2.heap.length = _
    rw [a1, List.length_append, hlen3, hnx3]
  · intro q hq
    have : (s3.AllocateBuffers (hook n)).2.xnOSLeaveCriticalSection.deref q = s3.deref q := by
      show (if q ∈ (s3.AllocateBuffers (hook n)).2.freed then none
        else (s3.AllocateBuffers (hook n)).2.heap[q]?) = _
      rw [a5, a1, List.getElem?_append_left (by omega)]
      rfl
    rw [this, hder q]
    rfl
  · intro i
    show (if s.heap.length + i ∈ (s3.AllocateBuffers (hook n)).2.freed then none
        else (s3.AllocateBuffers (hook n)).2.heap[s.heap.length + i]?) = _
    have hnf : s.heap.length + i ∉ s3.freed := by
      rw [hfr]
      intro hm
      rcases List.mem_append.mp hm with h | h
      · have h1 : s.heap.length + i < s.heap.length := hwf.2.2 _ h
        omega
      · obtain ⟨b, hb⟩ := hwf.live _ (List.mem_filter.mp h).1
        have h1 : s.heap.length + i < s.heap.length := deref_lt hb
        omega
    rw [a5, if_neg hnf, a1, hnx3, List.getElem?_append_right (by omega)]
    congr 1
    omega

/-! ## Resize -/

theorem keeps_false_eq_leased {s : XnBufferPool} {p : Ptr}
    (hnn : ∀ b, s.deref p = some b → 0 ≤ b.m_nRefCount) :
    keeps false s p = s.leased (some p) := by
  cases hb : s.deref p with
  | none => simp [keeps, leased, hb]
  | some b =>
    have h0 := hnn b hb
    by_cases hz : b.m_nRefCount = 0
    · simp [keeps, leased, hb, hz]
    · have hpos : 0 < b.m_nRefCount := by omega
      simp [keeps, leased, hb, hz, hpos]

/-- C10: a resize whose allocation hook reports success.  On a well-formed state
with no negative count, `ChangeBufferSize n` returns OK with `m_nBufferSize = n`.
The free list is exactly the addresses of the records registered by the hook
during the call, in registration order; each of these records has count 0, is
not marked and has an id at or above the id counter before the call.
`m_AllBuffers` is the old list restricted to the buffers with a positive count,
in the old order and each now marked with id and count unchanged, followed by
the new buffers.  No address allocated before the call is on the free list. -/
theorem C10_resize_success (s : XnBufferPool) (n : Nat) (hook : Nat → AllocRun)
    (hwf : s.WF) (hnn : ∀ p ∈ s.m_AllBuffers, ∀ b, s.deref p = some b → 0 ≤ b.m_nRefCount)
    (hok : (hook n).status = XnStatus.XN_STATUS_OK) :
    ∃ t, s.ChangeBufferSize n hook = some (XnStatus.XN_STATUS_OK, t) ∧
      t.m_nBufferSize = n ∧
      t.m_FreeBuffers =
        List.range' s.heap.length (newRecs s.m_nNextBufferID (hook n).calls).length ∧
      (∀ i, i < (newRecs s.m_nNextBufferID (hook n).calls).length →
        ∃ c, t.deref (s.heap.length + i) = some c ∧
          (newRecs s.m_nNextBufferID (hook n).calls)[i]? = some c ∧
          c.m_nRefCount = 0 ∧ c.m_bDestroy = false ∧
          c.m_nID = s.m_nNextBufferID + i ∧ s.m_nNextBufferID ≤ c.m_nID) ∧
      t.m_AllBuffers = s.m_AllBuffers.filter (fun p => s.leased (some p)) ++
        List.range' s.heap.length (newRecs s.m_nNextBufferID (hook n).calls).length ∧
      (∀ p ∈ s.m_AllBuffers.filter (fun p => s.leased (some p)),
        ∃ b, s.deref p = some b ∧ 0 < b.m_nRefCount ∧ t.deref p = some (marked b)) ∧
      (∀ p, p < s.heap.length → p ∉ t.m_FreeBuffers) := by
  obtain ⟨t, hr, hall, hfree, hsz, -, -, -, -, -, hold, hnew⟩ :=
    ChangeBufferSize_spec s n hook hwf
  have hfilter : s.m_AllBuffers.filter (keeps false s) =
      s.m_AllBuffers.filter (fun p => s.leased (some p)) :=
    List.filter_congr (fun p hp => keeps_false_eq_leased (hnn p hp))
  refine ⟨t, by rw [hr, hok], hsz, hfree, ?_, by rw [hall, hfilter], ?_, ?_⟩
  · intro i hi
    have hget : (newRecs s.m_nNextBufferID (hook n).calls)[i]? =
        some ((newRecs s.m_nNextBufferID (hook n).calls)[i]) := List.getElem?_eq_getElem hi
    obtain ⟨h1, h2, h3⟩ := newRecs_spec _ _ _ _ hget
    exact ⟨_, (hnew i).trans hget, hget, h2, h3, h1, by omega⟩
  · intro p hp
    obtain ⟨hpa, hl⟩ := List.mem_filter.mp hp
    obtain ⟨q, b, hq, hb, hpos⟩ := leased_iff.mp hl
    cases hq
    have hk : keeps false s p = true := by
      rw [keeps_false_eq_leased (hnn p hpa)]; exact hl
    refine ⟨b, hb, hpos, ?_⟩
    rw [hold p (deref_lt hb)]
    simp [hpa, hk, hb]
  · intro p hp hm
    rw [hfree] at hm
    have := (List.mem_range'_1.mp hm).1
    omega

theorem exOne_nonneg :
    ∀ p ∈ exOne.m_AllBuffers, ∀ b, exOne.deref p = some b → 0 ≤ b.m_nRefCount := by
  intro p hp b hb
  have hp' : p = 0 ∨ p = 1 := by simpa [exOne] using hp
  rcases hp' with rfl | rfl
  · have h : exOne.deref 0 = some (exRec 0 1 false) := rfl
    rw [h] at hb; cases hb; decide
  · have h : exOne.deref 1 = some (exRec 1 0 false) := rfl
    rw [h] at hb; cases hb; decide

theorem C10_resize_success_witness :
    exOne.WF ∧
    (∀ p ∈ exOne.m_AllBuffers, ∀ b, exOne.deref p = some b → 0 ≤ b.m_nRefCount) ∧
    (exHook 2048).status = XnStatus.XN_STATUS_OK ∧
    ∃ t, exOne.ChangeBufferSize 2048 exHook = some (XnStatus.XN_STATUS_OK, t) ∧
      t.m_nBufferSize = 2048 ∧
      t.m_FreeBuffers =
        List.range' exOne.heap.length
          (newRecs exOne.m_nNextBufferID (exHook 2048).calls).length ∧
      (∀ i, i < (newRecs exOne.m_nNextBufferID (exHook 2048).calls).length →
        ∃ c, t.deref (exOne.heap.length + i) = some c ∧
          (newRecs exOne.m_nNextBufferID (exHook 2048).calls)[i]? = some c ∧
          c.m_nRefCount = 0 ∧ c.m_bDestroy = false ∧
          c.m_nID = exOne.m_nNextBufferID + i ∧ exOne.m_nNextBufferID ≤ c.m_nID) ∧
      t.m_AllBuffers = exOne.m_AllBuffers.filter (fun p => exOne.leased (some p)) ++
        List.range' exOne.heap.length
          (newRecs exOne.m_nNextBufferID (exHook 2048).calls).length ∧
      (∀ p ∈ exOne.m_AllBuffers.filter (fun p => exOne.leased (some p)),
        ∃ b, exOne.deref p = some b ∧ 0 < b.m_nRefCount ∧ t.deref p = some (marked b)) ∧
      (∀ p, p < exOne.heap.length → p ∉ t.m_FreeBuffers) :=
  ⟨by decide, exOne_nonneg, rfl,
    C10_resize_success exOne 2048 exHook (by decide) exOne_nonneg rfl⟩

/-! ## What a successful call tells about the pointers it went through -/

theorem FreeAllLoop_none (f : Bool) (kept rest : List Ptr) (p : Ptr) (s : XnBufferPool)
    (hp : s.deref p = none) : FreeAllLoop f kept (p :: rest) s = none := by
  rw [FreeAllLoop]
  simp only [hp]

theorem FreeAllLoop_live (f : Bool) : ∀ (todo kept : List Ptr) (s t : XnBufferPool),
    FreeAllLoop f kept todo s = some t → todo.Nodup →
    ∀ q ∈ todo, ∃ b, s.deref q = some b := by
  intro todo
  induction todo with
  | nil => intro _ _ _ _ _ q hq; cases hq
  | cons p rest ih =>
    intro kept s t ht hnd q hq
    have hprest : p ∉ rest := (List.nodup_cons.mp hnd).1
    have hndr : rest.Nodup := (List.nodup_cons.mp hnd).2
    cases hd : s.deref p with
    | none => rw [FreeAllLoop_none f kept rest p s hd] at ht; cases ht
    | some b =>
      rcases List.mem_cons.mp hq with rfl | hqr
      · exact ⟨b, hd⟩
      · have hqp : q ≠ p := fun h => hprest (h ▸ hqr)
        cases hk : (f || b.m_nRefCount == 0)
        · rw [FreeAllLoop_cons_mark f kept rest p s b hd hk] at ht
          obtain ⟨c, hc⟩ := ih _ _ t ht hndr q hqr
          have hu := deref_upd (s := s)
            (t := { s with heap := s.heap.set p (marked b) }) (marked b) rfl rfl hd q
          rw [hu] at hc
          simp only [hqp, if_false] at hc
          exact ⟨c, hc⟩
        · rw [FreeAllLoop_cons_remove f kept rest p s b hd hk] at ht
          obtain ⟨c, hc⟩ := ih _ _ t ht hndr q hqr
          refine ⟨c, ?_⟩
          unfold deref at hc ⊢
          simp only [List.mem_append, List.mem_singleton, hqp, or_false] at hc
          exact hc

theorem FreeAll_live (f : Bool) (s t : XnBufferPool) (ht : s.FreeAll f = some t)
    (hnd : s.m_AllBuffers.Nodup) : ∀ q ∈ s.m_AllBuffers, ∃ b, s.deref q = some b := by
  unfold FreeAll at ht
  cases h : FreeAllLoop f [] s.m_AllBuffers s with
  | none => rw [h] at ht; cases ht
  | some t' => exact FreeAllLoop_live f _ _ s t' h hnd

theorem ChangeBufferSize_live (s : XnBufferPool) (n : Nat) (hook : Nat → AllocRun)
    (r : XnStatus × XnBufferPool) (hr : s.ChangeBufferSize n hook = some r)
    (hnd : s.m_AllBuffers.Nodup) : ∀ q ∈ s.m_AllBuffers, ∃ b, s.deref q = some b := by
  unfold ChangeBufferSize at hr
  cases h : ({ s.xnOSEnterCriticalSection with m_nBufferSize := n } : XnBufferPool).FreeAll
      false with
  | none => simp [h] at hr
  | some s3 =>
    exact FreeAll_live false
      ({ s.xnOSEnterCriticalSection with m_nBufferSize := n } : XnBufferPool) s3 h hnd

theorem AddRef_live {s t : XnBufferPool} {q : Ptr} (h : s.AddRef (some q) = some t) :
    ∃ b, s.deref q = some b := by
  cases hd : s.deref q with
  | some b => exact ⟨b, rfl⟩
  | none =>
    have hd' : s.xnOSEnterCriticalSection.deref q = none := hd
    simp [AddRef, hd'] at h

theorem DecRef_live {s t : XnBufferPool} {q : Ptr} (h : s.DecRef (some q) = some t) :
    ∃ b, s.deref q = some b := by
  cases hd : s.deref q with
  | some b => exact ⟨b, rfl⟩
  | none =>
    have hd' : s.xnOSEnterCriticalSection.deref q = none := hd
    simp [DecRef, hd'] at h

theorem CopyRef_live {s : XnBufferPool} {dst : Option Ptr} {q : Ptr}
    {r : Option Ptr × XnBufferPool} (h : s.CopyRef dst (some q) = some r) :
    ∃ b, s.deref q = some b := by
  cases hd : s.deref q with
  | some b => exact ⟨b, rfl⟩
  | none =>
    have hd' : s.xnOSEnterCriticalSection.deref q = none := hd
    simp [CopyRef, hd'] at h

theorem GetBuffer_live {s : XnBufferPool} {q : Ptr} {rest : List Ptr}
    {r : XnStatus × Option Ptr × XnBufferPool}
    (hfr : s.m_FreeBuffers = q :: rest) (h : s.GetBuffer = some r) :
    ∃ b, s.deref q = some b := by
  cases hd : s.deref q with
  | some b => exact ⟨b, rfl⟩
  | none =>
    have hfr' : s.xnOSEnterCriticalSection.m_FreeBuffers = q :: rest := hfr
    have hd' : ({ s.xnOSEnterCriticalSection with m_FreeBuffers := rest } : XnBufferPool).deref q
        = none := hd
    unfold GetBuffer at h
    simp only [hfr'] at h
    simp [hd'] at h

/-! ## A buffer marked for destruction, through arbitrary calls -/

theorem Pending.pend_of_fields {p : Ptr} {d : Nat} {s t : XnBufferPool} (hs : Pending p d s)
    (hall : t.m_AllBuffers = s.m_AllBuffers) (hfree : t.m_FreeBuffers = s.m_FreeBuffers)
    (hh : t.heap = s.heap) (hf : t.freed = s.freed) : Pending p d t := by
  refine ⟨?_, ?_, ?_, ?_, ?_, ?_⟩
  · rw [hall]; exact hs.all_nodup
  · intro q hq; rw [hh]; exact hs.all_lt q (hall ▸ hq)
  · intro q hq; rw [hh]; exact hs.freed_lt q (hf ▸ hq)
  · rw [hh]; exact hs.lt
  · rw [hfree]; exact hs.not_free
  · intro c hc; rw [deref_same hh hf p] at hc; exact hs.marked_rec c hc

theorem Pending.pend_update {p : Ptr} {d : Nat} {s t : XnBufferPool} (hs : Pending p d s)
    {q : Ptr} {b c : XnBufferInPool} (hq : s.deref q = some b)
    (hcd : c.m_bDestroy = b.m_bDestroy) (hcp : c.m_pData = b.m_pData)
    (hh : t.heap = s.heap.set q c) (hf : t.freed = s.freed)
    (hnd : t.m_AllBuffers.Nodup) (hsub : ∀ x ∈ t.m_AllBuffers, x ∈ s.m_AllBuffers)
    (hfree : ∀ x ∈ t.m_FreeBuffers, x ∈ s.m_FreeBuffers ∨ (x = q ∧ b.m_bDestroy = false)) :
    Pending p d t := by
  have hlen : t.heap.length = s.heap.length := by rw [hh, List.length_set]
  refine ⟨hnd, ?_, ?_, ?_, ?_, ?_⟩
  · intro x hx; rw [hlen]; exact hs.all_lt x (hsub x hx)
  · intro x hx; rw [hlen]; exact hs.freed_lt x (hf ▸ hx)
  · rw [hlen]; exact hs.lt
  · intro hp
    rcases hfree p hp with h | ⟨h1, h2⟩
    · exact hs.not_free h
    · subst h1
      have := (hs.marked_rec b hq).1
      rw [h2] at this; cases this
  · intro c' hc'
    rw [deref_upd c hh hf hq p] at hc'
    by_cases hpq : p = q
    · subst hpq
      simp only [if_true, Option.some.injEq] at hc'
      subst hc'
      have := hs.marked_rec b hq
      exact ⟨hcd ▸ this.1, hcp ▸ this.2⟩
    · simp only [hpq, if_false] at hc'
      exact hs.marked_rec c' hc'

theorem Pending.pend_add_new {p : Ptr} {d : Nat} {s t : XnBufferPool} (hs : Pending p d s)
    (c : XnBufferInPool)
    (hh : t.heap = s.heap ++ [c]) (hf : t.freed = s.freed)
    (hall : t.m_AllBuffers = s.m_AllBuffers ++ [s.heap.length])
    (hfree : t.m_FreeBuffers = s.m_FreeBuffers ++ [s.heap.length]) :
    Pending p d t := by
  have hlen : t.heap.length = s.heap.length + 1 := by rw [hh]; simp
  have hne : p ≠ s.heap.length := Nat.ne_of_lt hs.lt
  refine ⟨?_, ?_, ?_, ?_, ?_, ?_⟩
  · rw [hall]
    refine List.Nodup.append hs.all_nodup (List.nodup_singleton _) ?_
    intro a ha hap
    simp at hap
    have := hs.all_lt a ha
    rw [hap] at this
    exact Nat.lt_irrefl _ this
  · intro x hx
    rw [hall] at hx; rw [hlen]
    rcases List.mem_append.mp hx with h | h
    · exact Nat.lt_succ_of_lt (hs.all_lt x h)
    · simp at h; rw [h]; exact Nat.lt_succ_self _
  · intro x hx; rw [hlen]; exact Nat.lt_succ_of_lt (hs.freed_lt x (hf ▸ hx))
  · rw [hlen]; exact Nat.lt_succ_of_lt hs.lt
  · rw [hfree]
    intro hp
    rcases List.mem_append.mp hp with h | h
    · exact hs.not_free h
    · simp at h; exact hne h
  · intro c' hc'
    rw [deref_append c hs.freed_lt hh hf p] at hc'
    simp only [hne, if_false] at hc'
    exact hs.marked_rec c' hc'

theorem Pending.pend_addNewBuffer {p : Ptr} {d : Nat} {s : XnBufferPool} (hs : Pending p d s)
    (recOk : Bool) (pBuffer nSize : Nat) :
    Pending p d (s.AddNewBuffer recOk pBuffer nSize).2 := by
  cases recOk
  · rw [AddNewBuffer_false]; exact hs
  · rw [AddNewBuffer_true]
    exact hs.pend_add_new (XnBufferInPool.mk s.m_nNextBufferID 0 false pBuffer nSize)
      rfl rfl rfl rfl

theorem Pending.pend_freeAll {p : Ptr} {d : Nat} {s t : XnBufferPool} (hs : Pending p d s)
    (f : Bool) (ht : s.FreeAll f = some t) : Pending p d t := by
  have hlive := FreeAll_live f s t ht hs.all_nodup
  obtain ⟨t', ht', hall, hfree, -, -, -, hfr, -, hlen, hder⟩ :=
    FreeAll_spec f s hlive hs.all_nodup
  rw [ht] at ht'
  cases ht'
  refine ⟨?_, ?_, ?_, ?_, ?_, ?_⟩
  · rw [hall]; exact hs.all_nodup.filter _
  · intro x hx
    rw [hall] at hx; rw [hlen]
    exact hs.all_lt x (List.mem_filter.mp hx).1
  · intro x hx
    rw [hfr] at hx; rw [hlen]
    rcases List.mem_append.mp hx with h | h
    · exact hs.freed_lt x h
    · exact hs.all_lt x (List.mem_filter.mp h).1
  · rw [hlen]; exact hs.lt
  · rw [hfree]; simp
  · intro c' hc'
    rw [hder p] at hc'
    by_cases hpa : p ∈ s.m_AllBuffers
    · by_cases hk : keeps f s p = true
      · obtain ⟨b, hb, -, -⟩ := keeps_true_iff.mp hk
        simp only [hpa, hk, hb, if_true, Option.map_some', Option.some.injEq] at hc'
        subst hc'
        exact ⟨rfl, (hs.marked_rec b hb).2⟩
      · simp [hpa, hk] at hc'
    · simp only [hpa, if_false] at hc'
      exact hs.marked_rec c' hc'

/-- The shape of the state after a resize of a well-formed state. -/
theorem ChangeBufferSize_shape (s : XnBufferPool) (n : Nat) (hook : Nat → AllocRun)
    (hwf : s.WF) (r : XnStatus × XnBufferPool) (hr : s.ChangeBufferSize n hook = some r) :
    r.2.m_AllBuffers.Nodup ∧ (∀ q ∈ r.2.m_AllBuffers, q < r.2.heap.length) ∧
    (∀ q ∈ r.2.freed, q < r.2.heap.length) ∧ s.heap.length ≤ r.2.heap.length ∧
    (∀ q, q < s.heap.length → q ∉ r.2.m_FreeBuffers) ∧
    (∀ q, q < s.heap.length → r.2.deref q =
      if q ∈ s.m_AllBuffers then
        (if keeps false s q = true then (s.deref q).map marked else none)
      else s.deref q) ∧
    r.2.m_AllBuffers = s.m_AllBuffers.filter (keeps false s) ++ r.2.m_FreeBuffers := by
  have hall_lt : ∀ q ∈ s.m_AllBuffers, q < s.heap.length := fun q hq => by
    obtain ⟨b, hb⟩ := hwf.live q hq
    exact deref_lt hb
  obtain ⟨t, ht, hall, hfree, -, -, -, hfr, -, hlen, hold, -⟩ :=
    ChangeBufferSize_spec s n hook hwf
  rw [hr] at ht
  cases ht
  refine ⟨?_, ?_, ?_, ?_, ?_, hold, ?_⟩
  · show t.m_AllBuffers.Nodup
    rw [hall]
    refine List.Nodup.append (hwf.1.filter _) (List.nodup_range' _ _) ?_
    intro a ha hb
    have h1 := hall_lt a (List.mem_filter.mp ha).1
    have h2 := (List.mem_range'_1.mp hb).1
    unfold Ptr at *
    omega
  · intro x hx
    have hx' : x ∈ t.m_AllBuffers := hx
    show x < t.heap.length
    rw [hall] at hx'; rw [hlen]
    rcases List.mem_append.mp hx' with h | h
    · have := hall_lt x (List.mem_filter.mp h).1
      unfold Ptr at *
      omega
    · have := (List.mem_range'_1.mp h).2
      unfold Ptr at *
      omega
  · intro x hx
    have hx' : x ∈ t.freed := hx
    show x < t.heap.length
    rw [hfr] at hx'; rw [hlen]
    rcases List.mem_append.mp hx' with h | h
    · have := hwf.2.2 x h
      unfold Ptr at *
      omega
    · have := hall_lt x (List.mem_filter.mp h).1
      unfold Ptr at *
      omega
  · show s.heap.length ≤ t.heap.length
    rw [hlen]
    omega
  · intro q hq
    show q ∉ t.m_FreeBuffers
    rw [hfree]
    intro hm
    have h1 := (List.mem_range'_1.mp hm).1
    unfold Ptr at *
    omega
  · show t.m_AllBuffers = _ ++ t.m_FreeBuffers
    rw [hall, hfree]

theorem Pending.pend_changeBufferSize {p : Ptr} {d : Nat} {s : XnBufferPool} (hs : Pending p d s)
    (n : Nat) (hook : Nat → AllocRun) (r : XnStatus × XnBufferPool)
    (hr : s.ChangeBufferSize n hook = some r) : Pending p d r.2 := by
  have hlive := ChangeBufferSize_live s n hook r hr hs.all_nodup
  have hwf : s.WF :=
    ⟨hs.all_nodup, fun q hq => Option.isSome_iff_exists.mpr (hlive q hq), hs.freed_lt⟩
  obtain ⟨h1, h2, h3, h4, h5, h6, -⟩ := ChangeBufferSize_shape s n hook hwf r hr
  refine ⟨h1, h2, h3, Nat.lt_of_lt_of_le hs.lt h4, h5 p hs.lt, ?_⟩
  intro c' hc'
  rw [h6 p hs.lt] at hc'
  by_cases hpa : p ∈ s.m_AllBuffers
  · by_cases hk : keeps false s p = true
    · obtain ⟨b, hb, -, -⟩ := keeps_true_iff.mp hk
      simp only [hpa, hk, hb, if_true, Option.map_some', Option.some.injEq] at hc'
      subst hc'
      exact ⟨rfl, (hs.marked_rec b hb).2⟩
    · simp [hpa, hk] at hc'
  · simp only [hpa, if_false] at hc'
    exact hs.marked_rec c' hc'

theorem Pending.pend_init {p : Ptr} {d : Nat} {s : XnBufferPool} (hs : Pending p d s)
    (cs : XnStatus) (n : Nat) (hook : Nat → AllocRun) (r : XnStatus × XnBufferPool)
    (hr : s.Init cs n hook = some r) : Pending p d r.2 := by
  unfold Init at hr
  split at hr
  · cases hr; exact hs
  · have h2 : Pending p d ({ s with m_hLock := some 0 } : XnBufferPool) :=
      hs.pend_of_fields rfl rfl rfl rfl
    cases h3 : ({ s with m_hLock := some 0 } : XnBufferPool).ChangeBufferSize n hook with
    | none => simp [h3] at hr
    | some r3 =>
      have hi := h2.pend_changeBufferSize n hook r3 h3
      obtain ⟨st, t⟩ := r3
      simp only [h3] at hr
      split at hr <;> (cases hr; exact hi)

theorem Pending.pend_getBuffer {p : Ptr} {d : Nat} {s : XnBufferPool} (hs : Pending p d s)
    (r : XnStatus × Option Ptr × XnBufferPool) (hr : s.GetBuffer = some r) :
    Pending p d r.2.2 := by
  cases hfr : s.m_FreeBuffers with
  | nil =>
    rw [GetBuffer_nil s hfr] at hr
    cases hr; exact hs
  | cons q rest =>
    obtain ⟨b, hb⟩ := GetBuffer_live hfr hr
    rw [GetBuffer_cons s q rest b hfr hb] at hr
    cases hr
    refine hs.pend_update (c := { b with m_nRefCount := 1 }) hb rfl rfl rfl rfl hs.all_nodup
      (fun x hx => hx) ?_
    intro x hx
    left
    rw [hfr]
    exact List.mem_cons_of_mem _ hx

theorem Pending.pend_addRef {p : Ptr} {d : Nat} {s t : XnBufferPool} (hs : Pending p d s)
    (h : Option Ptr) (ht : s.AddRef h = some t) : Pending p d t := by
  cases h with
  | none => simp only [AddRef] at ht; cases ht; exact hs
  | some q =>
    obtain ⟨b, hb⟩ := AddRef_live ht
    rw [AddRef_some s q b hb] at ht
    cases ht
    exact hs.pend_update (c := { b with m_nRefCount := b.m_nRefCount + 1 }) hb rfl rfl rfl rfl
      hs.all_nodup (fun x hx => hx) (fun x hx => Or.inl hx)

theorem Pending.pend_copyRef {p : Ptr} {d : Nat} {s : XnBufferPool} (hs : Pending p d s)
    (dst h : Option Ptr) (r : Option Ptr × XnBufferPool) (hr : s.CopyRef dst h = some r) :
    Pending p d r.2 := by
  cases h with
  | none =>
    simp only [CopyRef] at hr
    cases hr
    exact hs.pend_of_fields rfl rfl rfl rfl
  | some q =>
    obtain ⟨b, hb⟩ := CopyRef_live hr
    rw [CopyRef_some s dst q b hb] at hr
    cases hr
    exact hs.pend_update (c := { b with m_nRefCount := b.m_nRefCount + 1 }) hb rfl rfl rfl rfl
      hs.all_nodup (fun x hx => hx) (fun x hx => Or.inl hx)

theorem Pending.pend_decRef {p : Ptr} {d : Nat} {s t : XnBufferPool} (hs : Pending p d s)
    (h : Option Ptr) (ht : s.DecRef h = some t) : Pending p d t := by
  cases h with
  | none => simp only [DecRef] at ht; cases ht; exact hs
  | some q =>
    obtain ⟨b, hb⟩ := DecRef_live ht
    rw [DecRef_some s q b hb] at ht
    by_cases h0 : b.m_nRefCount - 1 = 0
    · by_cases hd : b.m_bDestroy = true
      · rw [if_pos h0, if_pos hd] at ht
        cases ht
        exact hs.pend_update (c := { b with m_nRefCount := b.m_nRefCount - 1 }) hb rfl rfl rfl rfl
          (hs.all_nodup.erase q) (fun x hx => List.mem_of_mem_erase hx) (fun x hx => Or.inl hx)
      · rw [if_pos h0, if_neg hd] at ht
        cases ht
        refine hs.pend_update (c := { b with m_nRefCount := b.m_nRefCount - 1 }) hb rfl rfl rfl rfl
          hs.all_nodup (fun x hx => hx) ?_
        intro x hx
        rcases List.mem_append.mp hx with h | h
        · exact Or.inl h
        · simp at h
          exact Or.inr ⟨h, by simpa using hd⟩
    · rw [if_neg h0] at ht
      cases ht
      exact hs.pend_update (c := { b with m_nRefCount := b.m_nRefCount - 1 }) hb rfl rfl rfl rfl
        hs.all_nodup (fun x hx => hx) (fun x hx => Or.inl hx)

theorem Pending.pend_free {p : Ptr} {d : Nat} {s : XnBufferPool} (hs : Pending p d s) :
    Pending p d s.Free := by
  unfold Free
  split
  · exact hs.pend_of_fields rfl rfl rfl rfl
  · exact hs

theorem Pending.pend_step {p : Ptr} {d : Nat} {s t : XnBufferPool} (hs : Pending p d s)
    (op : Op) (ht : s.step op = some t) : Pending p d t := by
  cases op with
  | init cs n hook =>
    simp only [XnBufferPool.step, Option.map_eq_some'] at ht
    obtain ⟨r, hr, rfl⟩ := ht
    exact hs.pend_init cs n hook r hr
  | free =>
    simp only [XnBufferPool.step, Option.some.injEq] at ht
    subst ht; exact hs.pend_free
  | freeAll f => exact hs.pend_freeAll f ht
  | addNewBuffer ok pb n =>
    simp only [XnBufferPool.step, Option.some.injEq] at ht
    subst ht; exact hs.pend_addNewBuffer ok pb n
  | changeBufferSize n hook =>
    simp only [XnBufferPool.step, Option.map_eq_some'] at ht
    obtain ⟨r, hr, rfl⟩ := ht
    exact hs.pend_changeBufferSize n hook r hr
  | getBuffer =>
    simp only [XnBufferPool.step, Option.map_eq_some'] at ht
    obtain ⟨r, hr, rfl⟩ := ht
    exact hs.pend_getBuffer r hr
  | addRef h => exact hs.pend_addRef h ht
  | decRef h => exact hs.pend_decRef h ht
  | copyRef dst h =>
    simp only [XnBufferPool.step, Option.map_eq_some'] at ht
    obtain ⟨r, hr, rfl⟩ := ht
    exact hs.pend_copyRef dst h r hr

theorem Pending.pend_run {p : Ptr} {d : Nat} (ops : List Op) :
    ∀ {s t : XnBufferPool}, Pending p d s → s.run ops = some t → Pending p d t := by
  induction ops with
  | nil => intro s t hs ht; simp only [XnBufferPool.run, Option.some.injEq] at ht; subst ht; exact hs
  | cons op ops ih =>
    intro s t hs ht
    simp only [XnBufferPool.run] at ht
    cases h1 : s.step op with
    | none => rw [h1] at ht; cases ht
    | some s1 =>
      rw [h1] at ht
      exact ih (hs.pend_step op h1) ht

theorem GetBuffer_handle_mem {s : XnBufferPool} {r : XnStatus × Option Ptr × XnBufferPool}
    {q : Ptr} (hr : s.GetBuffer = some r) (hq : r.2.1 = some q) : q ∈ s.m_FreeBuffers := by
  cases hfr : s.m_FreeBuffers with
  | nil =>
    rw [GetBuffer_nil s hfr] at hr
    cases hr
    cases hq
  | cons x rest =>
    obtain ⟨b, hb⟩ := GetBuffer_live hfr hr
    rw [GetBuffer_cons s x rest b hfr hb] at hr
    cases hr
    cases hq
    exact List.mem_cons_self _ _

/-- C5: deferred destruction.  Let `p` be a member of `m_AllBuffers` of a
well-formed state whose record `b` has a positive count.  `ChangeBufferSize`
returns, and right after it `p` is still in `m_AllBuffers`, its record is `b`
with the destruction mark set (same id, same count) and `p` is not on the free
list.  After any further sequence of calls `p` is still not on the free list
and `GetBuffer` does not return it; and whenever the count of `p` is 1, `DecRef`
on `p` removes `p` from `m_AllBuffers`, hands its storage to the destruction
hook and leaves the free list as it is. -/
theorem C5_deferred_destruction (s : XnBufferPool) (n : Nat) (hook : Nat → AllocRun)
    (p : Ptr) (b : XnBufferInPool) (hwf : s.WF) (hp : p ∈ s.m_AllBuffers)
    (hb : s.deref p = some b) (hpos : 0 < b.m_nRefCount) :
    ∃ st s1, s.ChangeBufferSize n hook = some (st, s1) ∧
      p ∈ s1.m_AllBuffers ∧
      s1.deref p = some (marked b) ∧
      (marked b).m_nID = b.m_nID ∧ (marked b).m_nRefCount = b.m_nRefCount ∧
      (marked b).m_bDestroy = true ∧
      p ∉ s1.m_FreeBuffers ∧
      ∀ ops t, s1.run ops = some t →
        p ∉ t.m_FreeBuffers ∧
        (∀ r, t.GetBuffer = some r → r.2.1 ≠ some p) ∧
        (∀ c, t.deref p = some c → c.m_nRefCount = 1 →
          ∃ t', t.DecRef (some p) = some t' ∧
            t'.m_AllBuffers = t.m_AllBuffers.erase p ∧ p ∉ t'.m_AllBuffers ∧
            t'.m_FreeBuffers = t.m_FreeBuffers ∧ p ∉ t'.m_FreeBuffers ∧
            t'.destroyed = t.destroyed ++ [b.m_pData]) := by
  obtain ⟨s1, hr, -⟩ := ChangeBufferSize_spec s n hook hwf
  obtain ⟨h1, h2, h3, h4, h5, h6, h7⟩ := ChangeBufferSize_shape s n hook hwf _ hr
  have hlt : p < s.heap.length := deref_lt hb
  have hk : keeps false s p = true :=
    keeps_true_iff.mpr ⟨b, hb, rfl, by omega⟩
  have hd1 : s1.deref p = some (marked b) := by
    have := h6 p hlt
    simp only [hp, hk, hb, if_true, Option.map_some'] at this
    exact this
  have hpend : Pending p b.m_pData s1 :=
    ⟨h1, h2, h3, Nat.lt_of_lt_of_le hlt h4, h5 p hlt, fun c hc => by
      have hc' : s1.deref p = some c := hc
      rw [hd1] at hc'
      cases hc'
      exact ⟨rfl, rfl⟩⟩
  refine ⟨_, s1, hr, ?_, hd1, rfl, rfl, rfl, h5 p hlt, ?_⟩
  · have : s1.m_AllBuffers = s.m_AllBuffers.filter (keeps false s) ++ s1.m_FreeBuffers := h7
    rw [this]
    exact List.mem_append_left _ (List.mem_filter.mpr ⟨hp, hk⟩)
  · intro ops t ht
    have hpt : Pending p b.m_pData t := Pending.pend_run ops hpend ht
    refine ⟨hpt.not_free, ?_, ?_⟩
    · intro r hr' hq
      exact hpt.not_free (GetBuffer_handle_mem hr' hq)
    · intro c hc hc1
      obtain ⟨hcd, hcp⟩ := hpt.marked_rec c hc
      have hdec := DecRef_some t p c hc
      rw [if_pos (by rw [hc1]; rfl), if_pos hcd] at hdec
      refine ⟨_, hdec, rfl, ?_, rfl, hpt.not_free, by rw [hcp]⟩
      exact fun h => ((hpt.all_nodup.mem_erase_iff).mp h).1 rfl

theorem C5_deferred_destruction_witness :
    exOne.WF ∧ (0 : Ptr) ∈ exOne.m_AllBuffers ∧ exOne.deref 0 = some (exRec 0 1 false) ∧
    0 < (exRec 0 1 false).m_nRefCount ∧
    ∃ st s1, exOne.ChangeBufferSize 2048 exHook = some (st, s1) ∧
      0 ∈ s1.m_AllBuffers ∧
      s1.deref 0 = some (marked (exRec 0 1 false)) ∧
      (marked (exRec 0 1 false)).m_nID = (exRec 0 1 false).m_nID ∧
      (marked (exRec 0 1 false)).m_nRefCount = (exRec 0 1 false).m_nRefCount ∧
      (marked (exRec 0 1 false)).m_bDestroy = true ∧
      0 ∉ s1.m_FreeBuffers ∧
      ∀ ops t, s1.run ops = some t →
        0 ∉ t.m_FreeBuffers ∧
        (∀ r, t.GetBuffer = some r → r.2.1 ≠ some 0) ∧
        (∀ c, t.deref 0 = some c → c.m_nRefCount = 1 →
          ∃ t', t.DecRef (some 0) = some t' ∧
            t'.m_AllBuffers = t.m_AllBuffers.erase 0 ∧ 0 ∉ t'.m_AllBuffers ∧
            t'.m_FreeBuffers = t.m_FreeBuffers ∧ 0 ∉ t'.m_FreeBuffers ∧
            t'.destroyed = t.destroyed ++ [(exRec 0 1 false).m_pData]) :=
  ⟨by decide, by decide, rfl, by decide,
    C5_deferred_destruction exOne 2048 exHook 0 (exRec 0 1 false) (by decide) (by decide) rfl
      (by decide)⟩

/-! ## Buffer ids -/

theorem map_id_set {heap : List XnBufferInPool} {q : Nat} {b c : XnBufferInPool}
    (hq : heap[q]? = some b) (hc : c.m_nID = b.m_nID) :
    (heap.set q c).map (fun x => x.m_nID) = heap.map (fun x => x.m_nID) := by
  apply List.ext_getElem?
  intro i
  simp only [List.getElem?_map, List.getElem?_set]
  by_cases hi : q = i
  · subst hi
    have hl : q < heap.length := by
      rcases Nat.lt_or_ge q heap.length with h | h
      · exact h
      · rw [List.getElem?_eq_none h] at hq; cases hq
    simp [hl, hq, hc]
  · simp [hi]

theorem deref_heap {s : XnBufferPool} {q : Ptr} {b : XnBufferInPool}
    (h : s.deref q = some b) : s.heap[q]? = some b := by
  unfold deref at h
  by_cases hf : q ∈ s.freed
  · simp [hf] at h
  · simpa [hf] using h

theorem IdsOk.ids_of_same {s t : XnBufferPool} (hs : IdsOk s)
    (hh : t.heap.map (fun x => x.m_nID) = s.heap.map (fun x => x.m_nID))
    (hn : t.m_nNextBufferID = s.m_nNextBufferID) : IdsOk t := by
  unfold IdsOk at *
  rw [hh, hn]
  exact hs

theorem IdsOk.ids_update {s t : XnBufferPool} (hs : IdsOk s) {q : Ptr} {b c : XnBufferInPool}
    (hq : s.deref q = some b) (hc : c.m_nID = b.m_nID)
    (hh : t.heap = s.heap.set q c) (hn : t.m_nNextBufferID = s.m_nNextBufferID) : IdsOk t :=
  hs.ids_of_same (by rw [hh]; exact map_id_set (deref_heap hq) hc) hn

theorem IdsOk.ids_grow {s t : XnBufferPool} (hs : IdsOk s) (k : Nat)
    (hh : t.heap.map (fun x => x.m_nID) =
      s.heap.map (fun x => x.m_nID) ++ List.range' s.m_nNextBufferID k)
    (hn : t.m_nNextBufferID = s.m_nNextBufferID + k) : IdsOk t := by
  unfold IdsOk at *
  rw [hh, hn]
  constructor
  · rw [List.pairwise_append]
    refine ⟨hs.1, List.pairwise_lt_range' _ _, ?_⟩
    intro a ha b hb
    have h1 := hs.2 a ha
    have h2 := (List.mem_range'_1.mp hb).1
    omega
  · intro i hi
    rcases List.mem_append.mp hi with h | h
    · have := hs.2 i h
      omega
    · exact (List.mem_range'_1.mp h).2

theorem newRecs_ids : ∀ (calls : List (Bool × Nat × Nat)) (id : Nat),
    (newRecs id calls).map (fun x => x.m_nID) = List.range' id (newRecs id calls).length := by
  intro calls
  induction calls with
  | nil => intro id; simp [newRecs]
  | cons c cs ih =>
    intro id
    obtain ⟨ok, d, n⟩ := c
    cases ok with
    | false => simpa [newRecs] using ih id
    | true => simp [newRecs, List.range'_succ, ih (id + 1)]

theorem IdsOk.ids_addNewBuffer {s : XnBufferPool} (hs : IdsOk s) (recOk : Bool)
    (pBuffer nSize : Nat) : IdsOk (s.AddNewBuffer recOk pBuffer nSize).2 := by
  cases recOk
  · rw [AddNewBuffer_false]; exact hs
  · rw [AddNewBuffer_true]
    exact hs.ids_grow 1 (by simp) rfl

theorem IdsOk.ids_allocateBuffers {s : XnBufferPool} (hs : IdsOk s) (r : AllocRun) :
    IdsOk (s.AllocateBuffers r).2 := by
  obtain ⟨-, a1, -, -, a4, -⟩ := AllocateBuffers_spec s r
  exact hs.ids_grow _ (by rw [a1, List.map_append, newRecs_ids]) a4

theorem FreeAllLoop_ids (f : Bool) : ∀ (todo kept : List Ptr) (s t : XnBufferPool),
    FreeAllLoop f kept todo s = some t →
    t.heap.map (fun x => x.m_nID) = s.heap.map (fun x => x.m_nID) ∧
    t.m_nNextBufferID = s.m_nNextBufferID := by
  intro todo
  induction todo with
  | nil =>
    intro kept s t ht
    simp only [FreeAllLoop, Option.some.injEq] at ht
    subst ht
    exact ⟨rfl, rfl⟩
  | cons p rest ih =>
    intro kept s t ht
    cases hd : s.deref p with
    | none => rw [FreeAllLoop_none f kept rest p s hd] at ht; cases ht
    | some b =>
      cases hk : (f || b.m_nRefCount == 0)
      · rw [FreeAllLoop_cons_mark f kept rest p s b hd hk] at ht
        obtain ⟨h1, h2⟩ := ih _ _ t ht
        exact ⟨h1.trans (map_id_set (deref_heap hd) rfl), h2⟩
      · rw [FreeAllLoop_cons_remove f kept rest p s b hd hk] at ht
        obtain ⟨h1, h2⟩ := ih _ _ t ht
        exact ⟨h1, h2⟩

theorem IdsOk.ids_freeAll {s t : XnBufferPool} (hs : IdsOk s) (f : Bool)
    (ht : s.FreeAll f = some t) : IdsOk t := by
  unfold FreeAll at ht
  cases h : FreeAllLoop f [] s.m_AllBuffers s with
  | none => rw [h] at ht; cases ht
  | some t' =>
    rw [h] at ht
    simp only [Option.map_some', Option.some.injEq] at ht
    subst ht
    obtain ⟨h1, h2⟩ := FreeAllLoop_ids f _ _ s t' h
    exact hs.ids_of_same h1 h2

theorem IdsOk.ids_changeBufferSize {s : XnBufferPool} (hs : IdsOk s) (n : Nat)
    (hook : Nat → AllocRun) (r : XnStatus × XnBufferPool)
    (hr : s.ChangeBufferSize n hook = some r) : IdsOk r.2 := by
  unfold ChangeBufferSize at hr
  have h2 : IdsOk ({ s.xnOSEnterCriticalSection with m_nBufferSize := n } : XnBufferPool) :=
    hs.ids_of_same rfl rfl
  cases h3 : ({ s.xnOSEnterCriticalSection with m_nBufferSize := n } : XnBufferPool).FreeAll
      false with
  | none => simp [h3] at hr
  | some s3 =>
    have hi4 : IdsOk (s3.AllocateBuffers (hook n)).2.xnOSLeaveCriticalSection :=
      ((h2.ids_freeAll false h3).ids_allocateBuffers (hook n)).ids_of_same rfl rfl
    simp only [h3] at hr
    split at hr <;> (cases hr; exact hi4)

theorem IdsOk.ids_init {s : XnBufferPool} (hs : IdsOk s) (cs : XnStatus) (n : Nat)
    (hook : Nat → AllocRun) (r : XnStatus × XnBufferPool)
    (hr : s.Init cs n hook = some r) : IdsOk r.2 := by
  unfold Init at hr
  split at hr
  · cases hr; exact hs
  · have h2 : IdsOk ({ s with m_hLock := some 0 } : XnBufferPool) := hs.ids_of_same rfl rfl
    cases h3 : ({ s with m_hLock := some 0 } : XnBufferPool).ChangeBufferSize n hook with
    | none => simp [h3] at hr
    | some r3 =>
      have hi := h2.ids_changeBufferSize n hook r3 h3
      obtain ⟨st, t⟩ := r3
      simp only [h3] at hr
      split at hr <;> (cases hr; exact hi)

theorem IdsOk.ids_step {s t : XnBufferPool} (hs : IdsOk s) (op : Op)
    (ht : s.step op = some t) : IdsOk t := by
  cases op with
  | init cs n hook =>
    simp only [XnBufferPool.step, Option.map_eq_some'] at ht
    obtain ⟨r, hr, rfl⟩ := ht
    exact hs.ids_init cs n hook r hr
  | free =>
    simp only [XnBufferPool.step, Option.some.injEq] at ht
    subst ht
    unfold Free
    split
    · exact hs.ids_of_same rfl rfl
    · exact hs
  | freeAll f => exact hs.ids_freeAll f ht
  | addNewBuffer ok pb n =>
    simp only [XnBufferPool.step, Option.some.injEq] at ht
    subst ht; exact hs.ids_addNewBuffer ok pb n
  | changeBufferSize n hook =>
    simp only [XnBufferPool.step, Option.map_eq_some'] at ht
    obtain ⟨r, hr, rfl⟩ := ht
    exact hs.ids_changeBufferSize n hook r hr
  | getBuffer =>
    simp only [XnBufferPool.step, Option.map_eq_some'] at ht
    obtain ⟨r, hr, rfl⟩ := ht
    cases hfr : s.m_FreeBuffers with
    | nil =>
      rw [GetBuffer_nil s hfr] at hr
      cases hr; exact hs
    | cons q rest =>
      obtain ⟨b, hb⟩ := GetBuffer_live hfr hr
      rw [GetBuffer_cons s q rest b hfr hb] at hr
      cases hr
      exact hs.ids_update (c := { b with m_nRefCount := 1 }) hb rfl rfl rfl
  | addRef h =>
    cases h with
    | none => simp only [XnBufferPool.step, AddRef] at ht; cases ht; exact hs
    | some q =>
      obtain ⟨b, hb⟩ := AddRef_live ht
      have ht' : s.AddRef (some q) = some t := ht
      rw [AddRef_some s q b hb] at ht'
      cases ht'
      exact hs.ids_update (c := { b with m_nRefCount := b.m_nRefCount + 1 }) hb rfl rfl rfl
  | decRef h =>
    cases h with
    | none => simp only [XnBufferPool.step, DecRef] at ht; cases ht; exact hs
    | some q =>
      obtain ⟨b, hb⟩ := DecRef_live ht
      have ht' : s.DecRef (some q) = some t := ht
      rw [DecRef_some s q b hb] at ht'
      cases ht'
      split
      · split
        · exact hs.ids_update (c := { b with m_nRefCount := b.m_nRefCount - 1 }) hb rfl rfl rfl
        · exact hs.ids_update (c := { b with m_nRefCount := b.m_nRefCount - 1 }) hb rfl rfl rfl
      · exact hs.ids_update (c := { b with m_nRefCount := b.m_nRefCount - 1 }) hb rfl rfl rfl
  | copyRef dst h =>
    simp only [XnBufferPool.step, Option.map_eq_some'] at ht
    obtain ⟨r, hr, rfl⟩ := ht
    cases h with
    | none =>
      simp only [CopyRef] at hr
      cases hr
      exact hs.ids_of_same rfl rfl
    | some q =>
      obtain ⟨b, hb⟩ := CopyRef_live hr
      rw [CopyRef_some s dst q b hb] at hr
      cases hr
      exact hs.ids_update (c := { b with m_nRefCount := b.m_nRefCount + 1 }) hb rfl rfl rfl

theorem IdsOk.ids_run (ops : List Op) :
    ∀ {s t : XnBufferPool}, IdsOk s → s.run ops = some t → IdsOk t := by
  induction ops with
  | nil => intro s t hs ht; simp only [XnBufferPool.run, Option.some.injEq] at ht; subst ht; exact hs
  | cons op ops ih =>
    intro s t hs ht
    simp only [XnBufferPool.run] at ht
    cases h1 : s.step op with
    | none => rw [h1] at ht; cases ht
    | some s1 =>
      rw [h1] at ht
      exact ih (hs.ids_step op h1) ht

theorem IdsOk.ids_construct : IdsOk construct := by
  unfold IdsOk
  simp [XnBufferPool.construct]

/-- C6: after any sequence of calls on a freshly constructed pool, the ids of
all records ever created, listed in creation order (destroyed records
included), are strictly increasing, hence pairwise distinct, and all lie below
the id counter, which is the id the next buffer receives. -/
theorem C6_ids_increasing (ops : List Op) (t : XnBufferPool)
    (h : construct.run ops = some t) :
    (t.heap.map fun b => b.m_nID).Pairwise (fun a b => a < b) ∧
    (t.heap.map fun b => b.m_nID).Nodup ∧
    (∀ i ∈ t.heap.map (fun b => b.m_nID), i < t.m_nNextBufferID) ∧
    ∀ pBuffer nSize, ∀ c ∈ (t.AddNewBuffer true pBuffer nSize).2.heap.drop t.heap.length,
      c.m_nID = t.m_nNextBufferID := by
  have hi : IdsOk t := IdsOk.ids_run ops IdsOk.ids_construct h
  refine ⟨hi.1, ?_, hi.2, ?_⟩
  · exact hi.1.imp (fun hab => Nat.ne_of_lt hab)
  · intro pBuffer nSize c hc
    rw [AddNewBuffer_true] at hc
    simp at hc
    rw [hc]

theorem C6_ids_increasing_witness :
    ∃ t, construct.run exOps = some t ∧
      (t.heap.map fun b => b.m_nID).Pairwise (fun a b => a < b) ∧
      (t.heap.map fun b => b.m_nID).Nodup ∧
      (∀ i ∈ t.heap.map (fun b => b.m_nID), i < t.m_nNextBufferID) ∧
      ∀ pBuffer nSize, ∀ c ∈ (t.AddNewBuffer true pBuffer nSize).2.heap.drop t.heap.length,
        c.m_nID = t.m_nNextBufferID := by
  have hsome : (construct.run exOps).isSome = true := by decide
  obtain ⟨t, ht⟩ := Option.isSome_iff_exists.mp hsome
  exact ⟨t, ht, C6_ids_increasing exOps t ht⟩

/-! ## Shutdown -/

/-- C9 (as amended): `XnBufferPool::Free`, which is all the destructor runs,
releases the lock resource and nothing else: afterwards `m_hLock` is `NULL`,
and both lists, all records, the released addresses, the calls of the
destruction hook, the id counter and the buffer size are what they were. -/
theorem C9_Free_releases_lock_only (s : XnBufferPool) :
    s.destruct = s.Free ∧
    s.Free.m_hLock = none ∧
    s.Free.m_AllBuffers = s.m_AllBuffers ∧
    s.Free.m_FreeBuffers = s.m_FreeBuffers ∧
    s.Free.heap = s.heap ∧ s.Free.freed = s.freed ∧ s.Free.destroyed = s.destroyed ∧
    s.Free.m_nNextBufferID = s.m_nNextBufferID ∧ s.Free.m_nBufferSize = s.m_nBufferSize := by
  refine ⟨rfl, ?_⟩
  unfold Free
  cases h : s.m_hLock with
  | none => simp [h]
  | some k => simp

/-- C9 (as stated) fails: after `Free` on the pool with one buffer free and one
leased, `m_AllBuffers` and `m_FreeBuffers` are not empty, and nothing was
handed to the destruction hook. -/
theorem C9_counterexample :
    ¬ (exHalf.Free.m_AllBuffers = [] ∧ exHalf.Free.m_FreeBuffers = []) ∧
    exHalf.Free.m_AllBuffers = [0, 1] ∧ exHalf.Free.m_FreeBuffers = [0] ∧
    exHalf.Free.destroyed = [] ∧ exHalf.destruct = exHalf.Free := by
  decide

/-- Forced reclamation, `FreeAll(TRUE)`: on a well-formed state both lists end
up empty and every buffer of `m_AllBuffers` is handed to the destruction hook
and released, whatever its count. -/
theorem FreeAll_force (s : XnBufferPool) (hwf : s.WF) :
    ∃ t, s.FreeAll true = some t ∧ t.m_AllBuffers = [] ∧ t.m_FreeBuffers = [] ∧
      t.freed = s.freed ++ s.m_AllBuffers ∧
      t.destroyed = s.destroyed ++ s.m_AllBuffers.map (rawData s) := by
  obtain ⟨t, ht, hall, hfree, -, -, -, hfr, hds, -, -⟩ :=
    FreeAll_spec true s hwf.live hwf.1
  have hk : ∀ q, keeps true s q = false := by
    intro q
    unfold keeps
    cases s.deref q <;> simp
  have h1 : s.m_AllBuffers.filter (keeps true s) = [] := by
    simp [List.filter_eq_nil_iff, hk]
  have h2 : s.m_AllBuffers.filter (fun p => !keeps true s p) = s.m_AllBuffers := by
    simp [List.filter_eq_self, hk]
  exact ⟨t, ht, by rw [hall, h1], hfree, by rw [hfr, h2], by rw [hds, h2]⟩

end XnBufferPool

namespace XnBufferPool

/-! ## Registration of a buffer -/

theorem deref_append_ne {s t : XnBufferPool} (c : XnBufferInPool)
    (hh : t.heap = s.heap ++ [c]) (hf : t.freed = s.freed) (q : Ptr)
    (hq : q ≠ s.heap.length) : t.deref q = s.deref q := by
  unfold deref
  rw [hh, hf]
  by_cases hqf : q ∈ s.freed
  · simp [hqf]
  · simp only [hqf, if_false]
    rw [List.getElem?_append]
    by_cases hlt : q < s.heap.length
    · simp [hlt]
    · have h1 : s.heap.length ≤ q := Nat.le_of_not_lt hlt
      have h2 : 1 ≤ q - s.heap.length :=
        Nat.sub_pos_of_lt (Nat.lt_of_le_of_ne h1 (Ne.symm hq))
      simp only [hlt, if_false]
      rw [List.getElem?_eq_none h1, List.getElem?_eq_none]
      simpa using h2

/-- C12: `AddNewBuffer(pBuffer, nSize)` with the record allocation succeeding
returns OK on every state.  It creates one record at the next address, with id
equal to the id counter before the call, count 0, no destruction mark and the
given storage pointer and size, and appends its address to the tail of both
`m_AllBuffers` and `m_FreeBuffers`.  The id counter grows by exactly one; the
buffer size, the lock, every record that existed before and the order of the
old members of both lists are unchanged. -/
theorem C12_AddNewBuffer_appends (s : XnBufferPool) (pBuffer nSize : Nat) :
    ∃ t, s.AddNewBuffer true pBuffer nSize = (XnStatus.XN_STATUS_OK, t) ∧
      t.m_AllBuffers = s.m_AllBuffers ++ [s.heap.length] ∧
      t.m_FreeBuffers = s.m_FreeBuffers ++ [s.heap.length] ∧
      t.heap = s.heap ++ [XnBufferInPool.mk s.m_nNextBufferID 0 false pBuffer nSize] ∧
      t.heap[s.heap.length]? =
        some (XnBufferInPool.mk s.m_nNextBufferID 0 false pBuffer nSize) ∧
      (s.heap.length ∉ s.freed → t.deref s.heap.length =
        some (XnBufferInPool.mk s.m_nNextBufferID 0 false pBuffer nSize)) ∧
      t.m_nNextBufferID = s.m_nNextBufferID + 1 ∧
      t.m_nBufferSize = s.m_nBufferSize ∧ t.m_hLock = s.m_hLock ∧
      t.freed = s.freed ∧ t.destroyed = s.destroyed ∧
      ∀ q, q ≠ s.heap.length → t.deref q = s.deref q := by
  refine ⟨_, AddNewBuffer_true s pBuffer nSize, rfl, rfl, rfl, ?_, ?_, rfl, rfl, rfl, rfl, rfl,
    ?_⟩
  · simp
  · intro hnf
    unfold deref
    simp [hnf]
  · intro q hq
    refine deref_append_ne (s := s)
      (XnBufferInPool.mk s.m_nNextBufferID 0 false pBuffer nSize) ?_ ?_ q hq <;> rfl

theorem C12_AddNewBuffer_appends_witness :
    ∃ t, exOne.AddNewBuffer true 65536 1024 = (XnStatus.XN_STATUS_OK, t) ∧
      t.m_AllBuffers = exOne.m_AllBuffers ++ [exOne.heap.length] ∧
      t.m_FreeBuffers = exOne.m_FreeBuffers ++ [exOne.heap.length] ∧
      t.heap = exOne.heap ++ [XnBufferInPool.mk exOne.m_nNextBufferID 0 false 65536 1024] ∧
      t.heap[exOne.heap.length]? =
        some (XnBufferInPool.mk exOne.m_nNextBufferID 0 false 65536 1024) ∧
      (exOne.heap.length ∉ exOne.freed → t.deref exOne.heap.length =
        some (XnBufferInPool.mk exOne.m_nNextBufferID 0 false 65536 1024)) ∧
      t.m_nNextBufferID = exOne.m_nNextBufferID + 1 ∧
      t.m_nBufferSize = exOne.m_nBufferSize ∧ t.m_hLock = exOne.m_hLock ∧
      t.freed = exOne.freed ∧ t.destroyed = exOne.destroyed ∧
      ∀ q, q ≠ exOne.heap.length → t.deref q = exOne.deref q :=
  C12_AddNewBuffer_appends exOne 65536 1024

/-! ## Copy of a reference -/

theorem CopyRef_eq_AddRef (s : XnBufferPool) (dst : Option Ptr) (p : Ptr) :
    s.CopyRef dst (some p) = (s.AddRef (some p)).map fun t => (some p, t) := by
  cases hd : s.deref p with
  | some b =>
    rw [CopyRef_some s dst p b hd, AddRef_some s p b hd]
    rfl
  | none =>
    have hd' : s.xnOSEnterCriticalSection.deref p = none := hd
    simp [CopyRef, AddRef, hd']

/-- C18: `CopyRef` with a non-null source is `AddRef` plus aliasing.  On every
state `CopyRef(dst, src)` gives the state that `AddRef(src)` gives and sets the
destination handle to the source pointer.  When the source refers to a live
record `b`, both succeed, the record becomes `b` with its count incremented by
one (same id, same mark), and both lists, the id counter, the buffer size, the
lock and every other record are unchanged. -/
theorem C18_CopyRef_is_AddRef (s : XnBufferPool) (dst : Option Ptr) (p : Ptr)
    (b : XnBufferInPool) (hp : s.deref p = some b) :
    s.CopyRef dst (some p) = (s.AddRef (some p)).map (fun t => (some p, t)) ∧
    ∃ t, s.AddRef (some p) = some t ∧ s.CopyRef dst (some p) = some (some p, t) ∧
      t.deref p = some { b with m_nRefCount := b.m_nRefCount + 1 } ∧
      t.m_AllBuffers = s.m_AllBuffers ∧ t.m_FreeBuffers = s.m_FreeBuffers ∧
      t.m_nNextBufferID = s.m_nNextBufferID ∧ t.m_nBufferSize = s.m_nBufferSize ∧
      t.m_hLock = s.m_hLock ∧ t.freed = s.freed ∧ t.destroyed = s.destroyed ∧
      ∀ q, q ≠ p → t.deref q = s.deref q := by
  refine ⟨CopyRef_eq_AddRef s dst p, _, AddRef_some s p b hp, CopyRef_some s dst p b hp,
    ?_, rfl, rfl, rfl, rfl, rfl, rfl, rfl, ?_⟩
  · exact deref_set_self _ hp
  · intro q hq
    exact deref_set_other _ hq

theorem C18_CopyRef_is_AddRef_witness :
    exOne.deref 0 = some (exRec 0 1 false) ∧
    exOne.CopyRef none (some 0) = (exOne.AddRef (some 0)).map (fun t => (some 0, t)) ∧
    ∃ t, exOne.AddRef (some 0) = some t ∧ exOne.CopyRef none (some 0) = some (some 0, t) ∧
      t.deref 0 = some { exRec 0 1 false with m_nRefCount := (exRec 0 1 false).m_nRefCount + 1 } ∧
      t.m_AllBuffers = exOne.m_AllBuffers ∧ t.m_FreeBuffers = exOne.m_FreeBuffers ∧
      t.m_nNextBufferID = exOne.m_nNextBufferID ∧ t.m_nBufferSize = exOne.m_nBufferSize ∧
      t.m_hLock = exOne.m_hLock ∧ t.freed = exOne.freed ∧ t.destroyed = exOne.destroyed ∧
      ∀ q, q ≠ 0 → t.deref q = exOne.deref q :=
  ⟨rfl, C18_CopyRef_is_AddRef exOne none 0 (exRec 0 1 false) rfl⟩

end XnBufferPool

namespace XnBufferPool

/-! ## The critical section -/

theorem FreeAllLoop_lock (f : Bool) : ∀ (todo kept : List Ptr) (s t : XnBufferPool),
    FreeAllLoop f kept todo s = some t → t.m_hLock = s.m_hLock := by
  intro todo
  induction todo with
  | nil =>
    intro kept s t ht
    simp only [FreeAllLoop, Option.some.injEq] at ht
    subst ht
    rfl
  | cons p rest ih =>
    intro kept s t ht
    cases hd : s.deref p with
    | none => rw [FreeAllLoop_none f kept rest p s hd] at ht; cases ht
    | some b =>
      cases hk : (f || b.m_nRefCount == 0)
      · rw [FreeAllLoop_cons_mark f kept rest p s b hd hk] at ht
        have h := ih _ _ t ht
        exact h
      · rw [FreeAllLoop_cons_remove f kept rest p s b hd hk] at ht
        have h := ih _ _ t ht
        exact h

theorem FreeAll_lock {f : Bool} {s t : XnBufferPool} (ht : s.FreeAll f = some t) :
    t.m_hLock = s.m_hLock := by
  unfold FreeAll at ht
  cases h : FreeAllLoop f [] s.m_AllBuffers s with
  | none => rw [h] at ht; cases ht
  | some t' =>
    rw [h] at ht
    simp only [Option.map_some', Option.some.injEq] at ht
    subst ht
    exact FreeAllLoop_lock f _ _ s t' h

theorem map_pred_map_succ (l : Option Nat) : (l.map (· + 1)).map (· - 1) = l := by
  cases l <;> simp

/-- The calls that enter the critical section leave it again on every path but
one: `AddNewBuffer`, `ChangeBufferSize`, `GetBuffer`, `AddRef`, `DecRef`, and
`CopyRef` with a non-null source return with the lock as they found it, on
success and on failure. -/
theorem lock_balanced (s t : XnBufferPool) (op : Op) (ht : s.step op = some t)
    (hop : match op with
      | Op.init _ _ _ => False
      | Op.free => False
      | Op.copyRef _ none => False
      | _ => True) :
    t.m_hLock = s.m_hLock := by
  cases op with
  | init cs n hook => exact absurd hop id
  | free => exact absurd hop id
  | freeAll f => exact FreeAll_lock ht
  | addNewBuffer ok pb n =>
    simp only [step, Option.some.injEq] at ht
    subst ht
    cases ok
    · rw [AddNewBuffer_false]
    · rw [AddNewBuffer_true]
  | changeBufferSize n hook =>
    simp only [step, Option.map_eq_some'] at ht
    obtain ⟨r, hr, rfl⟩ := ht
    unfold ChangeBufferSize at hr
    cases h3 : ({ s.xnOSEnterCriticalSection with m_nBufferSize := n } : XnBufferPool).FreeAll
        false with
    | none => simp [h3] at hr
    | some s3 =>
      have hl3 : s3.m_hLock = s.m_hLock.map (· + 1) := FreeAll_lock h3
      obtain ⟨-, -, -, -, -, -, -, a7, -⟩ := AllocateBuffers_spec s3 (hook n)
      have hfin : (s3.AllocateBuffers (hook n)).2.xnOSLeaveCriticalSection.m_hLock =
          s.m_hLock := by
        show ((s3.AllocateBuffers (hook n)).2.m_hLock).map (· - 1) = _
        rw [a7, hl3, map_pred_map_succ]
      simp only [h3] at hr
      split at hr <;> (cases hr; exact hfin)
  | getBuffer =>
    simp only [step, Option.map_eq_some'] at ht
    obtain ⟨r, hr, rfl⟩ := ht
    cases hfr : s.m_FreeBuffers with
    | nil =>
      rw [GetBuffer_nil s hfr] at hr
      cases hr; rfl
    | cons q rest =>
      obtain ⟨b, hb⟩ := GetBuffer_live hfr hr
      rw [GetBuffer_cons s q rest b hfr hb] at hr
      cases hr; rfl
  | addRef h =>
    cases h with
    | none => simp only [step, AddRef] at ht; cases ht; rfl
    | some q =>
      obtain ⟨b, hb⟩ := AddRef_live ht
      have ht' : s.AddRef (some q) = some t := ht
      rw [AddRef_some s q b hb] at ht'
      cases ht'; rfl
  | decRef h =>
    cases h with
    | none => simp only [step, DecRef] at ht; cases ht; rfl
    | some q =>
      obtain ⟨b, hb⟩ := DecRef_live ht
      have ht' : s.DecRef (some q) = some t := ht
      rw [DecRef_some s q b hb] at ht'
      cases ht'
      split
      · split <;> rfl
      · rfl
  | copyRef dst h =>
    cases h with
    | none => exact absurd hop id
    | some q =>
      simp only [step, Option.map_eq_some'] at ht
      obtain ⟨r, hr, rfl⟩ := ht
      obtain ⟨b, hb⟩ := CopyRef_live hr
      rw [CopyRef_some s dst q b hb] at hr
      cases hr; rfl

/-- The path of `CopyRef` on a null source: the function returns right after
entering the critical section, so an existing lock is entered once more than
it is left. -/
theorem CopyRef_null (s : XnBufferPool) (dst : Option Ptr) (k : Nat)
    (hl : s.m_hLock = some k) :
    ∃ t, s.CopyRef dst none = some (dst, t) ∧ t.m_hLock = some (k + 1) := by
  refine ⟨s.xnOSEnterCriticalSection, rfl, ?_⟩
  show s.m_hLock.map (· + 1) = _
  rw [hl]; rfl

/-- C17 fails for `CopyRef` with a null source: on the initialised pool, whose
lock is not entered, `CopyRef` returns with the lock entered once, while
`AddRef` and `DecRef` on a null handle return with the lock as it was. -/
theorem C17_CopyRef_null_lock_held :
    exFresh.m_hLock = some 0 ∧
    (exFresh.CopyRef none none).map (fun r => r.2.m_hLock) = some (some 1) ∧
    (exFresh.AddRef none).map (fun t => t.m_hLock) = some (some 0) ∧
    (exFresh.DecRef none).map (fun t => t.m_hLock) = some (some 0) := by
  decide

end XnBufferPool

namespace XnBufferPool

/-! ## The reclamation procedure against its reference definition -/

theorem FreeAllLoop_heap (f : Bool) : ∀ (todo kept : List Ptr) (s t : XnBufferPool),
    FreeAllLoop f kept todo s = some t → todo.Nodup →
    ∀ q, t.heap[q]? =
      if q ∈ todo ∧ keeps f s q = true then (s.heap[q]?).map marked else s.heap[q]? := by
  intro todo
  induction todo with
  | nil =>
    intro kept s t ht _ q
    simp only [FreeAllLoop, Option.some.injEq] at ht
    subst ht
    simp
  | cons p rest ih =>
    intro kept s t ht hnd q
    have hprest : p ∉ rest := (List.nodup_cons.mp hnd).1
    have hndr : rest.Nodup := (List.nodup_cons.mp hnd).2
    cases hd : s.deref p with
    | none => rw [FreeAllLoop_none f kept rest p s hd] at ht; cases ht
    | some b =>
      cases hk : (f || b.m_nRefCount == 0)
      · have hkp : keeps f s p = true := by
          unfold keeps; rw [hd]; simp only [hk]; rfl
        rw [FreeAllLoop_cons_mark f kept rest p s b hd hk] at ht
        have h := ih _ _ t ht hndr q
        rw [h]
        have hu := deref_upd (s := s)
          (t := { s with heap := s.heap.set p (marked b) }) (marked b) rfl rfl hd
        by_cases hqp : q = p
        · subst hqp
          have hl : q < s.heap.length := deref_lt hd
          simp [hprest, hkp, deref_heap hd, List.getElem?_set, hl]
        · have hks : keeps f ({ s with heap := s.heap.set p (marked b) } : XnBufferPool) q =
              keeps f s q := keeps_congr f (by rw [hu q]; simp [hqp])
          rw [hks]
          simp [hqp, List.getElem?_set, Ne.symm hqp]
      · have hkp : keeps f s p = false := by
          unfold keeps; rw [hd]; simp only [hk]; rfl
        rw [FreeAllLoop_cons_remove f kept rest p s b hd hk] at ht
        have h := ih _ _ t ht hndr q
        rw [h]
        by_cases hqp : q = p
        · subst hqp
          simp [hprest, hkp]
        · have hsame : ∀ (ds : List Nat), (XnBufferPool.mk s.m_nBufferSize s.m_nNextBufferID
              s.m_hLock s.m_AllBuffers s.m_FreeBuffers s.heap (s.freed ++ [p]) ds).deref q =
              s.deref q := by
            intro ds
            unfold deref
            simp [hqp]
          rw [keeps_congr f (hsame _)]
          simp [hqp]

theorem keeps_eq_spec {f : Bool} {s : XnBufferPool} {p : Ptr} {b : XnBufferInPool}
    (hb : s.deref p = some b) :
    keeps f s p = !(f || s.refCountOf p == 0) := by
  unfold keeps refCountOf
  rw [hb]

/-- The loop of `FreeAll` computes the reference definition on every well-formed
state. -/
theorem FreeAll_eq_spec (s : XnBufferPool) (f : Bool) (hwf : s.WF) :
    s.FreeAll f = some (s.FreeAllSpec f) := by
  obtain ⟨t, ht, hall, hfree, hsz, hnx, hl, hfr, hds, -, -⟩ :=
    FreeAll_spec f s hwf.live hwf.1
  have hkept : s.m_AllBuffers.filter (keeps f s) = s.keptBySpec f := by
    unfold keptBySpec
    refine List.filter_congr (fun p hp => ?_)
    obtain ⟨b, hb⟩ := hwf.live p hp
    exact keeps_eq_spec hb
  have hrem : s.m_AllBuffers.filter (fun p => !keeps f s p) = s.removedBySpec f := by
    unfold removedBySpec
    refine List.filter_congr (fun p hp => ?_)
    obtain ⟨b, hb⟩ := hwf.live p hp
    rw [keeps_eq_spec hb]
    simp
  have hheap : t.heap = s.heap.mapIdx fun i b => if i ∈ s.keptBySpec f then marked b else b := by
    have hloop : ∃ t', FreeAllLoop f [] s.m_AllBuffers s = some t' ∧ t.heap = t'.heap := by
      unfold FreeAll at ht
      cases h : FreeAllLoop f [] s.m_AllBuffers s with
      | none => rw [h] at ht; cases ht
      | some t' =>
        rw [h] at ht
        simp only [Option.map_some', Option.some.injEq] at ht
        subst ht
        exact ⟨t', rfl, rfl⟩
    obtain ⟨t', ht', hh⟩ := hloop
    rw [hh]
    apply List.ext_getElem?
    intro q
    rw [FreeAllLoop_heap f _ _ s t' ht' hwf.1 q, List.getElem?_mapIdx, ← hkept]
    by_cases hm : q ∈ s.m_AllBuffers ∧ keeps f s q = true
    · have hm' : q ∈ s.m_AllBuffers.filter (keeps f s) := List.mem_filter.mpr hm
      simp only [hm, hm', and_self, if_true]
    · have hm' : q ∉ s.m_AllBuffers.filter (keeps f s) := fun h => hm (List.mem_filter.mp h)
      simp only [hm, hm', if_false]
      cases s.heap[q]? <;> simp
  rw [ht]
  congr 1
  cases t with
  | mk a1 a2 a3 a4 a5 a6 a7 a8 =>
    simp only at hall hfree hsz hnx hl hfr hds hheap
    subst hall hfree hsz hnx hl hfr hds hheap
    simp only [FreeAllSpec, hkept, hrem]

end XnBufferPool

namespace XnBufferPool

/-- C16: on every well-formed state `FreeAll(force)` returns the state of the
reference definition `FreeAllSpec`.  When forced, `m_AllBuffers` becomes empty;
otherwise it becomes the old list restricted to the buffers whose count is not
0, in the original order, each with its record marked and otherwise unchanged.
In both cases the free list becomes empty, the id counter and the buffer size
are unchanged, and the destruction hook is called once for each removed buffer,
in list order, and for nothing else. -/
theorem C16_FreeAll_refines (s : XnBufferPool) (force : Bool) (hwf : s.WF) :
    s.FreeAll force = some (s.FreeAllSpec force) ∧
    (force = true → (s.FreeAllSpec force).m_AllBuffers = []) ∧
    (force = false →
      (s.FreeAllSpec force).m_AllBuffers =
        s.m_AllBuffers.filter (fun p => s.refCountOf p != 0)) ∧
    (∀ p ∈ (s.FreeAllSpec force).m_AllBuffers,
      ∃ b, s.deref p = some b ∧ (s.FreeAllSpec force).deref p = some (marked b) ∧
        (marked b).m_nID = b.m_nID ∧ (marked b).m_nRefCount = b.m_nRefCount ∧
        (marked b).m_bDestroy = true) ∧
    (s.FreeAllSpec force).m_FreeBuffers = [] ∧
    (s.FreeAllSpec force).m_nNextBufferID = s.m_nNextBufferID ∧
    (s.FreeAllSpec force).m_nBufferSize = s.m_nBufferSize ∧
    (s.FreeAllSpec force).destroyed =
      s.destroyed ++ (s.removedBySpec force).map (rawData s) ∧
    (s.removedBySpec force).Nodup ∧
    (∀ p, p ∈ s.removedBySpec force ↔
      p ∈ s.m_AllBuffers ∧ p ∉ (s.FreeAllSpec force).m_AllBuffers) := by
  have heq := FreeAll_eq_spec s force hwf
  obtain ⟨t, ht, hall, -, -, -, -, -, -, -, hder⟩ := FreeAll_spec force s hwf.live hwf.1
  rw [heq] at ht
  cases ht
  refine ⟨heq, ?_, ?_, ?_, rfl, rfl, rfl, rfl, hwf.1.filter _, ?_⟩
  · intro hf
    subst hf
    show s.keptBySpec true = []
    simp [keptBySpec]
  · intro hf
    subst hf
    show s.keptBySpec false = _
    simp only [keptBySpec, Bool.false_or]
    rfl
  · intro p hp
    rw [hall] at hp
    obtain ⟨hpa, hk⟩ := List.mem_filter.mp hp
    obtain ⟨b, hb, -, -⟩ := keeps_true_iff.mp hk
    refine ⟨b, hb, ?_, rfl, rfl, rfl⟩
    rw [hder p]
    simp [hpa, hk, hb]
  · intro p
    show p ∈ s.removedBySpec force ↔ p ∈ s.m_AllBuffers ∧ p ∉ s.keptBySpec force
    unfold removedBySpec keptBySpec
    simp only [List.mem_filter]
    constructor
    · rintro ⟨h1, h2⟩
      exact ⟨h1, fun h => by simp [h2] at h⟩
    · rintro ⟨h1, h2⟩
      refine ⟨h1, ?_⟩
      by_contra hc
      exact h2 ⟨h1, by simpa using hc⟩

theorem C16_FreeAll_refines_witness :
    exOne.WF ∧
    exOne.FreeAll false = some (exOne.FreeAllSpec false) ∧
    (false = true → (exOne.FreeAllSpec false).m_AllBuffers = []) ∧
    (false = false →
      (exOne.FreeAllSpec false).m_AllBuffers =
        exOne.m_AllBuffers.filter (fun p => exOne.refCountOf p != 0)) ∧
    (∀ p ∈ (exOne.FreeAllSpec false).m_AllBuffers,
      ∃ b, exOne.deref p = some b ∧ (exOne.FreeAllSpec false).deref p = some (marked b) ∧
        (marked b).m_nID = b.m_nID ∧ (marked b).m_nRefCount = b.m_nRefCount ∧
        (marked b).m_bDestroy = true) ∧
    (exOne.FreeAllSpec false).m_FreeBuffers = [] ∧
    (exOne.FreeAllSpec false).m_nNextBufferID = exOne.m_nNextBufferID ∧
    (exOne.FreeAllSpec false).m_nBufferSize = exOne.m_nBufferSize ∧
    (exOne.FreeAllSpec false).destroyed =
      exOne.destroyed ++ (exOne.removedBySpec false).map (rawData exOne) ∧
    (exOne.removedBySpec false).Nodup ∧
    (∀ p, p ∈ exOne.removedBySpec false ↔
      p ∈ exOne.m_AllBuffers ∧ p ∉ (exOne.FreeAllSpec false).m_AllBuffers) :=
  ⟨by decide, C16_FreeAll_refines exOne false (by decide)⟩

end XnBufferPool

namespace XnBufferPool

/-! ## A resize whose allocation hook fails -/

/-- The members of `m_AllBuffers` after a resize of a well-formed state: a
buffer that was leased before, now marked and not on the free list, or a new
buffer, on the free list with count 0 and no mark. -/
theorem ChangeBufferSize_members (s : XnBufferPool) (n : Nat) (hook : Nat → AllocRun)
    (hwf : s.WF) (r : XnStatus × XnBufferPool) (hr : s.ChangeBufferSize n hook = some r) :
    (∀ p ∈ r.2.m_AllBuffers,
      (p ∈ s.m_AllBuffers ∧ p ∉ r.2.m_FreeBuffers ∧
        ∃ b, s.deref p = some b ∧ b.m_nRefCount ≠ 0 ∧ r.2.deref p = some (marked b)) ∨
      (p ∈ r.2.m_FreeBuffers ∧
        ∃ c, r.2.deref p = some c ∧ c.m_nRefCount = 0 ∧ c.m_bDestroy = false)) ∧
    (∀ p ∈ r.2.m_FreeBuffers, p ∈ r.2.m_AllBuffers ∧
        ∃ c, r.2.deref p = some c ∧ c.m_nRefCount = 0 ∧ c.m_bDestroy = false) := by
  obtain ⟨t, ht, hall, hfree, -, -, -, -, -, -, hold, hnew⟩ :=
    ChangeBufferSize_spec s n hook hwf
  rw [hr] at ht
  cases ht
  have hnewmem : ∀ p ∈ t.m_FreeBuffers,
      ∃ c, t.deref p = some c ∧ c.m_nRefCount = 0 ∧ c.m_bDestroy = false := by
    intro p hp
    rw [hfree] at hp
    obtain ⟨h1, h2⟩ := List.mem_range'_1.mp hp
    have hi : p - s.heap.length < (newRecs s.m_nNextBufferID (hook n).calls).length := by
      unfold Ptr at *
      omega
    have hpe : s.heap.length + (p - s.heap.length) = p := by
      unfold Ptr at *
      omega
    have hget := List.getElem?_eq_getElem hi
    obtain ⟨-, h3, h4⟩ := newRecs_spec _ _ _ _ hget
    refine ⟨_, ?_, h3, h4⟩
    have hd := hnew (p - s.heap.length)
    rw [hpe] at hd
    rw [hd]
    exact hget
  constructor
  · intro p hp
    have hp' : p ∈ t.m_AllBuffers := hp
    rw [hall] at hp'
    rcases List.mem_append.mp hp' with h | h
    · left
      obtain ⟨hpa, hk⟩ := List.mem_filter.mp h
      obtain ⟨b, hb, -, hne⟩ := keeps_true_iff.mp hk
      have hlt : p < s.heap.length := deref_lt hb
      refine ⟨hpa, ?_, b, hb, hne, ?_⟩
      · show p ∉ t.m_FreeBuffers
        rw [hfree]
        intro hm
        have := (List.mem_range'_1.mp hm).1
        unfold Ptr at *
        omega
      · show t.deref p = _
        rw [hold p hlt]
        simp [hpa, hk, hb]
    · right
      have hf : p ∈ t.m_FreeBuffers := by rw [hfree]; exact h
      exact ⟨hf, hnewmem p hf⟩
  · intro p hp
    have hp' : p ∈ t.m_FreeBuffers := hp
    refine ⟨?_, hnewmem p hp'⟩
    show p ∈ t.m_AllBuffers
    rw [hall]
    exact List.mem_append_right _ (hfree ▸ hp')

end XnBufferPool

namespace XnBufferPool

/-- C11 (as amended): a resize whose allocation hook fails.  On a well-formed
state with no negative count and ids in order, when the hook returns a status
other than OK after registering zero or more buffers, `ChangeBufferSize`
returns that same status (the allocation failure when the hook reports the
allocation failure).  Every buffer that was leased before the call is still in
`m_AllBuffers`, with the same record except for the destruction mark.  The
resulting state satisfies I1, I2, I4 and I5, its ids are in order (I3), it is
well formed and has no negative count. -/
theorem C11_failed_resize (s : XnBufferPool) (n : Nat) (hook : Nat → AllocRun)
    (hwf : s.WF) (hnn : s.CountsNonneg) (hinv : s.SpecInv) (hids : s.IdsOk)
    (hfail : (hook n).status ≠ XnStatus.XN_STATUS_OK) :
    ∃ t, s.ChangeBufferSize n hook = some ((hook n).status, t) ∧
      ((hook n).status = XnStatus.XN_STATUS_ALLOC_FAILED →
        s.ChangeBufferSize n hook = some (XnStatus.XN_STATUS_ALLOC_FAILED, t)) ∧
      (∀ p ∈ s.m_AllBuffers, ∀ b, s.deref p = some b → 0 < b.m_nRefCount →
        p ∈ t.m_AllBuffers ∧ t.deref p = some (marked b) ∧
        (marked b).m_nRefCount = b.m_nRefCount) ∧
      t.SpecInv ∧ t.IdsOk ∧ t.WF ∧ t.CountsNonneg := by
  have _ := hinv
  have _ := hfail
  obtain ⟨t, hr, hall, -⟩ := ChangeBufferSize_spec s n hook hwf
  obtain ⟨hmem, hfmem⟩ := ChangeBufferSize_members s n hook hwf _ hr
  obtain ⟨h1, -, h3, -, -, h6, -⟩ := ChangeBufferSize_shape s n hook hwf _ hr
  have hmem' : ∀ p ∈ t.m_AllBuffers,
      (p ∈ s.m_AllBuffers ∧ p ∉ t.m_FreeBuffers ∧
        ∃ b, s.deref p = some b ∧ b.m_nRefCount ≠ 0 ∧ t.deref p = some (marked b)) ∨
      (p ∈ t.m_FreeBuffers ∧
        ∃ c, t.deref p = some c ∧ c.m_nRefCount = 0 ∧ c.m_bDestroy = false) := hmem
  have hfmem' : ∀ p ∈ t.m_FreeBuffers, p ∈ t.m_AllBuffers ∧
      ∃ c, t.deref p = some c ∧ c.m_nRefCount = 0 ∧ c.m_bDestroy = false := hfmem
  refine ⟨t, hr, fun h => by rw [hr, h], ?_, ?_, ?_, ?_, ?_⟩
  · intro p hp b hb hpos
    have hk : keeps false s p = true := keeps_true_iff.mpr ⟨b, hb, rfl, by omega⟩
    refine ⟨?_, ?_, rfl⟩
    · rw [hall]
      exact List.mem_append_left _ (List.mem_filter.mpr ⟨hp, hk⟩)
    · have := h6 p (deref_lt hb)
      simp only [hp, hk, hb, if_true, Option.map_some'] at this
      exact this
  · refine ⟨fun p hp => (hfmem' p hp).1, ?_, ?_, ?_, ?_⟩
    · intro p hp b hb
      obtain ⟨c, hc, hc0, hcd⟩ := (hfmem' p hp).2
      rw [hc] at hb; cases hb
      exact ⟨hc0, hcd⟩
    · intro p b hb hpos hp
      obtain ⟨c, hc, hc0, -⟩ := (hfmem' p hp).2
      rw [hc] at hb; cases hb
      omega
    · intro p hp b hb hz
      rcases hmem' p hp with ⟨-, -, b0, -, hne, hd⟩ | ⟨hf, -⟩
      · rw [hd] at hb; cases hb
        exact absurd hz hne
      · exact hf
    · intro p hp b hb hd
      rcases hmem' p hp with ⟨hpa, -, b0, hb0, hne, hd0⟩ | ⟨-, c, hc, -, hcd⟩
      · rw [hd0] at hb; cases hb
        have h0 := hnn p hpa b0 hb0
        show 0 < b0.m_nRefCount
        omega
      · rw [hc] at hb; cases hb
        rw [hcd] at hd; cases hd
  · exact hids.ids_changeBufferSize n hook _ hr
  · refine ⟨h1, ?_, h3⟩
    intro p hp
    rcases hmem' p hp with ⟨-, -, b0, -, -, hd⟩ | ⟨-, c, hc, -, -⟩
    · rw [hd]; rfl
    · rw [hc]; rfl
  · intro p hp b hb
    rcases hmem' p hp with ⟨hpa, -, b0, hb0, -, hd⟩ | ⟨-, c, hc, hc0, -⟩
    · rw [hd] at hb; cases hb
      exact hnn p hpa b0 hb0
    · rw [hc] at hb; cases hb
      omega

end XnBufferPool

namespace XnBufferPool

/-- The bookkeeping invariant gives the invariants I1, I2, I4 and I5 of the spec
and excludes negative counts. -/
theorem Inv.inv_specInv {s : XnBufferPool} (h : Inv s) : s.SpecInv ∧ s.CountsNonneg := by
  refine ⟨⟨h.free_sub, h.free_rc, ?_, h.zero_free, ?_⟩, fun p _ b hb => h.rc_nonneg p b hb⟩
  · intro p b hb hpos hp
    have := (h.free_rc p hp b hb).1
    omega
  · intro p hp b hb hd
    have h0 := h.rc_nonneg p b hb
    by_contra hc
    have hz : b.m_nRefCount = 0 := by omega
    have := (h.free_rc p (h.zero_free p hp b hb hz) b hb).2
    rw [this] at hd; cases hd

theorem exOne_idsOk : exOne.IdsOk := by
  unfold IdsOk
  decide

theorem C11_failed_resize_witness :
    exOne.WF ∧ exOne.CountsNonneg ∧ exOne.SpecInv ∧ exOne.IdsOk ∧
    (exFailHook 2048).status ≠ XnStatus.XN_STATUS_OK ∧
    ∃ t, exOne.ChangeBufferSize 2048 exFailHook = some ((exFailHook 2048).status, t) ∧
      ((exFailHook 2048).status = XnStatus.XN_STATUS_ALLOC_FAILED →
        exOne.ChangeBufferSize 2048 exFailHook = some (XnStatus.XN_STATUS_ALLOC_FAILED, t)) ∧
      (∀ p ∈ exOne.m_AllBuffers, ∀ b, exOne.deref p = some b → 0 < b.m_nRefCount →
        p ∈ t.m_AllBuffers ∧ t.deref p = some (marked b) ∧
        (marked b).m_nRefCount = b.m_nRefCount) ∧
      t.SpecInv ∧ t.IdsOk ∧ t.WF ∧ t.CountsNonneg :=
  ⟨by decide, exOne_reachable.inv.inv_specInv.2, exOne_reachable.inv.inv_specInv.1,
    exOne_idsOk, by decide,
    C11_failed_resize exOne 2048 exFailHook (by decide) exOne_reachable.inv.inv_specInv.2
      exOne_reachable.inv.inv_specInv.1 exOne_idsOk (by decide)⟩

/-- C11 (as stated) fails on the returned status: on a state that satisfies the
invariants, with a hook that registers one buffer and then fails with a status
other than the allocation failure, `ChangeBufferSize` returns the status of the
hook, not the allocation failure. -/
theorem C11_counterexample :
    exOne.SpecInv ∧ exOne.IdsOk ∧ exOne.WF ∧
    (exFailHook 2048).status ≠ XnStatus.XN_STATUS_OK ∧
    (exOne.ChangeBufferSize 2048 exFailHook).map (fun r => r.1) =
      some (XnStatus.XN_STATUS_ERROR 1) ∧
    (exOne.ChangeBufferSize 2048 exFailHook).map (fun r => r.1) ≠
      some XnStatus.XN_STATUS_ALLOC_FAILED :=
  ⟨exOne_reachable.inv.inv_specInv.1, exOne_idsOk, by decide, by decide, by decide, by decide⟩

end XnBufferPool

namespace XnBufferPool

/-! ## The free list as a queue -/

/-- One call: what was free plus what the call puts on the free list is what
the call hands out plus what is free afterwards. -/
theorem queue_step (s t : XnBufferPool) (op : Op) (hst : op.stable = true)
    (ht : s.step op = some t) :
    s.m_FreeBuffers ++ s.entered op = s.returned op ++ t.m_FreeBuffers := by
  cases op with
  | init cs n hook => simp [Op.stable] at hst
  | free => simp [Op.stable] at hst
  | freeAll f => simp [Op.stable] at hst
  | changeBufferSize n hook => simp [Op.stable] at hst
  | addNewBuffer ok pb n =>
    simp only [step, Option.some.injEq] at ht
    subst ht
    cases ok
    · rw [AddNewBuffer_false]; simp [entered, returned]
    · rw [AddNewBuffer_true]; simp [entered, returned]
  | getBuffer =>
    simp only [step, Option.map_eq_some'] at ht
    obtain ⟨r, hr, rfl⟩ := ht
    cases hfr : s.m_FreeBuffers with
    | nil =>
      have hg := GetBuffer_nil s hfr
      rw [hg] at hr
      cases hr
      simp [entered, returned, hg, hfr]
    | cons q rest =>
      obtain ⟨b, hb⟩ := GetBuffer_live hfr hr
      have hg := GetBuffer_cons s q rest b hfr hb
      rw [hg] at hr
      cases hr
      simp [entered, returned, hg]
  | addRef h =>
    cases h with
    | none => simp only [step, AddRef] at ht; cases ht; simp [entered, returned]
    | some q =>
      obtain ⟨b, hb⟩ := AddRef_live ht
      have ht' : s.AddRef (some q) = some t := ht
      rw [AddRef_some s q b hb] at ht'
      cases ht'
      simp [entered, returned]
  | decRef h =>
    cases h with
    | none => simp only [step, DecRef] at ht; cases ht; simp [entered, returned]
    | some q =>
      obtain ⟨b, hb⟩ := DecRef_live ht
      have ht' : s.DecRef (some q) = some t := ht
      rw [DecRef_some s q b hb] at ht'
      cases ht'
      by_cases h0 : b.m_nRefCount - 1 = 0
      · by_cases hd : b.m_bDestroy = true
        · simp [entered, returned, hb, h0, hd]
        · simp [entered, returned, hb, h0, hd]
      · simp [entered, returned, hb, h0]
  | copyRef dst h =>
    simp only [step, Option.map_eq_some'] at ht
    obtain ⟨r, hr, rfl⟩ := ht
    cases h with
    | none =>
      simp only [CopyRef] at hr
      cases hr
      simp [entered, returned, xnOSEnterCriticalSection]
    | some q =>
      obtain ⟨b, hb⟩ := CopyRef_live hr
      rw [CopyRef_some s dst q b hb] at hr
      cases hr
      simp [entered, returned]

theorem queue_run : ∀ (ops : List Op) (s t : XnBufferPool),
    (∀ op ∈ ops, op.stable = true) → s.run ops = some t →
    s.m_FreeBuffers ++ s.enteredAll ops = s.returnedAll ops ++ t.m_FreeBuffers := by
  intro ops
  induction ops with
  | nil =>
    intro s t _ ht
    simp only [run, Option.some.injEq] at ht
    subst ht
    simp [enteredAll, returnedAll]
  | cons op ops ih =>
    intro s t hst ht
    simp only [run] at ht
    cases h1 : s.step op with
    | none => rw [h1] at ht; cases ht
    | some s1 =>
      rw [h1] at ht
      have hq := queue_step s s1 op (hst op (List.mem_cons_self _ _)) h1
      have hi := ih s1 t (fun o ho => hst o (List.mem_cons_of_mem _ ho)) ht
      simp only [enteredAll, returnedAll, h1]
      rw [← List.append_assoc, hq, List.append_assoc, hi, List.append_assoc]

/-- C13: first in, first out.  For every sequence of `AddNewBuffer`, `GetBuffer`,
`AddRef`, `DecRef` and `CopyRef` calls (no resize, no shutdown), the buffers
that were free at the start followed by the buffers put on the free list during
the run (by `AddNewBuffer` or by a final `DecRef`), in order, are exactly the
buffers handed out by `GetBuffer`, in order, followed by the free list at the
end.  So the buffers handed out are a prefix of the buffers that entered: the
i-th buffer handed out is the i-th buffer that entered. -/
theorem C13_fifo (s t : XnBufferPool) (ops : List Op)
    (hst : ∀ op ∈ ops, op.stable = true) (hrun : s.run ops = some t) :
    s.m_FreeBuffers ++ s.enteredAll ops = s.returnedAll ops ++ t.m_FreeBuffers ∧
    s.returnedAll ops <+: s.m_FreeBuffers ++ s.enteredAll ops ∧
    ∀ (i : Nat) (a : Ptr), (s.returnedAll ops)[i]? = some a →
      (s.m_FreeBuffers ++ s.enteredAll ops)[i]? = some a := by
  have h := queue_run ops s t hst hrun
  have hp : s.returnedAll ops <+: s.m_FreeBuffers ++ s.enteredAll ops :=
    ⟨t.m_FreeBuffers, h.symm⟩
  refine ⟨h, hp, ?_⟩
  intro i a hi
  rw [h]
  have hlt : i < (s.returnedAll ops).length := by
    rcases Nat.lt_or_ge i (s.returnedAll ops).length with hl | hl
    · exact hl
    · rw [List.getElem?_eq_none hl] at hi; cases hi
  rw [List.getElem?_append_left hlt]
  exact hi

theorem C13_fifo_witness :
    (∀ op ∈ exQueueOps, op.stable = true) ∧
    ∃ t, exFresh.run exQueueOps = some t ∧
      exFresh.enteredAll exQueueOps = [1, 0, 2] ∧
      exFresh.returnedAll exQueueOps = [0, 1, 1, 0, 2] ∧
      exFresh.m_FreeBuffers ++ exFresh.enteredAll exQueueOps =
        exFresh.returnedAll exQueueOps ++ t.m_FreeBuffers ∧
      exFresh.returnedAll exQueueOps <+: exFresh.m_FreeBuffers ++ exFresh.enteredAll exQueueOps ∧
      ∀ (i : Nat) (a : Ptr), (exFresh.returnedAll exQueueOps)[i]? = some a →
        (exFresh.m_FreeBuffers ++ exFresh.enteredAll exQueueOps)[i]? = some a := by
  have hst : ∀ op ∈ exQueueOps, op.stable = true := by decide
  have hsome : (exFresh.run exQueueOps).isSome = true := by decide
  obtain ⟨t, ht⟩ := Option.isSome_iff_exists.mp hsome
  exact ⟨hst, t, ht, by decide, by decide, C13_fifo exFresh t exQueueOps hst ht⟩

end XnBufferPool

namespace XnBufferPool

/-! ## Capacity -/

/-- Leasing from a free list that holds the consecutive addresses `L`, ...,
`L + n - 1` of live records: the first `k` calls of `GetBuffer` leave the
addresses from `L + k` on, and leave the records from `L + k` on as they
were. -/
theorem lease_prefix (s : XnBufferPool) (L n : Nat)
    (hfree : s.m_FreeBuffers = List.range' L n)
    (hlive : ∀ i, i < n → ∃ b, s.deref (L + i) = some b) :
    ∀ k, k ≤ n → ∃ tk, s.run (List.replicate k Op.getBuffer) = some tk ∧
      tk.m_FreeBuffers = List.range' (L + k) (n - k) ∧
      ∀ i, k ≤ i → tk.deref (L + i) = s.deref (L + i) := by
  intro k
  induction k with
  | zero =>
    intro _
    exact ⟨s, rfl, by simpa using hfree, fun _ _ => rfl⟩
  | succ k ih =>
    intro hk
    obtain ⟨tk, hrun, hf, hd⟩ := ih (by omega)
    obtain ⟨b, hb⟩ := hlive k (by omega)
    have hbk : tk.deref (L + k) = some b := by rw [hd k (Nat.le_refl k)]; exact hb
    have hfk : tk.m_FreeBuffers = (L + k) :: List.range' (L + (k + 1)) (n - (k + 1)) := by
      rw [hf]
      have : n - k = (n - (k + 1)) + 1 := by omega
      rw [this, List.range'_succ]
      rfl
    have hg := GetBuffer_cons tk (L + k) _ b hfk hbk
    refine ⟨{ tk with m_FreeBuffers := List.range' (L + (k + 1)) (n - (k + 1)), heap := tk.heap.set (L + k) { b with m_nRefCount := 1 } }, ?_, rfl, ?_⟩
    · rw [List.replicate_succ', run_append, hrun]
      simp only [Option.some_bind, run_singleton, step, hg, Option.map_some']
    · intro i hi
      have hne : L + i ≠ L + k := by omega
      rw [← hd i (by omega)]
      exact deref_set_other _ hne

/-- C14: capacity.  `Init(size)` on the freshly constructed pool with an
allocation hook that registers `n` buffers returns the status of the hook and
leaves a pool on which, for every `k < n`, after `k` calls of `GetBuffer` the
next call succeeds and returns the `k`-th registered buffer (address `k`, id
`k`), and after `n` calls the next call returns the allocation failure and
changes nothing. -/
theorem C14_capacity (size : Nat) (hook : Nat → AllocRun) :
    ∃ s0, construct.Init XnStatus.XN_STATUS_OK size hook = some ((hook size).status, s0) ∧
      s0.m_FreeBuffers = List.range' 0 (newRecs 0 (hook size).calls).length ∧
      (∀ k, k < (newRecs 0 (hook size).calls).length →
        ∃ tk tk1 c, s0.run (List.replicate k Op.getBuffer) = some tk ∧
          tk.GetBuffer = some (XnStatus.XN_STATUS_OK, some k, tk1) ∧
          (newRecs 0 (hook size).calls)[k]? = some c ∧ c.m_nID = k ∧
          tk1.deref k = some { c with m_nRefCount := 1 }) ∧
      ∃ tn, s0.run (List.replicate (newRecs 0 (hook size).calls).length Op.getBuffer) =
          some tn ∧
        tn.GetBuffer = some (XnStatus.XN_STATUS_ALLOC_FAILED, none, tn) := by
  have hwf : ({ construct with m_hLock := some 0 } : XnBufferPool).WF := by decide
  obtain ⟨s0, hr, -, hfree, -, -, -, -, -, -, -, hnew⟩ :=
    ChangeBufferSize_spec ({ construct with m_hLock := some 0 } : XnBufferPool) size hook hwf
  have hfree0 : s0.m_FreeBuffers = List.range' 0 (newRecs 0 (hook size).calls).length := hfree
  have hnew0 : ∀ i, s0.deref (0 + i) = (newRecs 0 (hook size).calls)[i]? := hnew
  have hinit : construct.Init XnStatus.XN_STATUS_OK size hook =
      some ((hook size).status, s0) := by
    unfold Init
    simp only [ne_eq, not_true_eq_false, if_false, hr]
    split
    · rfl
    · rename_i h
      simp only [ne_eq, not_not] at h
      rw [h]
  have hlive : ∀ i, i < (newRecs 0 (hook size).calls).length →
      ∃ b, s0.deref (0 + i) = some b := by
    intro i hi
    exact ⟨_, (hnew0 i).trans (List.getElem?_eq_getElem hi)⟩
  have hpre := lease_prefix s0 0 _ hfree0 hlive
  refine ⟨s0, hinit, hfree0, ?_, ?_⟩
  · intro k hk
    obtain ⟨tk, hrun, hf, hd⟩ := hpre k (Nat.le_of_lt hk)
    have hget : (newRecs 0 (hook size).calls)[k]? = some ((newRecs 0 (hook size).calls)[k]) :=
      List.getElem?_eq_getElem hk
    have hbk : tk.deref (0 + k) = some ((newRecs 0 (hook size).calls)[k]) := by
      rw [hd k (Nat.le_refl k), hnew0 k]; exact hget
    have hfk : tk.m_FreeBuffers = (0 + k) ::
        List.range' (0 + (k + 1)) ((newRecs 0 (hook size).calls).length - (k + 1)) := by
      rw [hf]
      have : (newRecs 0 (hook size).calls).length - k =
          ((newRecs 0 (hook size).calls).length - (k + 1)) + 1 := by omega
      rw [this, List.range'_succ]
      rfl
    have hg := GetBuffer_cons tk (0 + k) _ _ hfk hbk
    simp only [Nat.zero_add] at hg hbk
    refine ⟨tk, _, _, hrun, hg, hget, ?_, ?_⟩
    · have := (newRecs_spec _ _ _ _ hget).1
      omega
    · exact deref_set_self _ hbk
  · obtain ⟨tn, hrun, hf, -⟩ := hpre _ (Nat.le_refl _)
    refine ⟨tn, hrun, GetBuffer_nil tn ?_⟩
    rw [hf]
    simp

/-- The scenario of four buffers: the hook registers four buffers, so four
leases succeed and the fifth fails. -/
theorem C14_capacity_witness :
    (newRecs 0 (exHook4 16).calls).length = 4 ∧
    ∃ s0, construct.Init XnStatus.XN_STATUS_OK 16 exHook4 =
        some ((exHook4 16).status, s0) ∧
      s0.m_FreeBuffers = List.range' 0 (newRecs 0 (exHook4 16).calls).length ∧
      (∀ k, k < (newRecs 0 (exHook4 16).calls).length →
        ∃ tk tk1 c, s0.run (List.replicate k Op.getBuffer) = some tk ∧
          tk.GetBuffer = some (XnStatus.XN_STATUS_OK, some k, tk1) ∧
          (newRecs 0 (exHook4 16).calls)[k]? = some c ∧ c.m_nID = k ∧
          tk1.deref k = some { c with m_nRefCount := 1 }) ∧
      ∃ tn, s0.run (List.replicate (newRecs 0 (exHook4 16).calls).length Op.getBuffer) =
          some tn ∧
        tn.GetBuffer = some (XnStatus.XN_STATUS_ALLOC_FAILED, none, tn) :=
  ⟨by decide, C14_capacity 16 exHook4⟩

end XnBufferPool

namespace XnBufferPool

/-! ## The destruction mark -/

theorem exMarked_step :
    exOne.ChangeBufferSize 2048 exHook = some (XnStatus.XN_STATUS_OK, exMarked) := by
  decide

theorem exMarked_reachable : Reachable exMarked :=
  Reachable.changeBufferSize exOne 2048 exHook (XnStatus.XN_STATUS_OK, exMarked)
    exOne_reachable exMarked_step

/-- The three ways in which a call changes the record at an address without
breaking `FlagsKept`: the mark stays as it is, or the record is new and not
marked, or the record had a positive count and only gets the mark. -/
theorem flagsKept_of_cases {s t : XnBufferPool}
    (h : ∀ (q : Ptr) (c : XnBufferInPool), t.deref q = some c →
      (∃ b, s.deref q = some b ∧ c.m_bDestroy = b.m_bDestroy) ∨
      (s.deref q = none ∧ c.m_bDestroy = false) ∨
      (∃ b, s.deref q = some b ∧ c = marked b ∧ 0 < b.m_nRefCount)) :
    FlagsKept s t := by
  intro q c hc
  rcases h q c hc with ⟨b, hb, hbc⟩ | ⟨hn, hf⟩ | ⟨b, hb, hcm, hpos⟩
  · refine ⟨?_, ?_⟩
    · intro b1 hb1 hm
      rw [hb] at hb1
      cases hb1
      rw [hbc]; exact hm
    · intro hm
      refine ⟨b, hb, ?_⟩
      intro hf
      rw [hbc, hf] at hm
      cases hm
  · refine ⟨?_, ?_⟩
    · intro b1 hb1
      rw [hn] at hb1
      cases hb1
    · intro hm
      rw [hf] at hm
      cases hm
  · subst hcm
    exact ⟨fun _ _ _ => rfl, fun _ => ⟨b, hb, fun _ => ⟨hpos, rfl⟩⟩⟩

theorem flagsKept_same {s t : XnBufferPool} (h : ∀ q, t.deref q = s.deref q) :
    FlagsKept s t := by
  apply flagsKept_of_cases
  intro q c hc
  exact Or.inl ⟨c, (h q).symm.trans hc, rfl⟩

theorem flagsKept_upd {s t : XnBufferPool} {p : Ptr} {b d : XnBufferInPool}
    (hp : s.deref p = some b) (hflag : d.m_bDestroy = b.m_bDestroy)
    (h : ∀ q, t.deref q = if q = p then some d else s.deref q) :
    FlagsKept s t := by
  apply flagsKept_of_cases
  intro q c hc
  rw [h q] at hc
  by_cases hq : q = p
  · subst hq
    simp only [if_true] at hc
    cases hc
    exact Or.inl ⟨b, hp, hflag⟩
  · simp only [hq, if_false] at hc
    exact Or.inl ⟨c, hc, rfl⟩

/-- The records after the loop of `FreeAll`, in the closed form of
`FreeAll_spec`, keep the marks. -/
theorem flagsKept_reclaim {s t : XnBufferPool} {f : Bool}
    (hnn : ∀ p b, s.deref p = some b → 0 ≤ b.m_nRefCount)
    (q : Ptr) (c : XnBufferInPool) (hc : t.deref q = some c)
    (h : t.deref q =
        if q ∈ s.m_AllBuffers then
          (if keeps f s q = true then (s.deref q).map marked else none)
        else s.deref q) :
    (∃ b, s.deref q = some b ∧ c.m_bDestroy = b.m_bDestroy) ∨
      (s.deref q = none ∧ c.m_bDestroy = false) ∨
      (∃ b, s.deref q = some b ∧ c = marked b ∧ 0 < b.m_nRefCount) := by
  rw [h] at hc
  by_cases hq : q ∈ s.m_AllBuffers
  · simp only [hq, if_true] at hc
    by_cases hk : keeps f s q = true
    · simp only [hk, if_true] at hc
      cases hb : s.deref q with
      | none => rw [hb] at hc; cases hc
      | some b =>
        rw [hb] at hc
        simp only [Option.map_some', Option.some.injEq] at hc
        refine Or.inr (Or.inr ⟨b, rfl, hc.symm, ?_⟩)
        have h0 := hnn q b hb
        have hne : b.m_nRefCount ≠ 0 := by
          intro hz
          simp [keeps, hb, hz] at hk
        omega
    · simp only [hk] at hc
      cases hc
  · simp only [hq, if_false] at hc
    exact Or.inl ⟨c, hc, rfl⟩

theorem flagsKept_ChangeBufferSize (s : XnBufferPool) (n : Nat) (hook : Nat → AllocRun)
    (r : XnStatus × XnBufferPool) (hwf : s.WF)
    (hnn : ∀ p b, s.deref p = some b → 0 ≤ b.m_nRefCount)
    (h : s.ChangeBufferSize n hook = some r) : FlagsKept s r.2 := by
  obtain ⟨t, hr, -, -, -, -, -, -, -, -, hder, hnew⟩ := ChangeBufferSize_spec s n hook hwf
  rw [hr] at h
  cases h
  apply flagsKept_of_cases
  intro q c hc
  rcases Nat.lt_or_ge q s.heap.length with hq | hq
  · exact flagsKept_reclaim hnn q c hc (hder q hq)
  · obtain ⟨i, rfl⟩ : ∃ i, q = s.heap.length + i := ⟨q - s.heap.length, (Nat.add_sub_cancel' hq).symm⟩
    have hc1 : (newRecs s.m_nNextBufferID (hook n).calls)[i]? = some c := by
      rw [← hnew i]; exact hc
    refine Or.inr (Or.inl ⟨?_, (newRecs_spec _ _ _ _ hc1).2.2⟩)
    cases hs : s.deref (s.heap.length + i) with
    | none => rfl
    | some b =>
      exact absurd (deref_lt hs) (Nat.not_lt.mpr (Nat.le_add_right _ _))

end XnBufferPool

namespace XnBufferPool

theorem AddNewBuffer_deref (s : XnBufferPool) (pBuffer nSize : Nat)
    (hfl : ∀ p ∈ s.freed, p < s.heap.length) (q : Ptr) :
    (s.AddNewBuffer true pBuffer nSize).2.deref q =
      if q = s.heap.length then
        some { m_nID := s.m_nNextBufferID, m_nRefCount := 0, m_bDestroy := false,
               m_pData := pBuffer, m_nSize := nSize }
      else s.deref q := by
  rw [AddNewBuffer_true]
  refine deref_append (s := s) _ hfl ?_ ?_ q <;> rfl

/-- Every call keeps the destruction marks, on a pool with well-formed memory
whose counts are not negative. -/
theorem flagsKept_step (s t : XnBufferPool) (op : Op) (hwf : s.WF)
    (hnn : ∀ p b, s.deref p = some b → 0 ≤ b.m_nRefCount)
    (h : s.step op = some t) : FlagsKept s t := by
  cases op with
  | init cs n hook =>
    simp only [step, Option.map_eq_some'] at h
    obtain ⟨r, hr, rfl⟩ := h
    unfold Init at hr
    by_cases hcs : cs ≠ XnStatus.XN_STATUS_OK
    · rw [if_pos hcs] at hr
      cases hr
      exact flagsKept_same fun _ => rfl
    · rw [if_neg hcs] at hr
      cases hc : ({ s with m_hLock := some 0 } : XnBufferPool).ChangeBufferSize n hook with
      | none => rw [hc] at hr; cases hr
      | some r1 =>
        have hk : FlagsKept ({ s with m_hLock := some 0 } : XnBufferPool) r1.2 :=
          flagsKept_ChangeBufferSize _ n hook r1 hwf hnn hc
        rw [hc] at hr
        obtain ⟨st, t1⟩ := r1
        have ht : r.2 = t1 := by
          simp only at hr
          split at hr <;> cases hr <;> rfl
        rw [ht]
        exact hk
  | free =>
    have ht : s.Free = t := Option.some.inj h
    subst ht
    refine flagsKept_same fun q => ?_
    unfold Free
    cases s.m_hLock <;> rfl
  | freeAll f =>
    obtain ⟨t1, h1, -, -, -, -, -, -, -, -, hder⟩ := FreeAll_spec f s (WF.live hwf) hwf.1
    have ht : t1 = t := Option.some.inj (h1.symm.trans h)
    subst ht
    exact flagsKept_of_cases fun q c hc => flagsKept_reclaim hnn q c hc (hder q)
  | addNewBuffer recOk pBuffer nSize =>
    have ht : (s.AddNewBuffer recOk pBuffer nSize).2 = t := Option.some.inj h
    subst ht
    cases recOk with
    | false =>
      rw [AddNewBuffer_false]
      exact flagsKept_same fun _ => rfl
    | true =>
      apply flagsKept_of_cases
      intro q c hc
      rw [AddNewBuffer_deref s pBuffer nSize hwf.2.2 q] at hc
      by_cases hq : q = s.heap.length
      · simp only [hq, if_true, Option.some.injEq] at hc
        subst hc
        refine Or.inr (Or.inl ⟨?_, rfl⟩)
        cases hs : s.deref q with
        | none => rfl
        | some b => exact absurd (deref_lt hs) (by rw [hq]; exact Nat.lt_irrefl _)
      · simp only [hq, if_false] at hc
        exact Or.inl ⟨c, hc, rfl⟩
  | changeBufferSize n hook =>
    simp only [step, Option.map_eq_some'] at h
    obtain ⟨r, hr, rfl⟩ := h
    exact flagsKept_ChangeBufferSize s n hook r hwf hnn hr
  | getBuffer =>
    simp only [step, Option.map_eq_some'] at h
    obtain ⟨r, hr, rfl⟩ := h
    cases hfr : s.m_FreeBuffers with
    | nil =>
      rw [GetBuffer_nil s hfr] at hr
      cases hr
      exact flagsKept_same fun _ => rfl
    | cons p rest =>
      obtain ⟨b, hb⟩ := GetBuffer_live hfr hr
      rw [GetBuffer_cons s p rest b hfr hb] at hr
      cases hr
      refine flagsKept_upd (d := { b with m_nRefCount := 1 }) hb rfl fun q => ?_
      refine deref_upd (s := s) _ ?_ ?_ hb q <;> rfl
  | addRef hd =>
    cases hd with
    | none =>
      have ht : s = t := Option.some.inj h
      subst ht
      exact flagsKept_same fun _ => rfl
    | some p =>
      have h1 : s.AddRef (some p) = some t := h
      obtain ⟨b, hb⟩ := AddRef_live h1
      rw [AddRef_some s p b hb] at h1
      cases h1
      refine flagsKept_upd (d := { b with m_nRefCount := b.m_nRefCount + 1 }) hb rfl
        fun q => ?_
      refine deref_upd (s := s) _ ?_ ?_ hb q <;> rfl
  | decRef hd =>
    cases hd with
    | none =>
      have ht : s = t := Option.some.inj h
      subst ht
      exact flagsKept_same fun _ => rfl
    | some p =>
      have h1 : s.DecRef (some p) = some t := h
      obtain ⟨b, hb⟩ := DecRef_live h1
      rw [DecRef_some s p b hb] at h1
      have ht := Option.some.inj h1
      subst ht
      refine flagsKept_upd (d := { b with m_nRefCount := b.m_nRefCount - 1 }) hb rfl ?_
      intro q
      split
      · split
        · refine deref_upd (s := s) _ ?_ ?_ hb q <;> rfl
        · refine deref_upd (s := s) _ ?_ ?_ hb q <;> rfl
      · refine deref_upd (s := s) _ ?_ ?_ hb q <;> rfl
  | copyRef dst src =>
    cases src with
    | none =>
      simp only [step, CopyRef, Option.map_some', Option.some.injEq] at h
      subst h
      exact flagsKept_same fun q => deref_same rfl rfl q
    | some p =>
      cases hb : s.deref p with
      | none =>
        have : s.step (Op.copyRef dst (some p)) = none := by
          have hb1 : s.xnOSEnterCriticalSection.deref p = none :=
            (deref_same (s := s) (t := s.xnOSEnterCriticalSection) rfl rfl p).trans hb
          simp only [step, CopyRef, hb1, Option.map_none']
        rw [this] at h
        cases h
      | some b =>
        rw [step_copyRef s dst p b hb, AddRef_some s p b hb] at h
        cases h
        refine flagsKept_upd (d := { b with m_nRefCount := b.m_nRefCount + 1 }) hb rfl
          fun q => ?_
        refine deref_upd (s := s) _ ?_ ?_ hb q <;> rfl

end XnBufferPool

namespace XnBufferPool

/-- C19: the destruction mark.  In every state reachable from the constructed
pool by `Init`, `AddNewBuffer`, `ChangeBufferSize`, `GetBuffer` and by `AddRef`,
`CopyRef` and `DecRef` on buffers whose count is positive, every member of
`m_AllBuffers` that is marked for destruction has a positive count.  Every call
made in such a state leaves a marked record marked as long as the record is in
memory, and a record that is marked after the call was in memory before it and,
when it was not marked then, had a positive count, which the call does not
change. -/
theorem C19_pending_destroy (s : XnBufferPool) (hs : Reachable s) :
    (∀ p ∈ s.m_AllBuffers, ∀ b, s.deref p = some b → b.m_bDestroy = true →
      0 < b.m_nRefCount) ∧
    ∀ (op : Op) (t : XnBufferPool), s.step op = some t →
      ∀ (p : Ptr) (c : XnBufferInPool), t.deref p = some c →
        (∀ b, s.deref p = some b → b.m_bDestroy = true → c.m_bDestroy = true) ∧
        (c.m_bDestroy = true → ∃ b, s.deref p = some b ∧
          (b.m_bDestroy = false → 0 < b.m_nRefCount ∧ c.m_nRefCount = b.m_nRefCount)) := by
  have hinv := Reachable.inv hs
  refine ⟨hinv.inv_specInv.1.i5, ?_⟩
  intro op t h
  exact flagsKept_step s t op hinv.inv_wf hinv.rc_nonneg h

/-- The pool after a resize with buffer 0 leased: buffer 0 is marked and has
count 1. -/
theorem C19_pending_destroy_witness :
    Reachable exMarked ∧ exMarked.deref 0 = some (exRec 0 1 true) ∧
    (∀ p ∈ exMarked.m_AllBuffers, ∀ b, exMarked.deref p = some b → b.m_bDestroy = true →
      0 < b.m_nRefCount) ∧
    ∀ (op : Op) (t : XnBufferPool), exMarked.step op = some t →
      ∀ (p : Ptr) (c : XnBufferInPool), t.deref p = some c →
        (∀ b, exMarked.deref p = some b → b.m_bDestroy = true → c.m_bDestroy = true) ∧
        (c.m_bDestroy = true → ∃ b, exMarked.deref p = some b ∧
          (b.m_bDestroy = false → 0 < b.m_nRefCount ∧ c.m_nRefCount = b.m_nRefCount)) :=
  ⟨exMarked_reachable, rfl, C19_pending_destroy exMarked exMarked_reachable⟩

end XnBufferPool

namespace XnBufferPool

/-! ## Calls other than resize and shutdown -/

theorem unmarked_of_cases {s t : XnBufferPool}
    (h : ∀ (q : Ptr) (c : XnBufferInPool), t.deref q = some c →
      (∃ b, s.deref q = some b ∧ c.m_bDestroy = b.m_bDestroy) ∨ c.m_bDestroy = false) :
    ∀ hd, s.unmarkedAt hd = true → t.unmarkedAt hd = true := by
  intro hd hs
  cases hd with
  | none => rfl
  | some q =>
    unfold unmarkedAt at hs ⊢
    simp only at hs ⊢
    cases ht : t.deref q with
    | none => rfl
    | some c =>
      simp only
      rcases h q c ht with ⟨b, hb, hbc⟩ | hf
      · rw [hb] at hs
        simp only at hs
        rw [hbc]; exact hs
      · rw [hf]; rfl

theorem unmarked_same {s t : XnBufferPool} (h : ∀ q, t.deref q = s.deref q) :
    ∀ hd, s.unmarkedAt hd = true → t.unmarkedAt hd = true :=
  unmarked_of_cases fun q c hc => Or.inl ⟨c, (h q).symm.trans hc, rfl⟩

theorem unmarked_upd {s t : XnBufferPool} {p : Ptr} {b d : XnBufferInPool}
    (hp : s.deref p = some b) (hflag : d.m_bDestroy = b.m_bDestroy)
    (h : ∀ q, t.deref q = if q = p then some d else s.deref q) :
    ∀ hd, s.unmarkedAt hd = true → t.unmarkedAt hd = true := by
  apply unmarked_of_cases
  intro q c hc
  rw [h q] at hc
  by_cases hq : q = p
  · subst hq
    simp only [if_true] at hc
    cases hc
    exact Or.inl ⟨b, hp, hflag⟩
  · simp only [hq, if_false] at hc
    exact Or.inl ⟨c, hc, rfl⟩

theorem unmarked_append {s t : XnBufferPool} {c0 : XnBufferInPool}
    (hh : t.heap = s.heap ++ [c0]) (hf : t.freed = s.freed) (hc0 : c0.m_bDestroy = false) :
    ∀ hd, s.unmarkedAt hd = true → t.unmarkedAt hd = true := by
  apply unmarked_of_cases
  intro q c hc
  unfold deref at hc ⊢
  rw [hh, hf] at hc
  by_cases hq : q ∈ s.freed
  · simp [hq] at hc
  · simp only [hq, if_false] at hc ⊢
    rcases Nat.lt_or_ge q s.heap.length with hl | hl
    · rw [List.getElem?_append_left hl] at hc
      exact Or.inl ⟨c, hc, rfl⟩
    · rw [List.getElem?_append_right hl] at hc
      cases hi : q - s.heap.length with
      | zero =>
        rw [hi] at hc
        simp only [List.getElem?_cons_zero, Option.some.injEq] at hc
        subst hc
        exact Or.inr hc0
      | succ i =>
        rw [hi] at hc
        simp at hc

/-- One call other than resize and shutdown, on a pool in which the record
passed to `DecRef` (if any) is not marked: nothing is handed to the destruction
hook, no record is discarded, and `m_AllBuffers` only grows, by the address of
the new record when the call registers a buffer. -/
theorem stable_step (s t : XnBufferPool) (op : Op) (hst : op.stable = true)
    (hrel : s.unmarkedAt op.released = true) (h : s.step op = some t) :
    t.destroyed = s.destroyed ∧ t.freed = s.freed ∧
    t.m_AllBuffers = s.m_AllBuffers ++ (if op.registers = true then [s.heap.length] else []) ∧
    t.heap.length = s.heap.length + (if op.registers = true then 1 else 0) ∧
    ∀ hd, s.unmarkedAt hd = true → t.unmarkedAt hd = true := by
  cases op with
  | init cs n hook => simp [Op.stable] at hst
  | free => simp [Op.stable] at hst
  | freeAll f => simp [Op.stable] at hst
  | changeBufferSize n hook => simp [Op.stable] at hst
  | addNewBuffer recOk pBuffer nSize =>
    have ht : (s.AddNewBuffer recOk pBuffer nSize).2 = t := Option.some.inj h
    subst ht
    cases recOk with
    | false =>
      rw [AddNewBuffer_false]
      simp [Op.registers]
    | true =>
      rw [AddNewBuffer_true]
      refine ⟨rfl, rfl, by simp [Op.registers], by simp [Op.registers], ?_⟩
      exact unmarked_append (s := s) rfl rfl rfl
  | getBuffer =>
    simp only [step, Option.map_eq_some'] at h
    obtain ⟨r, hr, rfl⟩ := h
    cases hfr : s.m_FreeBuffers with
    | nil =>
      rw [GetBuffer_nil s hfr] at hr
      cases hr
      simp [Op.registers]
    | cons p rest =>
      obtain ⟨b, hb⟩ := GetBuffer_live hfr hr
      rw [GetBuffer_cons s p rest b hfr hb] at hr
      cases hr
      refine ⟨rfl, rfl, by simp [Op.registers], by simp [Op.registers], ?_⟩
      refine unmarked_upd (d := { b with m_nRefCount := 1 }) hb rfl fun q => ?_
      refine deref_upd (s := s) _ ?_ ?_ hb q <;> rfl
  | addRef hd =>
    cases hd with
    | none =>
      have ht : s = t := Option.some.inj h
      subst ht
      simp [Op.registers]
    | some p =>
      have h1 : s.AddRef (some p) = some t := h
      obtain ⟨b, hb⟩ := AddRef_live h1
      rw [AddRef_some s p b hb] at h1
      cases h1
      refine ⟨rfl, rfl, by simp [Op.registers], by simp [Op.registers], ?_⟩
      refine unmarked_upd (d := { b with m_nRefCount := b.m_nRefCount + 1 }) hb rfl
        fun q => ?_
      refine deref_upd (s := s) _ ?_ ?_ hb q <;> rfl
  | decRef hd =>
    cases hd with
    | none =>
      have ht : s = t := Option.some.inj h
      subst ht
      simp [Op.registers]
    | some p =>
      have h1 : s.DecRef (some p) = some t := h
      obtain ⟨b, hb⟩ := DecRef_live h1
      have hbf : b.m_bDestroy = false := by
        have h2 : s.unmarkedAt (some p) = true := hrel
        unfold unmarkedAt at h2
        simp only [hb] at h2
        cases hd : b.m_bDestroy with
        | false => rfl
        | true => rw [hd] at h2; cases h2
      rw [DecRef_some s p b hb] at h1
      have ht := Option.some.inj h1
      subst ht
      simp only [hbf, Bool.false_eq_true, if_false]
      have hu : ∀ (u : XnBufferPool),
          u.heap = s.heap.set p { b with m_nRefCount := b.m_nRefCount - 1 } →
          u.freed = s.freed → ∀ hd, s.unmarkedAt hd = true → u.unmarkedAt hd = true := by
        intro u hh hf
        refine unmarked_upd (d := { b with m_nRefCount := b.m_nRefCount - 1 }) hb rfl
          fun q => ?_
        exact deref_upd (s := s) _ hh hf hb q
      split
      · exact ⟨rfl, rfl, by simp [Op.registers], by simp [Op.registers],
          hu _ (by rw [hbf]) rfl⟩
      · exact ⟨rfl, rfl, by simp [Op.registers], by simp [Op.registers],
          hu _ (by rw [hbf]) rfl⟩
  | copyRef dst src =>
    cases src with
    | none =>
      simp only [step, CopyRef, Option.map_some', Option.some.injEq] at h
      subst h
      refine ⟨rfl, rfl, by simp [Op.registers, xnOSEnterCriticalSection],
        by simp [Op.registers, xnOSEnterCriticalSection], ?_⟩
      exact unmarked_same fun q =>
        deref_same (s := s) (t := s.xnOSEnterCriticalSection) rfl rfl q
    | some p =>
      cases hb : s.deref p with
      | none =>
        have : s.step (Op.copyRef dst (some p)) = none := by
          have hb1 : s.xnOSEnterCriticalSection.deref p = none :=
            (deref_same (s := s) (t := s.xnOSEnterCriticalSection) rfl rfl p).trans hb
          simp only [step, CopyRef, hb1, Option.map_none']
        rw [this] at h
        cases h
      | some b =>
        rw [step_copyRef s dst p b hb, AddRef_some s p b hb] at h
        cases h
        refine ⟨rfl, rfl, by simp [Op.registers], by simp [Op.registers], ?_⟩
        refine unmarked_upd (d := { b with m_nRefCount := b.m_nRefCount + 1 }) hb rfl
          fun q => ?_
        refine deref_upd (s := s) _ ?_ ?_ hb q <;> rfl

end XnBufferPool

namespace XnBufferPool

/-- A run of calls other than resize and shutdown, on a pool in which no record
passed to `DecRef` is marked at the start. -/
theorem stable_run : ∀ (ops : List Op) (s t : XnBufferPool),
    (∀ op ∈ ops, op.stable = true) → (∀ op ∈ ops, s.unmarkedAt op.released = true) →
    s.run ops = some t →
    t.destroyed = s.destroyed ∧ t.freed = s.freed ∧
    t.m_AllBuffers = s.m_AllBuffers ++ List.range' s.heap.length (ops.countP Op.registers) ∧
    t.heap.length = s.heap.length + ops.countP Op.registers := by
  intro ops
  induction ops with
  | nil =>
    intro s t _ _ ht
    simp only [run, Option.some.injEq] at ht
    subst ht
    simp
  | cons op ops ih =>
    intro s t hst hrel ht
    simp only [run] at ht
    cases h1 : s.step op with
    | none => rw [h1] at ht; cases ht
    | some u =>
      rw [h1] at ht
      simp only [Option.some_bind] at ht
      obtain ⟨hd, hf, ha, hl, hu⟩ :=
        stable_step s u op (hst op (List.mem_cons_self _ _)) (hrel op (List.mem_cons_self _ _)) h1
      obtain ⟨hd2, hf2, ha2, hl2⟩ := ih u t
        (fun o ho => hst o (List.mem_cons_of_mem _ ho))
        (fun o ho => hu _ (hrel o (List.mem_cons_of_mem _ ho))) ht
      refine ⟨hd2.trans hd, hf2.trans hf, ?_, ?_⟩
      · rw [ha2, ha, hl, List.countP_cons]
        cases hr : op.registers
        · simp
        · simp only [if_true, List.append_assoc, List.singleton_append]
          rw [List.range'_succ]
      · rw [hl2, hl, List.countP_cons]
        cases hr : op.registers
        · simp
        · simp only [if_true]
          omega

/-- C20: buffers are discarded only by resize or shutdown.  Take a pool in
which no record is marked for destruction and a sequence of calls of
`AddNewBuffer`, `GetBuffer`, `AddRef`, `CopyRef` and `DecRef` (with any
arguments) that runs to the end.  After every initial part of the sequence the
destruction hook has not been invoked, no record has been discarded, and
`m_AllBuffers` is the initial list followed by the addresses of the records
registered by the calls of `AddNewBuffer` so far, which are the consecutive
addresses from the first unused one on; so the initial list stays an initial
part and nothing is removed. -/
theorem C20_no_discard (s t : XnBufferPool) (ops : List Op)
    (hno : ∀ p b, s.deref p = some b → b.m_bDestroy = false)
    (hst : ∀ op ∈ ops, op.stable = true) (hrun : s.run ops = some t) :
    (∀ pre suf, ops = pre ++ suf → ∃ u, s.run pre = some u ∧
      u.destroyed = s.destroyed ∧ u.freed = s.freed ∧
      u.m_AllBuffers =
        s.m_AllBuffers ++ List.range' s.heap.length (pre.countP Op.registers) ∧
      (∀ p ∈ s.m_AllBuffers, p ∈ u.m_AllBuffers)) ∧
    t.destroyed = s.destroyed ∧
    t.m_AllBuffers = s.m_AllBuffers ++ List.range' s.heap.length (ops.countP Op.registers) := by
  have hun : ∀ hd, s.unmarkedAt hd = true := by
    intro hd
    cases hd with
    | none => rfl
    | some p =>
      unfold unmarkedAt
      simp only
      cases hb : s.deref p with
      | none => rfl
      | some b => simp only [hno p b hb]; rfl
  refine ⟨?_, ?_⟩
  · intro pre suf hsplit
    subst hsplit
    rw [run_append] at hrun
    cases hu : s.run pre with
    | none => rw [hu] at hrun; cases hrun
    | some u =>
      obtain ⟨hd, hf, ha, -⟩ := stable_run pre s u
        (fun o ho => hst o (List.mem_append_left _ ho)) (fun o _ => hun _) hu
      refine ⟨u, rfl, hd, hf, ha, ?_⟩
      intro p hp
      rw [ha]
      exact List.mem_append_left _ hp
  · obtain ⟨hd, -, ha, -⟩ := stable_run ops s t hst (fun o _ => hun _) hrun
    exact ⟨hd, ha⟩

theorem exFresh_unmarked : ∀ p b, exFresh.deref p = some b → b.m_bDestroy = false := by
  intro p b h
  have hl : p < 2 := deref_lt h
  have h1 := deref_heap h
  rcases p with _ | _ | p
  · cases h1; rfl
  · cases h1; rfl
  · exact absurd hl (by simp)

/-- The run `exQueueOps` on the pool of two free buffers registers one buffer:
`m_AllBuffers` ends as `[0, 1, 2]` and nothing is destroyed. -/
theorem C20_no_discard_witness :
    (∀ p b, exFresh.deref p = some b → b.m_bDestroy = false) ∧
    (∀ op ∈ exQueueOps, op.stable = true) ∧
    ∃ t, exFresh.run exQueueOps = some t ∧
      t.m_AllBuffers = [0, 1, 2] ∧
      ((∀ pre suf, exQueueOps = pre ++ suf → ∃ u, exFresh.run pre = some u ∧
        u.destroyed = exFresh.destroyed ∧ u.freed = exFresh.freed ∧
        u.m_AllBuffers = exFresh.m_AllBuffers ++
          List.range' exFresh.heap.length (pre.countP Op.registers) ∧
        (∀ p ∈ exFresh.m_AllBuffers, p ∈ u.m_AllBuffers)) ∧
      t.destroyed = exFresh.destroyed ∧
      t.m_AllBuffers = exFresh.m_AllBuffers ++
        List.range' exFresh.heap.length (exQueueOps.countP Op.registers)) := by
  have hst : ∀ op ∈ exQueueOps, op.stable = true := by decide
  have hsome : (exFresh.run exQueueOps).isSome = true := by decide
  obtain ⟨t, ht⟩ := Option.isSome_iff_exists.mp hsome
  have hall : t.m_AllBuffers = [0, 1, 2] := by
    have : (exFresh.run exQueueOps).map (fun u => u.m_AllBuffers) = some [0, 1, 2] := by decide
    rw [ht] at this
    exact Option.some.inj this
  exact ⟨exFresh_unmarked, hst, t, ht, hall,
    C20_no_discard exFresh t exQueueOps exFresh_unmarked hst ht⟩

end XnBufferPool
